import Mathlib

/-!
# funslang `wrapper/mandelbrot.c`: animation and render pipeline

A shallow embedding of `src/wrapper/mandelbrot.c`.

Modelling conventions.

* `GLfloat`, `float` and `double` values are elements of a field `α` that
  comes with two rounding maps (class `Rounding`): `toDouble`, applied to the
  exact result of every `double` operation and to every decimal `double`
  literal, and `toFloat`, applied where a `double` is stored into a `float`
  field. Two instances are used. On `ℚ` the maps are IEEE 754 binary64 and
  binary32 round-to-nearest, ties-to-even (`roundBinary 53`, `roundBinary 24`,
  exponent range unbounded: overflow to infinity and subnormal numbers are
  not modelled); this is the arithmetic of the program. On `ℝ` both maps are
  the identity (exact arithmetic); it is used only for properties on which
  rounding does not bear (signs, copied values, integer state).
* Every `double` operation is rounded once to binary64 (no extended
  intermediate precision, no fused multiply-add); conversions of `int` to
  `double` are exact.
* `M_PI` and `cos` come from `<math.h>`, which is not part of the
  repository; every function that uses them takes them as parameters. In the
  machine arithmetic `M_PI` is `M_PI_double`, and what a theorem needs of the
  library cosine (a value at one point, or values in `[-1, 1]`) is stated in
  it.
* `int` is modelled by `Int`; the result of every `int` operation of the
  source is reduced to the 32-bit two's-complement range by `wrapInt`.
* The reading of `glutGet(GLUT_ELAPSED_TIME)` is an input `t : Int`.
* Calls into GL / GLUT / funslang and `printf` are recorded as a list of
  `Event`s in call order.
* The fields `from` and `to` of `VertexUniforms` are named `from_` and `to_`.
* The four function-local `static double phase` accumulators of `frame`
  are the state fields `phaseX`, `phaseY`, `phaseZ`, `phaseZoom`.
-/

namespace Mandelbrot

/-! ## Data -/

/-- A `GLfloat[4][4]`. -/
abbrev Mat4 (α : Type) := Matrix (Fin 4) (Fin 4) α

/-- A `float[3]`. -/
abbrev Vec3 (α : Type) := Fin 3 → α

section Faces
variable {α : Type} [Field α]

def g_ModelMatrixFaceA : Mat4 α :=
  !![ 1,  0,  0,  0;
      0,  1,  0,  0;
      0,  0,  1,  0;
      0,  0,  0,  1]

def g_ModelMatrixFaceB : Mat4 α :=
  !![ 0,  0, -1,  0;
      0,  1,  0,  0;
      1,  0,  0,  0;
      0,  0,  0,  1]

def g_ModelMatrixFaceC : Mat4 α :=
  !![-1,  0,  0,  0;
      0,  1,  0,  0;
      0,  0, -1,  0;
      0,  0,  0,  1]

def g_ModelMatrixFaceD : Mat4 α :=
  !![ 0,  0,  1,  0;
      0,  1,  0,  0;
     -1,  0,  0,  0;
      0,  0,  0,  1]

def g_ModelMatrixFaceE : Mat4 α :=
  !![ 1,  0,  0,  0;
      0,  0,  1,  0;
      0, -1,  0,  0;
      0,  0,  0,  1]

def g_ModelMatrixFaceF : Mat4 α :=
  !![ 1,  0,  0,  0;
      0,  0, -1,  0;
      0,  1,  0,  0;
      0,  0,  0,  1]

/-- The face matrices in the order in which `render` copies them into
`g_vu.model` (A, B, C, D, E, F); indices past 5 are not used. -/
def faceMatrix (f : Nat) : Mat4 α :=
  match f with
  | 0 => g_ModelMatrixFaceA
  | 1 => g_ModelMatrixFaceB
  | 2 => g_ModelMatrixFaceC
  | 3 => g_ModelMatrixFaceD
  | 4 => g_ModelMatrixFaceE
  | _ => g_ModelMatrixFaceF

/-- The upper-left 3×3 block of a 4×4 matrix. -/
def upper3 (M : Mat4 α) : Matrix (Fin 3) (Fin 3) α :=
  !![M 0 0, M 0 1, M 0 2;
     M 1 0, M 1 1, M 1 2;
     M 2 0, M 2 1, M 2 2]

/-- Orthonormality of a face matrix, in the words of the specification: the
matrix times its transpose and the transpose times the matrix are the
identity, the transpose is the inverse, and the determinant has absolute
value 1. -/
def IsOrthonormal (M : Mat4 ℝ) : Prop :=
  M * M.transpose = 1 ∧ M.transpose * M = 1 ∧ M⁻¹ = M.transpose ∧ |M.det| = 1

/-- A pure rotation, in the words of the specification: no translation and
no scale (fourth row and fourth column are `(0, 0, 0, 1)`), and an orthogonal
upper-left 3×3 block of determinant `+1`. -/
def IsPureRotation (M : Mat4 ℝ) : Prop :=
  M 3 = ![0, 0, 0, 1] ∧ M.transpose 3 = ![0, 0, 0, 1] ∧
  upper3 M * (upper3 M).transpose = 1 ∧ (upper3 M).transpose * upper3 M = 1 ∧
  (upper3 M).det = 1

end Faces

/-! ## Machine arithmetic -/

/-- The two roundings of the machine arithmetic: to `double` and to `float`. -/
class Rounding (α : Type) where
  toDouble : α → α
  toFloat : α → α

/-- Rounding of a rational to the nearest integer, ties to the even one. -/
def roundHalfEven (m : ℚ) : ℤ :=
  if m - ⌊m⌋ < 1 / 2 then ⌊m⌋
  else if 1 / 2 < m - ⌊m⌋ then ⌊m⌋ + 1
  else if ⌊m⌋ % 2 = 0 then ⌊m⌋ else ⌊m⌋ + 1

/-- Rounding of a rational to the nearest binary floating-point number with
`p` significand bits, ties to even, the exponent being unbounded: with
`e = ⌊log₂ |x|⌋` the result is the multiple of `2 ^ (e - (p - 1))` nearest to
`x`. -/
def roundBinary (p : ℕ) (x : ℚ) : ℚ :=
  if x = 0 then 0
  else (roundHalfEven (x / 2 ^ (Int.log 2 |x| - ((p : ℤ) - 1))) : ℚ)
         * 2 ^ (Int.log 2 |x| - ((p : ℤ) - 1))

/-- IEEE 754 arithmetic on `ℚ`: binary64 for `double`, binary32 for `float`. -/
instance instRoundingRat : Rounding ℚ where
  toDouble := roundBinary 53
  toFloat := roundBinary 24

/-- Exact arithmetic on `ℝ`: nothing is rounded. -/
instance instRoundingReal : Rounding ℝ where
  toDouble := id
  toFloat := id

/-- The macro `M_PI` of `<math.h>`, `3.14159265358979323846`, as a `double`. -/
def M_PI_double : ℚ := roundBinary 53 3.14159265358979323846

section Arithmetic
variable {α : Type} [Field α] [Rounding α]

/-- The `double` addition `a + b`. -/
def dadd (a b : α) : α := Rounding.toDouble (a + b)

/-- The `double` multiplication `a * b`. -/
def dmul (a b : α) : α := Rounding.toDouble (a * b)

/-- The `double` division `a / b`. -/
def ddiv (a b : α) : α := Rounding.toDouble (a / b)

/-- The expression `2 * M_PI * g_TimeDelta / 1000.0` of `updateFPS` and
`frame`: the `int` is converted to `double` (exactly), then one `double`
multiplication and one `double` division follow the product `2 * M_PI`. -/
def phaseDeltaOf (M_PI : α) (timeDelta : Int) : α :=
  ddiv (dmul (dmul 2 M_PI) (timeDelta : α)) 1000.0

/-- The expression `1.1 + 0.9 * cos(phase)` of `frame`, evaluated in
`double`, as stored into the `float` field `g_fu.Zoom`. -/
def zoomOf (cos : α → α) (phase : α) : α :=
  Rounding.toFloat
    (dadd (Rounding.toDouble 1.1) (dmul (Rounding.toDouble 0.9) (cos phase)))

end Arithmetic

structure VertexUniforms (α : Type) where
  proj : Mat4 α
  model : Mat4 α
  rotx : α
  roty : α
  rotz : α
  from_ : Vec3 α
  to_ : Vec3 α
  up : Vec3 α

structure FragmentUniforms (α : Type) where
  Zoom : α
  Xcenter : α
  Ycenter : α
  InnerColor : Vec3 α
  OuterColor1 : Vec3 α
  OuterColor2 : Vec3 α

/-- The global variables of the program, together with the four
function-local static `phase` accumulators of `frame`. -/
structure State (α : Type) where
  g_vu : VertexUniforms α
  g_fu : FragmentUniforms α
  g_FrameNumThisTick : Int
  g_TickTime : Int
  g_Time : Int
  g_TimeDelta : Int
  g_PhaseDelta : α
  g_IsRotatingX : Bool
  g_IsRotatingY : Bool
  g_IsRotatingZ : Bool
  g_IsZooming : Bool
  phaseX : α
  phaseY : α
  phaseZ : α
  phaseZoom : α

/-- Observable calls, in call order. -/
inductive Event (α : Type) where
  | printFPS (fps : α)
  | glClear
  | fsSetVertexUniforms (vu : VertexUniforms α)
  | fsSetFragmentUniforms (fu : FragmentUniforms α)
  | glDrawArrays
  | glutSwapBuffers

section Program
variable {α : Type} [Field α] [Rounding α]

/-- The static initialiser of `g_vu`. -/
def g_vu_init : VertexUniforms α where
  proj := 0
  model := 0
  rotx := 0
  roty := 0
  rotz := 0
  from_ := ![1.5, 1.5, 1.5]
  to_ := ![0, 0, 0]
  up := ![0, 1, 0]

/-- The static initialiser of `g_fu`. -/
def g_fu_init : FragmentUniforms α where
  Zoom := 2
  Xcenter := 0
  Ycenter := 0
  InnerColor := ![0, 0, 0]
  OuterColor1 := ![1, 0.5, 0]
  OuterColor2 := ![1, 0, 0]

/-- The state given by the static initialisers (objects of static storage
duration without an initialiser are zero). -/
def initState : State α where
  g_vu := g_vu_init
  g_fu := g_fu_init
  g_FrameNumThisTick := 0
  g_TickTime := 0
  g_Time := 0
  g_TimeDelta := 0
  g_PhaseDelta := 0
  g_IsRotatingX := false
  g_IsRotatingY := false
  g_IsRotatingZ := false
  g_IsZooming := false
  phaseX := 0
  phaseY := 0
  phaseZ := 0
  phaseZoom := 0

/-- The state when `main` enters the main loop: the static initialisers
with `g_vu.proj` overwritten by the projection matrix `P` that
`glGetFloatv(GL_PROJECTION_MATRIX, ...)` returned. -/
def startState (P : Mat4 α) : State α :=
  { (initState : State α) with g_vu := { (g_vu_init : VertexUniforms α) with proj := P } }

/-- Reduction of an integer to the range of a 32-bit `int`. -/
def wrapInt (x : Int) : Int := (x + 2147483648) % 4294967296 - 2147483648

/-- `updateFPS`, with `t` the value returned by `glutGet(GLUT_ELAPSED_TIME)`. -/
def updateFPS (M_PI : α) (s : State α) (t : Int) : State α × List (Event α) :=
  let s1 := { s with g_FrameNumThisTick := wrapInt (s.g_FrameNumThisTick + 1) }
  let s2 := { s1 with g_TimeDelta := wrapInt (s1.g_Time - t) }
  let s3 := { s2 with g_PhaseDelta := phaseDeltaOf M_PI s2.g_TimeDelta }
  let s4 := { s3 with g_Time := t }
  let timeThisTick := wrapInt (s4.g_Time - s4.g_TickTime)
  if timeThisTick > 1000 then
    ({ s4 with g_TickTime := s4.g_Time, g_FrameNumThisTick := 0 },
     [Event.printFPS (ddiv (dmul (s4.g_FrameNumThisTick : α) 1000.0) (timeThisTick : α))])
  else
    (s4, [])

/-- `key`: the `switch` on the character, each case returning at once. -/
def key (s : State α) (key : Char) (_x _y : Int) : State α :=
  if key = 'i' then { s with g_IsRotatingX := !s.g_IsRotatingX }
  else if key = 'j' then { s with g_IsRotatingY := !s.g_IsRotatingY }
  else if key = 'k' then { s with g_IsRotatingZ := !s.g_IsRotatingZ }
  else if key = 'z' then { s with g_IsZooming := !s.g_IsZooming }
  else s

/-- One block of `render`: `memcpy` of a face matrix into `g_vu.model`,
upload of both uniform blocks, one quad draw. -/
def drawFace (M : Mat4 α) (s : State α) : State α × List (Event α) :=
  let s1 := { s with g_vu := { s.g_vu with model := M } }
  (s1, [Event.fsSetVertexUniforms s1.g_vu, Event.fsSetFragmentUniforms s1.g_fu,
        Event.glDrawArrays])

/-- `render`. -/
def render (s : State α) : State α × List (Event α) :=
  let a := drawFace g_ModelMatrixFaceA s
  let b := drawFace g_ModelMatrixFaceB a.1
  let c := drawFace g_ModelMatrixFaceC b.1
  let d := drawFace g_ModelMatrixFaceD c.1
  let e := drawFace g_ModelMatrixFaceE d.1
  let f := drawFace g_ModelMatrixFaceF e.1
  (f.1, [Event.glClear] ++ a.2 ++ b.2 ++ c.2 ++ d.2 ++ e.2 ++ f.2 ++ [Event.glutSwapBuffers])

/-- The four `if` blocks of `frame`, between `updateFPS()` and `render()`.
Each `static double phase` is advanced in `double` arithmetic; the
assignments to the `float` fields `g_vu.rotx`, `g_vu.roty`, `g_vu.rotz` and
`g_fu.Zoom` narrow the `double` value to `float`. -/
def animate (M_PI : α) (cos : α → α) (s : State α) : State α :=
  let s1 :=
    if s.g_IsRotatingX then
      let phase := dadd s.phaseX (ddiv s.g_PhaseDelta 4)
      { s with phaseX := phase, g_vu := { s.g_vu with rotx := Rounding.toFloat phase } }
    else s
  let s2 :=
    if s1.g_IsRotatingY then
      let phase := dadd s1.phaseY (ddiv s1.g_PhaseDelta 4)
      { s1 with phaseY := phase, g_vu := { s1.g_vu with roty := Rounding.toFloat phase } }
    else s1
  let s3 :=
    if s2.g_IsRotatingZ then
      let phase := dadd s2.phaseZ (ddiv s2.g_PhaseDelta 4)
      { s2 with phaseZ := phase, g_vu := { s2.g_vu with rotz := Rounding.toFloat phase } }
    else s2
  if s3.g_IsZooming then
    let phase := dadd s3.phaseZoom (phaseDeltaOf M_PI s3.g_TimeDelta)
    { s3 with phaseZoom := phase, g_fu := { s3.g_fu with Zoom := zoomOf cos phase } }
  else s3

/-- `frame`, with `t` the clock reading that its `updateFPS()` call gets. -/
def frame (M_PI : α) (cos : α → α) (s : State α) (t : Int) : State α × List (Event α) :=
  let u := updateFPS M_PI s t
  let r := render (animate M_PI cos u.1)
  (r.1, u.2 ++ r.2)

/-- What the GLUT main loop can invoke: the keyboard callback `key`, the
idle callback `frame` (with the clock reading it will get) and the display
callback `render`. -/
inductive Input where
  | keyboard (c : Char) (x y : Int)
  | idle (t : Int)
  | display

def step (M_PI : α) (cos : α → α) (s : State α) : Input → State α × List (Event α)
  | Input.keyboard c x y => (key s c x y, [])
  | Input.idle t => frame M_PI cos s t
  | Input.display => render s

/-- The state after a sequence of callbacks. -/
def run (M_PI : α) (cos : α → α) (s : State α) : List Input → State α
  | [] => s
  | i :: is => run M_PI cos (step M_PI cos s i).1 is

/-- The state after a sequence of `frame` calls with the given clock readings. -/
def frames (M_PI : α) (cos : α → α) (s : State α) : List Int → State α
  | [] => s
  | t :: ts => frames M_PI cos (frame M_PI cos s t).1 ts

/-- The values of `g_TimeDelta` (`deltaMillis`) stored by the successive
`frame` calls of a run with the given clock readings. -/
def frameDeltas (M_PI : α) (cos : α → α) (s : State α) : List Int → List Int
  | [] => []
  | t :: ts =>
    (frame M_PI cos s t).1.g_TimeDelta :: frameDeltas M_PI cos (frame M_PI cos s t).1 ts

/-- The calls made during a sequence of callbacks, in call order. -/
def runTrace (M_PI : α) (cos : α → α) (s : State α) : List Input → List (Event α)
  | [] => []
  | i :: is => (step M_PI cos s i).2 ++ runTrace M_PI cos (step M_PI cos s i).1 is

/-- The transform blocks that a trace uploads with `fsSetVertexUniforms`, in order. -/
def vertexUploads : List (Event α) → List (VertexUniforms α)
  | [] => []
  | Event.fsSetVertexUniforms vu :: es => vu :: vertexUploads es
  | _ :: es => vertexUploads es

/-- The effect blocks that a trace uploads with `fsSetFragmentUniforms`, in order. -/
def fragmentUploads : List (Event α) → List (FragmentUniforms α)
  | [] => []
  | Event.fsSetFragmentUniforms fu :: es => fu :: fragmentUploads es
  | _ :: es => fragmentUploads es

/-- The shared quad `g_vv[4*3]`: four vertices of three coordinates each. -/
def g_vv : Fin 12 → α :=
  ![-1, -1, 1,
     1, -1, 1,
     1,  1, 1,
    -1,  1, 1]

/-- The `i`-th vertex of `g_vv`. -/
def quadVertex (i : Fin 4) : Vec3 α :=
  match i with
  | 0 => ![g_vv 0, g_vv 1, g_vv 2]
  | 1 => ![g_vv 3, g_vv 4, g_vv 5]
  | 2 => ![g_vv 6, g_vv 7, g_vv 8]
  | 3 => ![g_vv 9, g_vv 10, g_vv 11]

/-- The normal of the quad `g_vv`, which lies in the plane `z = +1`. -/
def quadNormal : Vec3 α := ![0, 0, 1]

def WINDOW_W : Nat := 1000

def WINDOW_H : Nat := 1000

/-- The calls that `main` makes, in call order. -/
inductive StartupCall (α : Type) where
  | fsInit
  | glutInit
  | glutInitDisplayMode
  | glutInitWindowSize (w h : Nat)
  | glutCreateWindow (title : String)
  | glewInit
  | printf (msg : String)
  | glEnable
  | glMatrixMode
  | glLoadIdentity
  | gluPerspective (fovy aspect zNear zFar : α)
  | glGetFloatv
  | fsCompile (vertex_shader_path fragment_shader_path : String)
  | glUseProgram
  | fsSetVertexVaryings
  | glutDisplayFunc
  | glutIdleFunc
  | glutKeyboardFunc
  | glutMainLoop

/-- How `main` ends: it returns an exit status, or it is inside
`glutMainLoop()` (which does not return) with the given global state. -/
inductive Outcome (α : Type) where
  | exit (status : Int)
  | mainLoop (s : State α)

/-- The calls of `main` up to and including `glewInit()`. -/
def mainPrologue : List (StartupCall α) :=
  [StartupCall.fsInit, StartupCall.glutInit, StartupCall.glutInitDisplayMode,
   StartupCall.glutInitWindowSize WINDOW_W WINDOW_H,
   StartupCall.glutCreateWindow ("demo"), StartupCall.glewInit]

/-- The calls of `main` from `glEnable(GL_CULL_FACE)` to `fsCompile`. -/
def mainSetup : List (StartupCall α) :=
  [StartupCall.glEnable, StartupCall.glMatrixMode, StartupCall.glLoadIdentity,
   StartupCall.gluPerspective 60.0 1.0 1.0 10.0, StartupCall.glGetFloatv,
   StartupCall.fsCompile ("../funslang/Mandelbrot.vp") ("../funslang/Mandelbrot.fp")]

/-- `main`. The results of the external calls are inputs: `glewInitOk` says
whether `glewInit()` returned `GLEW_OK`, `GLEW_VERSION_2_0` is the value of
that GLEW flag, `P` is the matrix that `glGetFloatv` stores in `g_vu.proj`,
and `fsCompileOk` is the value returned by `fsCompile(&g_Program)`. -/
def main (glewInitOk GLEW_VERSION_2_0 : Bool) (P : Mat4 α) (fsCompileOk : Bool) :
    Outcome α × List (StartupCall α) :=
  if !glewInitOk || !GLEW_VERSION_2_0 then
    (Outcome.exit 1, mainPrologue ++ [StartupCall.printf ("OpenGL 2.0 is required!")])
  else if !fsCompileOk then
    (Outcome.exit 1, mainPrologue ++ mainSetup)
  else
    (Outcome.mainLoop (startState P),
     mainPrologue ++ mainSetup ++
       [StartupCall.glUseProgram, StartupCall.fsSetVertexVaryings,
        StartupCall.glutDisplayFunc, StartupCall.glutIdleFunc,
        StartupCall.glutKeyboardFunc, StartupCall.glutMainLoop])

/-- The six outward unit normals of the cube `[-1, 1]³`: the faces
`x = ±1`, `y = ±1`, `z = ±1`. -/
def cubeNormals : List (Vec3 α) :=
  [![1, 0, 0], ![-1, 0, 0], ![0, 1, 0], ![0, -1, 0], ![0, 0, 1], ![0, 0, -1]]

/-- A face of the cube `[-1, 1]³` assembled from the quad, in the words of
the specification: `img` (the action of a face matrix on vectors) sends the
normal of the quad to `n`, and sends the four quad vertices to four different
corners of the cube (every coordinate is `±1`) that lie in the face plane
whose outward normal is `n` (`v · n = 1`). -/
def IsCubeFace (img : Vec3 ℝ → Vec3 ℝ) (n : Vec3 ℝ) : Prop :=
  img quadNormal = n ∧
  Function.Injective (fun i : Fin 4 => img (quadVertex i)) ∧
  ∀ i : Fin 4,
    (∀ k : Fin 3, img (quadVertex i) k = 1 ∨ img (quadVertex i) k = -1) ∧
    Matrix.dotProduct (img (quadVertex i)) n = 1

/-- The images of the quad normal under the six face matrices, in draw
order, with vectors as columns (`M·v`). -/
def faceNormalsCol : List (Vec3 α) :=
  (List.range 6).map fun f => Matrix.mulVec (upper3 (faceMatrix f)) quadNormal

/-- The images of the quad normal under the six face matrices, in draw
order, with vectors as rows (`v·M`). -/
def faceNormalsRow : List (Vec3 α) :=
  (List.range 6).map fun f => Matrix.vecMul quadNormal (upper3 (faceMatrix f))

end Program

end Mandelbrot

namespace Mandelbrot

open Real

/-! ## Frame lemmas -/

section KeyLemmas
variable {α : Type}

/-- The callback `key` touches neither the uniform blocks nor the phases nor
the clock. -/
theorem key_frame (s : State α) (c : Char) (x y : Int) :
    (key s c x y).g_vu = s.g_vu ∧ (key s c x y).g_fu = s.g_fu ∧
    (key s c x y).phaseX = s.phaseX ∧ (key s c x y).phaseY = s.phaseY ∧
    (key s c x y).phaseZ = s.phaseZ ∧ (key s c x y).phaseZoom = s.phaseZoom ∧
    (key s c x y).g_FrameNumThisTick = s.g_FrameNumThisTick ∧
    (key s c x y).g_TickTime = s.g_TickTime ∧ (key s c x y).g_Time = s.g_Time ∧
    (key s c x y).g_TimeDelta = s.g_TimeDelta ∧
    (key s c x y).g_PhaseDelta = s.g_PhaseDelta := by
  unfold key
  split_ifs <;> simp

/-- The toggle that each of the four keys flips. -/
theorem key_toggles (s : State α) (x y : Int) :
    (key s 'i' x y).g_IsRotatingX = !s.g_IsRotatingX ∧
    (key s 'j' x y).g_IsRotatingY = !s.g_IsRotatingY ∧
    (key s 'k' x y).g_IsRotatingZ = !s.g_IsRotatingZ ∧
    (key s 'z' x y).g_IsZooming = !s.g_IsZooming := by
  simp [key]

end KeyLemmas

section MatrixLemmas

/-- A real 4×4 matrix with `M * Mᵀ = 1` is orthonormal. -/
theorem isOrthonormal_of_mul_transpose (M : Mat4 ℝ) (h : M * M.transpose = 1) :
    IsOrthonormal M := by
  have hinv : M⁻¹ = M.transpose := Matrix.inv_eq_right_inv h
  have h2 : M.transpose * M = 1 := by
    rw [← hinv]
    exact Matrix.nonsing_inv_mul M (Matrix.isUnit_det_of_right_inverse h)
  have hd : M.det * M.det = 1 := by
    have := congrArg Matrix.det h
    rwa [Matrix.det_mul, Matrix.det_transpose, Matrix.det_one] at this
  refine ⟨h, h2, hinv, ?_⟩
  have h3 : |M.det| * |M.det| = 1 := by rw [← abs_mul, hd, abs_one]
  nlinarith [abs_nonneg M.det]

theorem pureRotation_FaceA : IsPureRotation g_ModelMatrixFaceA := by
  refine ⟨?_, ?_, ?_, ?_, ?_⟩
  · funext j
    fin_cases j <;> simp [g_ModelMatrixFaceA, Matrix.vecHead, Matrix.vecTail]
  · funext j
    fin_cases j <;> simp [g_ModelMatrixFaceA, Matrix.transpose_apply, Matrix.vecHead, Matrix.vecTail]
  · ext i j
    fin_cases i <;> fin_cases j <;>
      simp [upper3, g_ModelMatrixFaceA, Matrix.mul_apply, Fin.sum_univ_three, Matrix.transpose_apply,
        Matrix.vecHead, Matrix.vecTail]
  · ext i j
    fin_cases i <;> fin_cases j <;>
      simp [upper3, g_ModelMatrixFaceA, Matrix.mul_apply, Fin.sum_univ_three, Matrix.transpose_apply,
        Matrix.vecHead, Matrix.vecTail]
  · simp [Matrix.det_fin_three, upper3, g_ModelMatrixFaceA]

theorem pureRotation_FaceB : IsPureRotation g_ModelMatrixFaceB := by
  refine ⟨?_, ?_, ?_, ?_, ?_⟩
  · funext j
    fin_cases j <;> simp [g_ModelMatrixFaceB, Matrix.vecHead, Matrix.vecTail]
  · funext j
    fin_cases j <;> simp [g_ModelMatrixFaceB, Matrix.transpose_apply, Matrix.vecHead, Matrix.vecTail]
  · ext i j
    fin_cases i <;> fin_cases j <;>
      simp [upper3, g_ModelMatrixFaceB, Matrix.mul_apply, Fin.sum_univ_three, Matrix.transpose_apply,
        Matrix.vecHead, Matrix.vecTail]
  · ext i j
    fin_cases i <;> fin_cases j <;>
      simp [upper3, g_ModelMatrixFaceB, Matrix.mul_apply, Fin.sum_univ_three, Matrix.transpose_apply,
        Matrix.vecHead, Matrix.vecTail]
  · simp [Matrix.det_fin_three, upper3, g_ModelMatrixFaceB]

theorem pureRotation_FaceC : IsPureRotation g_ModelMatrixFaceC := by
  refine ⟨?_, ?_, ?_, ?_, ?_⟩
  · funext j
    fin_cases j <;> simp [g_ModelMatrixFaceC, Matrix.vecHead, Matrix.vecTail]
  · funext j
    fin_cases j <;> simp [g_ModelMatrixFaceC, Matrix.transpose_apply, Matrix.vecHead, Matrix.vecTail]
  · ext i j
    fin_cases i <;> fin_cases j <;>
      simp [upper3, g_ModelMatrixFaceC, Matrix.mul_apply, Fin.sum_univ_three, Matrix.transpose_apply,
        Matrix.vecHead, Matrix.vecTail]
  · ext i j
    fin_cases i <;> fin_cases j <;>
      simp [upper3, g_ModelMatrixFaceC, Matrix.mul_apply, Fin.sum_univ_three, Matrix.transpose_apply,
        Matrix.vecHead, Matrix.vecTail]
  · simp [Matrix.det_fin_three, upper3, g_ModelMatrixFaceC]

theorem pureRotation_FaceD : IsPureRotation g_ModelMatrixFaceD := by
  refine ⟨?_, ?_, ?_, ?_, ?_⟩
  · funext j
    fin_cases j <;> simp [g_ModelMatrixFaceD, Matrix.vecHead, Matrix.vecTail]
  · funext j
    fin_cases j <;> simp [g_ModelMatrixFaceD, Matrix.transpose_apply, Matrix.vecHead, Matrix.vecTail]
  · ext i j
    fin_cases i <;> fin_cases j <;>
      simp [upper3, g_ModelMatrixFaceD, Matrix.mul_apply, Fin.sum_univ_three, Matrix.transpose_apply,
        Matrix.vecHead, Matrix.vecTail]
  · ext i j
    fin_cases i <;> fin_cases j <;>
      simp [upper3, g_ModelMatrixFaceD, Matrix.mul_apply, Fin.sum_univ_three, Matrix.transpose_apply,
        Matrix.vecHead, Matrix.vecTail]
  · simp [Matrix.det_fin_three, upper3, g_ModelMatrixFaceD]

theorem pureRotation_FaceE : IsPureRotation g_ModelMatrixFaceE := by
  refine ⟨?_, ?_, ?_, ?_, ?_⟩
  · funext j
    fin_cases j <;> simp [g_ModelMatrixFaceE, Matrix.vecHead, Matrix.vecTail]
  · funext j
    fin_cases j <;> simp [g_ModelMatrixFaceE, Matrix.transpose_apply, Matrix.vecHead, Matrix.vecTail]
  · ext i j
    fin_cases i <;> fin_cases j <;>
      simp [upper3, g_ModelMatrixFaceE, Matrix.mul_apply, Fin.sum_univ_three, Matrix.transpose_apply,
        Matrix.vecHead, Matrix.vecTail]
  · ext i j
    fin_cases i <;> fin_cases j <;>
      simp [upper3, g_ModelMatrixFaceE, Matrix.mul_apply, Fin.sum_univ_three, Matrix.transpose_apply,
        Matrix.vecHead, Matrix.vecTail]
  · simp [Matrix.det_fin_three, upper3, g_ModelMatrixFaceE]

theorem pureRotation_FaceF : IsPureRotation g_ModelMatrixFaceF := by
  refine ⟨?_, ?_, ?_, ?_, ?_⟩
  · funext j
    fin_cases j <;> simp [g_ModelMatrixFaceF, Matrix.vecHead, Matrix.vecTail]
  · funext j
    fin_cases j <;> simp [g_ModelMatrixFaceF, Matrix.transpose_apply, Matrix.vecHead, Matrix.vecTail]
  · ext i j
    fin_cases i <;> fin_cases j <;>
      simp [upper3, g_ModelMatrixFaceF, Matrix.mul_apply, Fin.sum_univ_three, Matrix.transpose_apply,
        Matrix.vecHead, Matrix.vecTail]
  · ext i j
    fin_cases i <;> fin_cases j <;>
      simp [upper3, g_ModelMatrixFaceF, Matrix.mul_apply, Fin.sum_univ_three, Matrix.transpose_apply,
        Matrix.vecHead, Matrix.vecTail]
  · simp [Matrix.det_fin_three, upper3, g_ModelMatrixFaceF]

end MatrixLemmas

section RenderStateLemmas
variable {α : Type} [Field α]

@[simp] theorem render_fst (s : State α) :
    (render s).1 = { s with g_vu := { s.g_vu with model := g_ModelMatrixFaceF } } := rfl

end RenderStateLemmas

section ExactLemmas

@[simp] theorem toDouble_real (x : ℝ) : Rounding.toDouble x = x := rfl

@[simp] theorem toFloat_real (x : ℝ) : Rounding.toFloat x = x := rfl

@[simp] theorem dadd_real (a b : ℝ) : dadd a b = a + b := rfl

@[simp] theorem dmul_real (a b : ℝ) : dmul a b = a * b := rfl

@[simp] theorem ddiv_real (a b : ℝ) : ddiv a b = a / b := rfl

theorem phaseDeltaOf_real (M_PI : ℝ) (d : Int) :
    phaseDeltaOf M_PI d = 2 * M_PI * (d : ℝ) / 1000 := by
  simp only [phaseDeltaOf, dmul_real, ddiv_real]
  norm_num

end ExactLemmas

section Lemmas
variable {α : Type} [Field α] [Rounding α]

theorem updateFPS_fst_TimeDelta (M_PI : α) (s : State α) (t : Int) :
    (updateFPS M_PI s t).1.g_TimeDelta = wrapInt (s.g_Time - t) := by
  unfold updateFPS
  dsimp only
  split <;> rfl

theorem updateFPS_fst_PhaseDelta (M_PI : α) (s : State α) (t : Int) :
    (updateFPS M_PI s t).1.g_PhaseDelta
      = phaseDeltaOf M_PI (wrapInt (s.g_Time - t)) := by
  unfold updateFPS
  dsimp only
  split <;> rfl

theorem updateFPS_fst_Time (M_PI : α) (s : State α) (t : Int) :
    (updateFPS M_PI s t).1.g_Time = t := by
  unfold updateFPS
  dsimp only
  split <;> rfl

/-- The part of the state that `updateFPS` leaves alone. -/
theorem updateFPS_fst_frame (M_PI : α) (s : State α) (t : Int) :
    (updateFPS M_PI s t).1.g_vu = s.g_vu ∧ (updateFPS M_PI s t).1.g_fu = s.g_fu ∧
    (updateFPS M_PI s t).1.g_IsRotatingX = s.g_IsRotatingX ∧
    (updateFPS M_PI s t).1.g_IsRotatingY = s.g_IsRotatingY ∧
    (updateFPS M_PI s t).1.g_IsRotatingZ = s.g_IsRotatingZ ∧
    (updateFPS M_PI s t).1.g_IsZooming = s.g_IsZooming ∧
    (updateFPS M_PI s t).1.phaseX = s.phaseX ∧ (updateFPS M_PI s t).1.phaseY = s.phaseY ∧
    (updateFPS M_PI s t).1.phaseZ = s.phaseZ ∧
    (updateFPS M_PI s t).1.phaseZoom = s.phaseZoom := by
  unfold updateFPS
  dsimp only
  split <;> simp

/-- What `animate` does to the X rotation. -/
theorem animate_X (M_PI : α) (cos : α → α) (s : State α) :
    (animate M_PI cos s).g_IsRotatingX = s.g_IsRotatingX ∧
    (animate M_PI cos s).phaseX
      = (if s.g_IsRotatingX then dadd s.phaseX (ddiv s.g_PhaseDelta 4) else s.phaseX) ∧
    (animate M_PI cos s).g_vu.rotx
      = (if s.g_IsRotatingX then Rounding.toFloat (dadd s.phaseX (ddiv s.g_PhaseDelta 4))
         else s.g_vu.rotx) := by
  obtain ⟨vu, fu, n, tk, tm, td, pd, bx, b_y, bz, bzm, px, py, pz, pzm⟩ := s
  cases bx <;> cases b_y <;> cases bz <;> cases bzm <;> simp [animate]

/-- What `animate` does to the Y rotation. -/
theorem animate_Y (M_PI : α) (cos : α → α) (s : State α) :
    (animate M_PI cos s).g_IsRotatingY = s.g_IsRotatingY ∧
    (animate M_PI cos s).phaseY
      = (if s.g_IsRotatingY then dadd s.phaseY (ddiv s.g_PhaseDelta 4) else s.phaseY) ∧
    (animate M_PI cos s).g_vu.roty
      = (if s.g_IsRotatingY then Rounding.toFloat (dadd s.phaseY (ddiv s.g_PhaseDelta 4))
         else s.g_vu.roty) := by
  obtain ⟨vu, fu, n, tk, tm, td, pd, bx, b_y, bz, bzm, px, py, pz, pzm⟩ := s
  cases bx <;> cases b_y <;> cases bz <;> cases bzm <;> simp [animate]

/-- What `animate` does to the Z rotation. -/
theorem animate_Z (M_PI : α) (cos : α → α) (s : State α) :
    (animate M_PI cos s).g_IsRotatingZ = s.g_IsRotatingZ ∧
    (animate M_PI cos s).phaseZ
      = (if s.g_IsRotatingZ then dadd s.phaseZ (ddiv s.g_PhaseDelta 4) else s.phaseZ) ∧
    (animate M_PI cos s).g_vu.rotz
      = (if s.g_IsRotatingZ then Rounding.toFloat (dadd s.phaseZ (ddiv s.g_PhaseDelta 4))
         else s.g_vu.rotz) := by
  obtain ⟨vu, fu, n, tk, tm, td, pd, bx, b_y, bz, bzm, px, py, pz, pzm⟩ := s
  cases bx <;> cases b_y <;> cases bz <;> cases bzm <;> simp [animate]

/-- What `animate` does to the zoom. -/
theorem animate_Zoom (M_PI : α) (cos : α → α) (s : State α) :
    (animate M_PI cos s).g_IsZooming = s.g_IsZooming ∧
    (animate M_PI cos s).phaseZoom
      = (if s.g_IsZooming then dadd s.phaseZoom (phaseDeltaOf M_PI s.g_TimeDelta)
         else s.phaseZoom) ∧
    (animate M_PI cos s).g_fu.Zoom
      = (if s.g_IsZooming then
           zoomOf cos (dadd s.phaseZoom (phaseDeltaOf M_PI s.g_TimeDelta))
         else s.g_fu.Zoom) := by
  obtain ⟨vu, fu, n, tk, tm, td, pd, bx, b_y, bz, bzm, px, py, pz, pzm⟩ := s
  cases bx <;> cases b_y <;> cases bz <;> cases bzm <;> simp [animate]

/-- The clock fields are not touched by `animate`. -/
theorem animate_clock (M_PI : α) (cos : α → α) (s : State α) :
    (animate M_PI cos s).g_TimeDelta = s.g_TimeDelta ∧
    (animate M_PI cos s).g_PhaseDelta = s.g_PhaseDelta ∧
    (animate M_PI cos s).g_Time = s.g_Time ∧
    (animate M_PI cos s).g_TickTime = s.g_TickTime ∧
    (animate M_PI cos s).g_FrameNumThisTick = s.g_FrameNumThisTick := by
  obtain ⟨vu, fu, n, tk, tm, td, pd, bx, b_y, bz, bzm, px, py, pz, pzm⟩ := s
  cases bx <;> cases b_y <;> cases bz <;> cases bzm <;> simp [animate]

theorem frame_fst (M_PI : α) (cos : α → α) (s : State α) (t : Int) :
    (frame M_PI cos s t).1 = (render (animate M_PI cos (updateFPS M_PI s t).1)).1 := rfl

/-- The clock fields after `frame`. -/
theorem frame_clock (M_PI : α) (cos : α → α) (s : State α) (t : Int) :
    (frame M_PI cos s t).1.g_TimeDelta = wrapInt (s.g_Time - t) ∧
    (frame M_PI cos s t).1.g_PhaseDelta
      = phaseDeltaOf M_PI (wrapInt (s.g_Time - t)) ∧
    (frame M_PI cos s t).1.g_Time = t := by
  rw [frame_fst, render_fst]
  have h := animate_clock M_PI cos (updateFPS M_PI s t).1
  refine ⟨?_, ?_, ?_⟩
  · exact h.1.trans (updateFPS_fst_TimeDelta M_PI s t)
  · exact h.2.1.trans (updateFPS_fst_PhaseDelta M_PI s t)
  · exact h.2.2.1.trans (updateFPS_fst_Time M_PI s t)

/-- The X rotation after `frame`. -/
theorem frame_X (M_PI : α) (cos : α → α) (s : State α) (t : Int) :
    (frame M_PI cos s t).1.g_IsRotatingX = s.g_IsRotatingX ∧
    (frame M_PI cos s t).1.phaseX
      = (if s.g_IsRotatingX then
           dadd s.phaseX (ddiv (phaseDeltaOf M_PI (wrapInt (s.g_Time - t))) 4)
         else s.phaseX) ∧
    (frame M_PI cos s t).1.g_vu.rotx
      = (if s.g_IsRotatingX then
           Rounding.toFloat
             (dadd s.phaseX (ddiv (phaseDeltaOf M_PI (wrapInt (s.g_Time - t))) 4))
         else s.g_vu.rotx) := by
  rw [frame_fst, render_fst]
  have h := animate_X M_PI cos (updateFPS M_PI s t).1
  have u := updateFPS_fst_frame M_PI s t
  rw [updateFPS_fst_PhaseDelta, u.1, u.2.2.1, u.2.2.2.2.2.2.1] at h
  exact h

/-- The Y rotation after `frame`. -/
theorem frame_Y (M_PI : α) (cos : α → α) (s : State α) (t : Int) :
    (frame M_PI cos s t).1.g_IsRotatingY = s.g_IsRotatingY ∧
    (frame M_PI cos s t).1.phaseY
      = (if s.g_IsRotatingY then
           dadd s.phaseY (ddiv (phaseDeltaOf M_PI (wrapInt (s.g_Time - t))) 4)
         else s.phaseY) ∧
    (frame M_PI cos s t).1.g_vu.roty
      = (if s.g_IsRotatingY then
           Rounding.toFloat
             (dadd s.phaseY (ddiv (phaseDeltaOf M_PI (wrapInt (s.g_Time - t))) 4))
         else s.g_vu.roty) := by
  rw [frame_fst, render_fst]
  have h := animate_Y M_PI cos (updateFPS M_PI s t).1
  have u := updateFPS_fst_frame M_PI s t
  rw [updateFPS_fst_PhaseDelta, u.1, u.2.2.2.1, u.2.2.2.2.2.2.2.1] at h
  exact h

/-- The Z rotation after `frame`. -/
theorem frame_Z (M_PI : α) (cos : α → α) (s : State α) (t : Int) :
    (frame M_PI cos s t).1.g_IsRotatingZ = s.g_IsRotatingZ ∧
    (frame M_PI cos s t).1.phaseZ
      = (if s.g_IsRotatingZ then
           dadd s.phaseZ (ddiv (phaseDeltaOf M_PI (wrapInt (s.g_Time - t))) 4)
         else s.phaseZ) ∧
    (frame M_PI cos s t).1.g_vu.rotz
      = (if s.g_IsRotatingZ then
           Rounding.toFloat
             (dadd s.phaseZ (ddiv (phaseDeltaOf M_PI (wrapInt (s.g_Time - t))) 4))
         else s.g_vu.rotz) := by
  rw [frame_fst, render_fst]
  have h := animate_Z M_PI cos (updateFPS M_PI s t).1
  have u := updateFPS_fst_frame M_PI s t
  rw [updateFPS_fst_PhaseDelta, u.1, u.2.2.2.2.1, u.2.2.2.2.2.2.2.2.1] at h
  exact h

/-- The zoom after `frame`. -/
theorem frame_Zoom (M_PI : α) (cos : α → α) (s : State α) (t : Int) :
    (frame M_PI cos s t).1.g_IsZooming = s.g_IsZooming ∧
    (frame M_PI cos s t).1.phaseZoom
      = (if s.g_IsZooming then
           dadd s.phaseZoom (phaseDeltaOf M_PI (wrapInt (s.g_Time - t)))
         else s.phaseZoom) ∧
    (frame M_PI cos s t).1.g_fu.Zoom
      = (if s.g_IsZooming then
           zoomOf cos (dadd s.phaseZoom (phaseDeltaOf M_PI (wrapInt (s.g_Time - t))))
         else s.g_fu.Zoom) := by
  rw [frame_fst, render_fst]
  have h := animate_Zoom M_PI cos (updateFPS M_PI s t).1
  have u := updateFPS_fst_frame M_PI s t
  rw [updateFPS_fst_TimeDelta, u.2.1, u.2.2.2.2.2.1, u.2.2.2.2.2.2.2.2.2] at h
  exact h

/-- The relation between `Zoom` and the zoom phase is kept by every callback. -/
theorem step_zoom_inv (M_PI : α) (cos : α → α) (s : State α) (i : Input)
    (h : s.g_fu.Zoom = zoomOf cos s.phaseZoom) :
    (step M_PI cos s i).1.g_fu.Zoom = zoomOf cos (step M_PI cos s i).1.phaseZoom := by
  cases i with
  | keyboard c x y =>
    show (key s c x y).g_fu.Zoom = zoomOf cos (key s c x y).phaseZoom
    rw [(key_frame s c x y).2.1, (key_frame s c x y).2.2.2.2.2.1]
    exact h
  | idle t =>
    show (frame M_PI cos s t).1.g_fu.Zoom = zoomOf cos (frame M_PI cos s t).1.phaseZoom
    rw [(frame_Zoom M_PI cos s t).2.1, (frame_Zoom M_PI cos s t).2.2]
    split_ifs
    · rfl
    · exact h
  | display => exact h

theorem run_zoom_inv (M_PI : α) (cos : α → α) (is : List Input) (s : State α)
    (h : s.g_fu.Zoom = zoomOf cos s.phaseZoom) :
    (run M_PI cos s is).g_fu.Zoom = zoomOf cos (run M_PI cos s is).phaseZoom := by
  induction is generalizing s with
  | nil => exact h
  | cons i is ih => exact ih _ (step_zoom_inv M_PI cos s i h)

/-- A rotation about X whose toggle is false stays frozen over any run of frames. -/
theorem frames_frozen_X (M_PI : α) (cos : α → α) (ts : List Int) (s : State α)
    (h : s.g_IsRotatingX = false) :
    (frames M_PI cos s ts).g_IsRotatingX = false ∧
    (frames M_PI cos s ts).phaseX = s.phaseX ∧
    (frames M_PI cos s ts).g_vu.rotx = s.g_vu.rotx := by
  induction ts generalizing s with
  | nil => exact ⟨h, rfl, rfl⟩
  | cons t ts ih =>
    have hx := frame_X M_PI cos s t
    rw [h] at hx
    have := ih (frame M_PI cos s t).1 hx.1
    exact ⟨this.1, this.2.1.trans hx.2.1, this.2.2.trans hx.2.2⟩

/-- A rotation about Y whose toggle is false stays frozen over any run of frames. -/
theorem frames_frozen_Y (M_PI : α) (cos : α → α) (ts : List Int) (s : State α)
    (h : s.g_IsRotatingY = false) :
    (frames M_PI cos s ts).g_IsRotatingY = false ∧
    (frames M_PI cos s ts).phaseY = s.phaseY ∧
    (frames M_PI cos s ts).g_vu.roty = s.g_vu.roty := by
  induction ts generalizing s with
  | nil => exact ⟨h, rfl, rfl⟩
  | cons t ts ih =>
    have hx := frame_Y M_PI cos s t
    rw [h] at hx
    have := ih (frame M_PI cos s t).1 hx.1
    exact ⟨this.1, this.2.1.trans hx.2.1, this.2.2.trans hx.2.2⟩

/-- A rotation about Z whose toggle is false stays frozen over any run of frames. -/
theorem frames_frozen_Z (M_PI : α) (cos : α → α) (ts : List Int) (s : State α)
    (h : s.g_IsRotatingZ = false) :
    (frames M_PI cos s ts).g_IsRotatingZ = false ∧
    (frames M_PI cos s ts).phaseZ = s.phaseZ ∧
    (frames M_PI cos s ts).g_vu.rotz = s.g_vu.rotz := by
  induction ts generalizing s with
  | nil => exact ⟨h, rfl, rfl⟩
  | cons t ts ih =>
    have hx := frame_Z M_PI cos s t
    rw [h] at hx
    have := ih (frame M_PI cos s t).1 hx.1
    exact ⟨this.1, this.2.1.trans hx.2.1, this.2.2.trans hx.2.2⟩

/-- A zoom whose toggle is false stays frozen over any run of frames. -/
theorem frames_frozen_Zoom (M_PI : α) (cos : α → α) (ts : List Int) (s : State α)
    (h : s.g_IsZooming = false) :
    (frames M_PI cos s ts).g_IsZooming = false ∧
    (frames M_PI cos s ts).phaseZoom = s.phaseZoom ∧
    (frames M_PI cos s ts).g_fu.Zoom = s.g_fu.Zoom := by
  induction ts generalizing s with
  | nil => exact ⟨h, rfl, rfl⟩
  | cons t ts ih =>
    have hx := frame_Zoom M_PI cos s t
    rw [h] at hx
    have := ih (frame M_PI cos s t).1 hx.1
    exact ⟨this.1, this.2.1.trans hx.2.1, this.2.2.trans hx.2.2⟩

end Lemmas

end Mandelbrot

namespace Mandelbrot

open Real

/-! ## The sign of the clock delta -/

/-- C5, the code at a non-decreasing clock: from the initial state with X
toggled on (stored reading 0), a `frame` with clock reading 16 stores
`deltaMillis = -16` and a negative phase delta, and the X phase, whose toggle
is true, decreases. -/
theorem frame_delta_negative_at_16 :
    (key (initState : State ℝ) 'i' 0 0).g_Time ≤ 16 ∧
    (key (initState : State ℝ) 'i' 0 0).g_IsRotatingX = true ∧
    (frame π Real.cos (key initState 'i' 0 0) 16).1.g_TimeDelta = -16 ∧
    (frame π Real.cos (key initState 'i' 0 0) 16).1.g_PhaseDelta < 0 ∧
    (frame π Real.cos (key initState 'i' 0 0) 16).1.phaseX
      < (key (initState : State ℝ) 'i' 0 0).phaseX := by
  have hc := frame_clock π Real.cos (key (initState : State ℝ) 'i' 0 0) 16
  have hx := frame_X π Real.cos (key (initState : State ℝ) 'i' 0 0) 16
  have e : wrapInt ((key (initState : State ℝ) 'i' 0 0).g_Time - 16) = -16 := by
    simp [key, initState, wrapInt]
  have ht : (key (initState : State ℝ) 'i' 0 0).g_IsRotatingX = true := by
    simp [key, initState]
  have hp : (key (initState : State ℝ) 'i' 0 0).phaseX = 0 := by
    simp [key, initState]
  rw [e] at hc hx
  rw [ht, if_pos rfl, hp] at hx
  have hpi := Real.pi_pos
  refine ⟨by simp [key, initState], ht, hc.1, ?_, ?_⟩
  · rw [hc.2.1, phaseDeltaOf_real]; push_cast; norm_num; linarith
  · rw [hx.2.1, phaseDeltaOf_real, dadd_real, ddiv_real, hp]; push_cast; norm_num; linarith

/-! ## The keyboard handler -/

/-- C6: handling the same key twice in a row (in particular `i`, `j`, `k`
or `z`, with any cursor positions) gives back exactly the state before the
first press. -/
theorem key_key_cancel (s : State ℝ) (c : Char) (x y x' y' : Int) :
    key (key s c x y) c x' y' = s := by
  obtain ⟨vu, fu, n, tk, tm, td, pd, bx, b_y, bz, bzm, px, py, pz, pzm⟩ := s
  unfold key
  split_ifs <;> simp

/-- C7: `key` changes the state only as follows: `i` negates `g_IsRotatingX`,
`j` negates `g_IsRotatingY`, `k` negates `g_IsRotatingZ`, `z` negates
`g_IsZooming`, every other field (the other toggles, the phases, the clock,
both uniform blocks) keeping its value; any other character, the upper-case
`I`, `J`, `K`, `Z` included, leaves the whole state unchanged. -/
theorem key_effect (s : State ℝ) (x y : Int) :
    key s 'i' x y = { s with g_IsRotatingX := !s.g_IsRotatingX } ∧
    key s 'j' x y = { s with g_IsRotatingY := !s.g_IsRotatingY } ∧
    key s 'k' x y = { s with g_IsRotatingZ := !s.g_IsRotatingZ } ∧
    key s 'z' x y = { s with g_IsZooming := !s.g_IsZooming } ∧
    (∀ c : Char, c ≠ 'i' → c ≠ 'j' → c ≠ 'k' → c ≠ 'z' → key s c x y = s) ∧
    key s 'I' x y = s ∧ key s 'J' x y = s ∧ key s 'K' x y = s ∧ key s 'Z' x y = s := by
  refine ⟨?_, ?_, ?_, ?_, ?_, ?_, ?_, ?_, ?_⟩
  · simp [key]
  · simp [key]
  · simp [key]
  · simp [key]
  · intro c hi hj hk hz
    simp [key, hi, hj, hk, hz]
  · simp [key]
  · simp [key]
  · simp [key]
  · simp [key]

/-- C7 at a concrete input: the key `q` leaves the state after `i` unchanged,
and `i` turned the X toggle on and nothing else. -/
theorem key_effect_witness :
    key (key (initState : State ℝ) 'i' 3 4) 'q' 5 6 = key (initState : State ℝ) 'i' 3 4 ∧
    key (initState : State ℝ) 'i' 3 4
      = { (initState : State ℝ) with g_IsRotatingX := true } :=
  ⟨(key_effect (key initState 'i' 3 4) 5 6).2.2.2.2.1 'q' (by decide) (by decide)
      (by decide) (by decide),
   (key_effect initState 3 4).1⟩

/-! ## The face matrices -/

/-- C8: each of the six face matrices `g_ModelMatrixFaceA` ..
`g_ModelMatrixFaceF` is orthonormal: the matrix times its transpose and the
transpose times the matrix are the 4×4 identity, the transpose is the
inverse, and the absolute value of the determinant is 1. -/
theorem face_matrices_orthonormal :
    IsOrthonormal g_ModelMatrixFaceA ∧ IsOrthonormal g_ModelMatrixFaceB ∧
    IsOrthonormal g_ModelMatrixFaceC ∧ IsOrthonormal g_ModelMatrixFaceD ∧
    IsOrthonormal g_ModelMatrixFaceE ∧ IsOrthonormal g_ModelMatrixFaceF := by
  refine ⟨?_, ?_, ?_, ?_, ?_, ?_⟩
  · apply isOrthonormal_of_mul_transpose
    ext i j
    fin_cases i <;> fin_cases j <;>
      simp [g_ModelMatrixFaceA, Matrix.mul_apply, Fin.sum_univ_four, Matrix.transpose_apply,
        Matrix.vecHead, Matrix.vecTail]
  · apply isOrthonormal_of_mul_transpose
    ext i j
    fin_cases i <;> fin_cases j <;>
      simp [g_ModelMatrixFaceB, Matrix.mul_apply, Fin.sum_univ_four, Matrix.transpose_apply,
        Matrix.vecHead, Matrix.vecTail]
  · apply isOrthonormal_of_mul_transpose
    ext i j
    fin_cases i <;> fin_cases j <;>
      simp [g_ModelMatrixFaceC, Matrix.mul_apply, Fin.sum_univ_four, Matrix.transpose_apply,
        Matrix.vecHead, Matrix.vecTail]
  · apply isOrthonormal_of_mul_transpose
    ext i j
    fin_cases i <;> fin_cases j <;>
      simp [g_ModelMatrixFaceD, Matrix.mul_apply, Fin.sum_univ_four, Matrix.transpose_apply,
        Matrix.vecHead, Matrix.vecTail]
  · apply isOrthonormal_of_mul_transpose
    ext i j
    fin_cases i <;> fin_cases j <;>
      simp [g_ModelMatrixFaceE, Matrix.mul_apply, Fin.sum_univ_four, Matrix.transpose_apply,
        Matrix.vecHead, Matrix.vecTail]
  · apply isOrthonormal_of_mul_transpose
    ext i j
    fin_cases i <;> fin_cases j <;>
      simp [g_ModelMatrixFaceF, Matrix.mul_apply, Fin.sum_univ_four, Matrix.transpose_apply,
        Matrix.vecHead, Matrix.vecTail]

/-- C9: each of the six face matrices is a pure rotation without translation
or scale: its fourth row and fourth column are `(0, 0, 0, 1)` and its
upper-left 3×3 block is orthogonal with determinant `+1`, so none of them is
a reflection. -/
theorem face_matrices_pure_rotation :
    IsPureRotation g_ModelMatrixFaceA ∧ IsPureRotation g_ModelMatrixFaceB ∧
    IsPureRotation g_ModelMatrixFaceC ∧ IsPureRotation g_ModelMatrixFaceD ∧
    IsPureRotation g_ModelMatrixFaceE ∧ IsPureRotation g_ModelMatrixFaceF :=
  ⟨pureRotation_FaceA, pureRotation_FaceB, pureRotation_FaceC, pureRotation_FaceD,
    pureRotation_FaceE, pureRotation_FaceF⟩

/-! ## The renderer -/

/-- C10: for every state at entry (whatever `g_vu.model` holds), `render`
clears, then performs exactly six upload-and-draw groups in the order A, B,
C, D, E, F, then swaps; the transform block uploaded for the `f`-th draw is
`g_vu` at entry with only `model` replaced by face matrix `f` (so projection,
rotation angles and eye/target/up are those at entry), and the effect block
uploaded with it is `g_fu` at entry. -/
theorem render_uploads (s : State ℝ) :
    (render s).2 =
      [Event.glClear,
       Event.fsSetVertexUniforms { s.g_vu with model := g_ModelMatrixFaceA },
       Event.fsSetFragmentUniforms s.g_fu, Event.glDrawArrays,
       Event.fsSetVertexUniforms { s.g_vu with model := g_ModelMatrixFaceB },
       Event.fsSetFragmentUniforms s.g_fu, Event.glDrawArrays,
       Event.fsSetVertexUniforms { s.g_vu with model := g_ModelMatrixFaceC },
       Event.fsSetFragmentUniforms s.g_fu, Event.glDrawArrays,
       Event.fsSetVertexUniforms { s.g_vu with model := g_ModelMatrixFaceD },
       Event.fsSetFragmentUniforms s.g_fu, Event.glDrawArrays,
       Event.fsSetVertexUniforms { s.g_vu with model := g_ModelMatrixFaceE },
       Event.fsSetFragmentUniforms s.g_fu, Event.glDrawArrays,
       Event.fsSetVertexUniforms { s.g_vu with model := g_ModelMatrixFaceF },
       Event.fsSetFragmentUniforms s.g_fu, Event.glDrawArrays,
       Event.glutSwapBuffers] ∧
    ∀ f : Fin 6,
      (render s).2[1 + 3 * f.val]?
        = some (Event.fsSetVertexUniforms
            { proj := s.g_vu.proj, model := faceMatrix f.val,
              rotx := s.g_vu.rotx, roty := s.g_vu.roty, rotz := s.g_vu.rotz,
              from_ := s.g_vu.from_, to_ := s.g_vu.to_, up := s.g_vu.up }) ∧
      (render s).2[2 + 3 * f.val]? = some (Event.fsSetFragmentUniforms s.g_fu) ∧
      (render s).2[3 + 3 * f.val]? = some Event.glDrawArrays := by
  refine ⟨rfl, ?_⟩
  intro f
  fin_cases f <;> exact ⟨rfl, rfl, rfl⟩

section EventLemmas
variable {α : Type}

theorem vertexUploads_append (a b : List (Event α)) :
    vertexUploads (a ++ b) = vertexUploads a ++ vertexUploads b := by
  induction a with
  | nil => rfl
  | cons e es ih => cases e <;> simp [vertexUploads, ih]

theorem fragmentUploads_append (a b : List (Event α)) :
    fragmentUploads (a ++ b) = fragmentUploads a ++ fragmentUploads b := by
  induction a with
  | nil => rfl
  | cons e es ih => cases e <;> simp [fragmentUploads, ih]

end EventLemmas

section RenderTraceLemmas
variable {α : Type} [Field α]

theorem render_vertexUploads (s : State α) :
    vertexUploads (render s).2 =
      [{ s.g_vu with model := g_ModelMatrixFaceA }, { s.g_vu with model := g_ModelMatrixFaceB },
       { s.g_vu with model := g_ModelMatrixFaceC }, { s.g_vu with model := g_ModelMatrixFaceD },
       { s.g_vu with model := g_ModelMatrixFaceE }, { s.g_vu with model := g_ModelMatrixFaceF }] :=
  rfl

theorem render_fragmentUploads (s : State α) :
    fragmentUploads (render s).2 = [s.g_fu, s.g_fu, s.g_fu, s.g_fu, s.g_fu, s.g_fu] := rfl

/-- Every transform block uploaded by `render` carries a face matrix and the
projection and camera vectors of the state at entry. -/
theorem render_upload_models (s : State α) (vu : VertexUniforms α)
    (h : vu ∈ vertexUploads (render s).2) :
    (vu.model = g_ModelMatrixFaceA ∨ vu.model = g_ModelMatrixFaceB ∨
     vu.model = g_ModelMatrixFaceC ∨ vu.model = g_ModelMatrixFaceD ∨
     vu.model = g_ModelMatrixFaceE ∨ vu.model = g_ModelMatrixFaceF) ∧
    vu.proj = s.g_vu.proj ∧ vu.from_ = s.g_vu.from_ ∧ vu.to_ = s.g_vu.to_ ∧
    vu.up = s.g_vu.up := by
  rw [render_vertexUploads] at h
  simp only [List.mem_cons, List.mem_singleton, List.not_mem_nil, or_false] at h
  rcases h with h | h | h | h | h | h <;> subst h <;> simp

end RenderTraceLemmas

section TraceLemmas
variable {α : Type} [Field α] [Rounding α]

theorem updateFPS_vertexUploads (M_PI : α) (s : State α) (t : Int) :
    vertexUploads (updateFPS M_PI s t).2 = [] := by
  unfold updateFPS
  dsimp only
  split <;> rfl

theorem frame_vertexUploads (M_PI : α) (cos : α → α) (s : State α) (t : Int) :
    vertexUploads (frame M_PI cos s t).2
      = vertexUploads (render (animate M_PI cos (updateFPS M_PI s t).1)).2 := by
  show vertexUploads ((updateFPS M_PI s t).2 ++ _) = _
  rw [vertexUploads_append, updateFPS_vertexUploads, List.nil_append]

/-- The fields of the uniform blocks that `animate` does not write. -/
theorem animate_constants (M_PI : α) (cos : α → α) (s : State α) :
    (animate M_PI cos s).g_vu.proj = s.g_vu.proj ∧
    (animate M_PI cos s).g_vu.model = s.g_vu.model ∧
    (animate M_PI cos s).g_vu.from_ = s.g_vu.from_ ∧
    (animate M_PI cos s).g_vu.to_ = s.g_vu.to_ ∧
    (animate M_PI cos s).g_vu.up = s.g_vu.up ∧
    (animate M_PI cos s).g_fu.Xcenter = s.g_fu.Xcenter ∧
    (animate M_PI cos s).g_fu.Ycenter = s.g_fu.Ycenter ∧
    (animate M_PI cos s).g_fu.InnerColor = s.g_fu.InnerColor ∧
    (animate M_PI cos s).g_fu.OuterColor1 = s.g_fu.OuterColor1 ∧
    (animate M_PI cos s).g_fu.OuterColor2 = s.g_fu.OuterColor2 := by
  obtain ⟨vu, fu, n, tk, tm, td, pd, bx, b_y, bz, bzm, px, py, pz, pzm⟩ := s
  cases bx <;> cases b_y <;> cases bz <;> cases bzm <;> simp [animate]

/-- The fields of the uniform blocks that no callback writes. -/
theorem step_constants (M_PI : α) (cos : α → α) (s : State α) (i : Input) :
    (step M_PI cos s i).1.g_vu.proj = s.g_vu.proj ∧
    (step M_PI cos s i).1.g_vu.from_ = s.g_vu.from_ ∧
    (step M_PI cos s i).1.g_vu.to_ = s.g_vu.to_ ∧
    (step M_PI cos s i).1.g_vu.up = s.g_vu.up ∧
    (step M_PI cos s i).1.g_fu.Xcenter = s.g_fu.Xcenter ∧
    (step M_PI cos s i).1.g_fu.Ycenter = s.g_fu.Ycenter ∧
    (step M_PI cos s i).1.g_fu.InnerColor = s.g_fu.InnerColor ∧
    (step M_PI cos s i).1.g_fu.OuterColor1 = s.g_fu.OuterColor1 ∧
    (step M_PI cos s i).1.g_fu.OuterColor2 = s.g_fu.OuterColor2 := by
  cases i with
  | keyboard c x y =>
    show (key s c x y).g_vu.proj = _ ∧ (key s c x y).g_vu.from_ = _ ∧
      (key s c x y).g_vu.to_ = _ ∧ (key s c x y).g_vu.up = _ ∧
      (key s c x y).g_fu.Xcenter = _ ∧ (key s c x y).g_fu.Ycenter = _ ∧
      (key s c x y).g_fu.InnerColor = _ ∧ (key s c x y).g_fu.OuterColor1 = _ ∧
      (key s c x y).g_fu.OuterColor2 = _
    rw [(key_frame s c x y).1, (key_frame s c x y).2.1]
    exact ⟨rfl, rfl, rfl, rfl, rfl, rfl, rfl, rfl, rfl⟩
  | idle t =>
    have a := animate_constants M_PI cos (updateFPS M_PI s t).1
    have u := updateFPS_fst_frame M_PI s t
    rw [u.1, u.2.1] at a
    exact ⟨a.1, a.2.2.1, a.2.2.2.1, a.2.2.2.2.1, a.2.2.2.2.2.1, a.2.2.2.2.2.2.1,
      a.2.2.2.2.2.2.2.1, a.2.2.2.2.2.2.2.2.1, a.2.2.2.2.2.2.2.2.2⟩
  | display => exact ⟨rfl, rfl, rfl, rfl, rfl, rfl, rfl, rfl, rfl⟩

theorem run_constants (M_PI : α) (cos : α → α) (is : List Input) (s : State α) :
    (run M_PI cos s is).g_vu.proj = s.g_vu.proj ∧
    (run M_PI cos s is).g_vu.from_ = s.g_vu.from_ ∧
    (run M_PI cos s is).g_vu.to_ = s.g_vu.to_ ∧
    (run M_PI cos s is).g_vu.up = s.g_vu.up ∧
    (run M_PI cos s is).g_fu.Xcenter = s.g_fu.Xcenter ∧
    (run M_PI cos s is).g_fu.Ycenter = s.g_fu.Ycenter ∧
    (run M_PI cos s is).g_fu.InnerColor = s.g_fu.InnerColor ∧
    (run M_PI cos s is).g_fu.OuterColor1 = s.g_fu.OuterColor1 ∧
    (run M_PI cos s is).g_fu.OuterColor2 = s.g_fu.OuterColor2 := by
  induction is generalizing s with
  | nil => exact ⟨rfl, rfl, rfl, rfl, rfl, rfl, rfl, rfl, rfl⟩
  | cons i is ih =>
    have h := ih (step M_PI cos s i).1
    have k := step_constants M_PI cos s i
    exact ⟨h.1.trans k.1, h.2.1.trans k.2.1, h.2.2.1.trans k.2.2.1,
      h.2.2.2.1.trans k.2.2.2.1, h.2.2.2.2.1.trans k.2.2.2.2.1,
      h.2.2.2.2.2.1.trans k.2.2.2.2.2.1, h.2.2.2.2.2.2.1.trans k.2.2.2.2.2.2.1,
      h.2.2.2.2.2.2.2.1.trans k.2.2.2.2.2.2.2.1,
      h.2.2.2.2.2.2.2.2.trans k.2.2.2.2.2.2.2.2⟩

theorem step_upload_models (M_PI : α) (cos : α → α) (s : State α) (i : Input)
    (vu : VertexUniforms α) (h : vu ∈ vertexUploads (step M_PI cos s i).2) :
    (vu.model = g_ModelMatrixFaceA ∨ vu.model = g_ModelMatrixFaceB ∨
     vu.model = g_ModelMatrixFaceC ∨ vu.model = g_ModelMatrixFaceD ∨
     vu.model = g_ModelMatrixFaceE ∨ vu.model = g_ModelMatrixFaceF) ∧
    vu.proj = s.g_vu.proj ∧ vu.from_ = s.g_vu.from_ ∧ vu.to_ = s.g_vu.to_ ∧
    vu.up = s.g_vu.up := by
  cases i with
  | keyboard c x y => exact absurd h (List.not_mem_nil _)
  | idle t =>
    have h1 : vu ∈ vertexUploads (frame M_PI cos s t).2 := h
    rw [frame_vertexUploads] at h1
    have r := render_upload_models _ vu h1
    have a := animate_constants M_PI cos (updateFPS M_PI s t).1
    have u := updateFPS_fst_frame M_PI s t
    rw [u.1] at a
    rw [a.1, a.2.2.1, a.2.2.2.1, a.2.2.2.2.1] at r
    exact r
  | display => exact render_upload_models s vu h

theorem runTrace_upload_models (M_PI : α) (cos : α → α) (is : List Input) (s : State α)
    (vu : VertexUniforms α) (h : vu ∈ vertexUploads (runTrace M_PI cos s is)) :
    (vu.model = g_ModelMatrixFaceA ∨ vu.model = g_ModelMatrixFaceB ∨
     vu.model = g_ModelMatrixFaceC ∨ vu.model = g_ModelMatrixFaceD ∨
     vu.model = g_ModelMatrixFaceE ∨ vu.model = g_ModelMatrixFaceF) ∧
    vu.proj = s.g_vu.proj ∧ vu.from_ = s.g_vu.from_ ∧ vu.to_ = s.g_vu.to_ ∧
    vu.up = s.g_vu.up := by
  induction is generalizing s with
  | nil => exact absurd h (List.not_mem_nil _)
  | cons i is ih =>
    have h1 : vu ∈ vertexUploads ((step M_PI cos s i).2
        ++ runTrace M_PI cos (step M_PI cos s i).1 is) := h
    rw [vertexUploads_append, List.mem_append] at h1
    rcases h1 with h1 | h1
    · exact step_upload_models M_PI cos s i vu h1
    · have r := ih (step M_PI cos s i).1 h1
      have k := step_constants M_PI cos s i
      rw [k.1, k.2.1, k.2.2.1, k.2.2.2.1] at r
      exact r

end TraceLemmas
/-! ## What never changes after startup -/

/-- C11: in every state reached from the state at the end of initialisation
by any sequence of `key`, `frame` and `render` callbacks, the projection
matrix, the camera eye/target/up vectors and the effect block's centre and
three colours have their values from the end of initialisation, and every
transform block uploaded along the way carries one of the six face matrices
as its model matrix (with that same projection and camera). -/
theorem startup_constants_invariant (P : Mat4 ℝ) (is : List Input) :
    (run π Real.cos (startState P) is).g_vu.proj = (startState P).g_vu.proj ∧
    (run π Real.cos (startState P) is).g_vu.from_ = (startState P).g_vu.from_ ∧
    (run π Real.cos (startState P) is).g_vu.to_ = (startState P).g_vu.to_ ∧
    (run π Real.cos (startState P) is).g_vu.up = (startState P).g_vu.up ∧
    (run π Real.cos (startState P) is).g_fu.Xcenter = (startState P).g_fu.Xcenter ∧
    (run π Real.cos (startState P) is).g_fu.Ycenter = (startState P).g_fu.Ycenter ∧
    (run π Real.cos (startState P) is).g_fu.InnerColor = (startState P).g_fu.InnerColor ∧
    (run π Real.cos (startState P) is).g_fu.OuterColor1 = (startState P).g_fu.OuterColor1 ∧
    (run π Real.cos (startState P) is).g_fu.OuterColor2 = (startState P).g_fu.OuterColor2 ∧
    ∀ vu ∈ vertexUploads (runTrace π Real.cos (startState P) is),
      (vu.model = g_ModelMatrixFaceA ∨ vu.model = g_ModelMatrixFaceB ∨
       vu.model = g_ModelMatrixFaceC ∨ vu.model = g_ModelMatrixFaceD ∨
       vu.model = g_ModelMatrixFaceE ∨ vu.model = g_ModelMatrixFaceF) ∧
      vu.proj = P ∧ vu.from_ = ![1.5, 1.5, 1.5] ∧ vu.to_ = ![0, 0, 0] ∧
      vu.up = ![0, 1, 0] := by
  have h := run_constants π Real.cos is (startState P)
  refine ⟨h.1, h.2.1, h.2.2.1, h.2.2.2.1, h.2.2.2.2.1, h.2.2.2.2.2.1, h.2.2.2.2.2.2.1,
    h.2.2.2.2.2.2.2.1, h.2.2.2.2.2.2.2.2, ?_⟩
  intro vu hvu
  exact runTrace_upload_models π Real.cos is (startState P) vu hvu

/-- C11 at a concrete run (key `i`, a frame at clock reading 16, a redraw):
twelve transform blocks are uploaded, the projection stays the identity that
was stored at startup, and the last uploaded block carries face matrix F. -/
theorem startup_constants_invariant_witness :
    (run π Real.cos (startState (1 : Mat4 ℝ))
        [Input.keyboard 'i' 0 0, Input.idle 16, Input.display]).g_vu.proj = 1 ∧
    (vertexUploads (runTrace π Real.cos (startState (1 : Mat4 ℝ))
        [Input.keyboard 'i' 0 0, Input.idle 16, Input.display])).length = 12 ∧
    ∀ vu ∈ (vertexUploads (runTrace π Real.cos (startState (1 : Mat4 ℝ))
        [Input.keyboard 'i' 0 0, Input.idle 16, Input.display])).getLast?,
      vu.model = g_ModelMatrixFaceF ∧ vu.proj = 1 := by
  have h := startup_constants_invariant 1
    [Input.keyboard 'i' 0 0, Input.idle 16, Input.display]
  refine ⟨h.1, ?_, ?_⟩
  · simp [runTrace, step, vertexUploads_append, frame_vertexUploads, render_vertexUploads,
      vertexUploads]
  · intro vu hvu
    have hm : vu ∈ vertexUploads (runTrace π Real.cos (startState (1 : Mat4 ℝ))
        [Input.keyboard 'i' 0 0, Input.idle 16, Input.display]) :=
      List.mem_of_getLast?_eq_some hvu
    refine ⟨?_, (h.2.2.2.2.2.2.2.2.2 vu hm).2.1⟩
    simp [runTrace, step, vertexUploads_append, frame_vertexUploads, render_vertexUploads,
      vertexUploads] at hvu
    rw [← hvu]


/-! ## The FPS counter -/

/-- What `main` does: it returns exit status 1, without `glUseProgram`,
without registering the display, idle and keyboard callbacks and without
entering the main loop, if and only if `glewInit` fails or OpenGL 2.0 is not
available or `fsCompile` reports failure; its `printf` call is made exactly in
the first two cases; in every other case it activates the program, registers
the three callbacks and enters the main loop with the start state. -/
theorem main_outcome (glewInitOk version2 fsCompileOk : Bool) (P : Mat4 ℝ) :
    ((main glewInitOk version2 P fsCompileOk).1 = Outcome.exit 1 ↔
      (glewInitOk = false ∨ version2 = false ∨ fsCompileOk = false)) ∧
    ((main glewInitOk version2 P fsCompileOk).1 = Outcome.exit 1 →
      StartupCall.glUseProgram ∉ (main glewInitOk version2 P fsCompileOk).2 ∧
      StartupCall.glutDisplayFunc ∉ (main glewInitOk version2 P fsCompileOk).2 ∧
      StartupCall.glutIdleFunc ∉ (main glewInitOk version2 P fsCompileOk).2 ∧
      StartupCall.glutKeyboardFunc ∉ (main glewInitOk version2 P fsCompileOk).2 ∧
      StartupCall.glutMainLoop ∉ (main glewInitOk version2 P fsCompileOk).2) ∧
    ((∃ msg : String, StartupCall.printf msg ∈ (main glewInitOk version2 P fsCompileOk).2) ↔
      (glewInitOk = false ∨ version2 = false)) ∧
    (StartupCall.printf ("OpenGL 2.0 is required!")
        ∈ (main glewInitOk version2 P fsCompileOk).2 ↔
      (glewInitOk = false ∨ version2 = false)) ∧
    (¬ (glewInitOk = false ∨ version2 = false ∨ fsCompileOk = false) →
      (main glewInitOk version2 P fsCompileOk).1 = Outcome.mainLoop (startState P) ∧
      (main glewInitOk version2 P fsCompileOk).2
        = mainPrologue ++ mainSetup ++
          [StartupCall.glUseProgram, StartupCall.fsSetVertexVaryings,
           StartupCall.glutDisplayFunc, StartupCall.glutIdleFunc,
           StartupCall.glutKeyboardFunc, StartupCall.glutMainLoop]) := by
  cases glewInitOk <;> cases version2 <;> cases fsCompileOk <;>
    simp [main, mainPrologue, mainSetup]

/-- The outcome of `main` at concrete inputs: with everything available it
enters the main loop after `glUseProgram`; with a failing `glewInit` it
returns 1 after printing its message. -/
theorem main_outcome_witness :
    (main true true (1 : Mat4 ℝ) true).1 = Outcome.mainLoop (startState 1) ∧
    StartupCall.glUseProgram ∈ (main true true (1 : Mat4 ℝ) true).2 ∧
    (main false true (1 : Mat4 ℝ) true).1 = Outcome.exit 1 ∧
    StartupCall.glutMainLoop ∉ (main false true (1 : Mat4 ℝ) true).2 ∧
    StartupCall.printf ("OpenGL 2.0 is required!") ∈ (main false true (1 : Mat4 ℝ) true).2 := by
  have h := main_outcome true true true 1
  have g := main_outcome false true true 1
  have h5 := h.2.2.2.2 (by decide)
  have g1 : (main false true (1 : Mat4 ℝ) true).1 = Outcome.exit 1 := g.1.mpr (Or.inl rfl)
  refine ⟨h5.1, ?_, g1, (g.2.1 g1).2.2.2.2, g.2.2.2.1.mpr (Or.inl rfl)⟩
  rw [h5.2]
  simp

section RenderLemmas
variable {α : Type} [Field α]

/-- The calls of `render`, written out. -/
theorem render_snd (s : State α) :
    (render s).2 =
      [Event.glClear,
       Event.fsSetVertexUniforms { s.g_vu with model := g_ModelMatrixFaceA },
       Event.fsSetFragmentUniforms s.g_fu, Event.glDrawArrays,
       Event.fsSetVertexUniforms { s.g_vu with model := g_ModelMatrixFaceB },
       Event.fsSetFragmentUniforms s.g_fu, Event.glDrawArrays,
       Event.fsSetVertexUniforms { s.g_vu with model := g_ModelMatrixFaceC },
       Event.fsSetFragmentUniforms s.g_fu, Event.glDrawArrays,
       Event.fsSetVertexUniforms { s.g_vu with model := g_ModelMatrixFaceD },
       Event.fsSetFragmentUniforms s.g_fu, Event.glDrawArrays,
       Event.fsSetVertexUniforms { s.g_vu with model := g_ModelMatrixFaceE },
       Event.fsSetFragmentUniforms s.g_fu, Event.glDrawArrays,
       Event.fsSetVertexUniforms { s.g_vu with model := g_ModelMatrixFaceF },
       Event.fsSetFragmentUniforms s.g_fu, Event.glDrawArrays,
       Event.glutSwapBuffers] := rfl

end RenderLemmas

/-! ## The renderer and the animation state -/

/-- C14: the sequence of calls of `render` depends only on the projection,
the three rotation angles, the camera vectors and the effect uniforms: two
states that agree on these (whatever their toggles, clock fields, FPS
counter, phases and model matrix at entry) give the same sequence; a second
`render` right after a first one gives the same sequence again and leaves
the state of the first; and `render` changes nothing but `g_vu.model`, which
ends as face matrix F. -/
theorem render_pure (s s2 : State ℝ)
    (hproj : s.g_vu.proj = s2.g_vu.proj)
    (hrot : s.g_vu.rotx = s2.g_vu.rotx ∧ s.g_vu.roty = s2.g_vu.roty ∧
      s.g_vu.rotz = s2.g_vu.rotz)
    (hcam : s.g_vu.from_ = s2.g_vu.from_ ∧ s.g_vu.to_ = s2.g_vu.to_ ∧
      s.g_vu.up = s2.g_vu.up)
    (hfu : s.g_fu = s2.g_fu) :
    (render s).2 = (render s2).2 ∧
    (render (render s).1).2 = (render s).2 ∧
    (render (render s).1).1 = (render s).1 ∧
    (render s).1 = { s with g_vu := { s.g_vu with model := g_ModelMatrixFaceF } } := by
  refine ⟨?_, rfl, rfl, rfl⟩
  have k : ∀ M : Mat4 ℝ,
      ({ s.g_vu with model := M } : VertexUniforms ℝ) = { s2.g_vu with model := M } := by
    intro M
    show VertexUniforms.mk s.g_vu.proj M s.g_vu.rotx s.g_vu.roty s.g_vu.rotz
        s.g_vu.from_ s.g_vu.to_ s.g_vu.up
      = VertexUniforms.mk s2.g_vu.proj M s2.g_vu.rotx s2.g_vu.roty s2.g_vu.rotz
        s2.g_vu.from_ s2.g_vu.to_ s2.g_vu.up
    rw [hproj, hrot.1, hrot.2.1, hrot.2.2, hcam.1, hcam.2.1, hcam.2.2]
  rw [render_snd, render_snd, hfu]
  simp only [k]

/-- C14 at concrete inputs: the initial state and a state with the X toggle
on, other clock and counter values, another zoom phase and face matrix C in
`g_vu.model` give the same sequence of calls. -/
theorem render_pure_witness :
    (render (initState : State ℝ)).2 =
      (render ({ (key (initState : State ℝ) 'i' 0 0) with
          g_vu := { (g_vu_init : VertexUniforms ℝ) with model := g_ModelMatrixFaceC },
          g_FrameNumThisTick := 7, g_TickTime := 3, g_Time := 16, g_TimeDelta := -16,
          phaseZoom := 5 })).2 ∧
    (render (render (initState : State ℝ)).1).2 = (render (initState : State ℝ)).2 ∧
    (render (render (initState : State ℝ)).1).1 = (render (initState : State ℝ)).1 :=
  have h := render_pure (initState : State ℝ)
    ({ (key (initState : State ℝ) 'i' 0 0) with
        g_vu := { (g_vu_init : VertexUniforms ℝ) with model := g_ModelMatrixFaceC },
        g_FrameNumThisTick := 7, g_TickTime := 3, g_Time := 16, g_TimeDelta := -16,
        phaseZoom := 5 })
    rfl ⟨rfl, rfl, rfl⟩ ⟨rfl, rfl, rfl⟩ (by simp [key, initState])
  ⟨h.1, h.2.1, h.2.2.1⟩


section CubeLemmas

theorem quadVertex_values {α : Type} [Field α] :
    (quadVertex 0 : Vec3 α) = ![-1, -1, 1] ∧ (quadVertex 1 : Vec3 α) = ![1, -1, 1] ∧
    (quadVertex 2 : Vec3 α) = ![1, 1, 1] ∧ (quadVertex 3 : Vec3 α) = ![-1, 1, 1] :=
  ⟨rfl, rfl, rfl, rfl⟩

theorem quadVertex_eq {α : Type} [Field α] (i : Fin 4) :
    (quadVertex i : Vec3 α)
      = (![![-1, -1, 1], ![1, -1, 1], ![1, 1, 1], ![-1, 1, 1]] : Fin 4 → Vec3 α) i := by
  fin_cases i <;> rfl

/-- The four quad vertices are different. -/
theorem quadVertex_injective : Function.Injective (quadVertex : Fin 4 → Vec3 ℝ) := by
  intro i j h
  rw [quadVertex_eq, quadVertex_eq] at h
  fin_cases i <;> fin_cases j <;> first
    | rfl
    | (exfalso
       have h0 := congrFun h 0
       have h1 := congrFun h 1
       norm_num at h0 h1)

/-- A matrix with a left inverse acts injectively on column vectors. -/
theorem mulVec_injective_of_transpose_mul (B : Matrix (Fin 3) (Fin 3) ℝ)
    (h : B.transpose * B = 1) : Function.Injective (Matrix.mulVec B) := by
  intro v w hvw
  have := congrArg (Matrix.mulVec B.transpose) hvw
  rwa [Matrix.mulVec_mulVec, Matrix.mulVec_mulVec, h, Matrix.one_mulVec,
    Matrix.one_mulVec] at this

/-- A matrix with a right inverse acts injectively on row vectors. -/
theorem vecMul_injective_of_mul_transpose (B : Matrix (Fin 3) (Fin 3) ℝ)
    (h : B * B.transpose = 1) : Function.Injective (fun v => Matrix.vecMul v B) := by
  intro v w hvw
  have := congrArg (fun u => Matrix.vecMul u B.transpose) hvw
  simp only [Matrix.vecMul_vecMul, h, Matrix.vecMul_one] at this
  exact this

theorem cubeFace_col_FaceA :
    IsCubeFace (Matrix.mulVec (upper3 (g_ModelMatrixFaceA : Mat4 ℝ))) ![0, 0, 1] := by
  refine ⟨?_, ?_, ?_⟩
  · funext k
    fin_cases k <;>
      simp [upper3, g_ModelMatrixFaceA, quadNormal, Matrix.mulVec, Matrix.dotProduct,
        Fin.sum_univ_three, Matrix.vecHead, Matrix.vecTail]
  · exact (mulVec_injective_of_transpose_mul _ pureRotation_FaceA.2.2.2.1).comp
      quadVertex_injective
  · intro i
    refine ⟨?_, ?_⟩
    · intro k
      fin_cases i <;> fin_cases k <;>
        simp [upper3, g_ModelMatrixFaceA, quadVertex_values, Matrix.mulVec,
          Matrix.dotProduct, Fin.sum_univ_three, Matrix.vecHead, Matrix.vecTail]
    · fin_cases i <;>
        simp [upper3, g_ModelMatrixFaceA, quadVertex_values, Matrix.mulVec,
          Matrix.dotProduct, Fin.sum_univ_three, Matrix.vecHead, Matrix.vecTail]

theorem cubeFace_row_FaceA :
    IsCubeFace (fun v => Matrix.vecMul v (upper3 (g_ModelMatrixFaceA : Mat4 ℝ)))
      ![0, 0, 1] := by
  refine ⟨?_, ?_, ?_⟩
  · funext k
    fin_cases k <;>
      simp [upper3, g_ModelMatrixFaceA, quadNormal, Matrix.vecMul, Matrix.dotProduct,
        Fin.sum_univ_three, Matrix.vecHead, Matrix.vecTail]
  · exact (vecMul_injective_of_mul_transpose _ pureRotation_FaceA.2.2.1).comp
      quadVertex_injective
  · intro i
    refine ⟨?_, ?_⟩
    · intro k
      fin_cases i <;> fin_cases k <;>
        simp [upper3, g_ModelMatrixFaceA, quadVertex_values, Matrix.vecMul,
          Matrix.dotProduct, Fin.sum_univ_three, Matrix.vecHead, Matrix.vecTail]
    · fin_cases i <;>
        simp [upper3, g_ModelMatrixFaceA, quadVertex_values, Matrix.vecMul,
          Matrix.dotProduct, Fin.sum_univ_three, Matrix.vecHead, Matrix.vecTail]

theorem cubeFace_col_FaceB :
    IsCubeFace (Matrix.mulVec (upper3 (g_ModelMatrixFaceB : Mat4 ℝ))) ![-1, 0, 0] := by
  refine ⟨?_, ?_, ?_⟩
  · funext k
    fin_cases k <;>
      simp [upper3, g_ModelMatrixFaceB, quadNormal, Matrix.mulVec, Matrix.dotProduct,
        Fin.sum_univ_three, Matrix.vecHead, Matrix.vecTail]
  · exact (mulVec_injective_of_transpose_mul _ pureRotation_FaceB.2.2.2.1).comp
      quadVertex_injective
  · intro i
    refine ⟨?_, ?_⟩
    · intro k
      fin_cases i <;> fin_cases k <;>
        simp [upper3, g_ModelMatrixFaceB, quadVertex_values, Matrix.mulVec,
          Matrix.dotProduct, Fin.sum_univ_three, Matrix.vecHead, Matrix.vecTail]
    · fin_cases i <;>
        simp [upper3, g_ModelMatrixFaceB, quadVertex_values, Matrix.mulVec,
          Matrix.dotProduct, Fin.sum_univ_three, Matrix.vecHead, Matrix.vecTail]

theorem cubeFace_row_FaceB :
    IsCubeFace (fun v => Matrix.vecMul v (upper3 (g_ModelMatrixFaceB : Mat4 ℝ)))
      ![1, 0, 0] := by
  refine ⟨?_, ?_, ?_⟩
  · funext k
    fin_cases k <;>
      simp [upper3, g_ModelMatrixFaceB, quadNormal, Matrix.vecMul, Matrix.dotProduct,
        Fin.sum_univ_three, Matrix.vecHead, Matrix.vecTail]
  · exact (vecMul_injective_of_mul_transpose _ pureRotation_FaceB.2.2.1).comp
      quadVertex_injective
  · intro i
    refine ⟨?_, ?_⟩
    · intro k
      fin_cases i <;> fin_cases k <;>
        simp [upper3, g_ModelMatrixFaceB, quadVertex_values, Matrix.vecMul,
          Matrix.dotProduct, Fin.sum_univ_three, Matrix.vecHead, Matrix.vecTail]
    · fin_cases i <;>
        simp [upper3, g_ModelMatrixFaceB, quadVertex_values, Matrix.vecMul,
          Matrix.dotProduct, Fin.sum_univ_three, Matrix.vecHead, Matrix.vecTail]

theorem cubeFace_col_FaceC :
    IsCubeFace (Matrix.mulVec (upper3 (g_ModelMatrixFaceC : Mat4 ℝ))) ![0, 0, -1] := by
  refine ⟨?_, ?_, ?_⟩
  · funext k
    fin_cases k <;>
      simp [upper3, g_ModelMatrixFaceC, quadNormal, Matrix.mulVec, Matrix.dotProduct,
        Fin.sum_univ_three, Matrix.vecHead, Matrix.vecTail]
  · exact (mulVec_injective_of_transpose_mul _ pureRotation_FaceC.2.2.2.1).comp
      quadVertex_injective
  · intro i
    refine ⟨?_, ?_⟩
    · intro k
      fin_cases i <;> fin_cases k <;>
        simp [upper3, g_ModelMatrixFaceC, quadVertex_values, Matrix.mulVec,
          Matrix.dotProduct, Fin.sum_univ_three, Matrix.vecHead, Matrix.vecTail]
    · fin_cases i <;>
        simp [upper3, g_ModelMatrixFaceC, quadVertex_values, Matrix.mulVec,
          Matrix.dotProduct, Fin.sum_univ_three, Matrix.vecHead, Matrix.vecTail]

theorem cubeFace_row_FaceC :
    IsCubeFace (fun v => Matrix.vecMul v (upper3 (g_ModelMatrixFaceC : Mat4 ℝ)))
      ![0, 0, -1] := by
  refine ⟨?_, ?_, ?_⟩
  · funext k
    fin_cases k <;>
      simp [upper3, g_ModelMatrixFaceC, quadNormal, Matrix.vecMul, Matrix.dotProduct,
        Fin.sum_univ_three, Matrix.vecHead, Matrix.vecTail]
  · exact (vecMul_injective_of_mul_transpose _ pureRotation_FaceC.2.2.1).comp
      quadVertex_injective
  · intro i
    refine ⟨?_, ?_⟩
    · intro k
      fin_cases i <;> fin_cases k <;>
        simp [upper3, g_ModelMatrixFaceC, quadVertex_values, Matrix.vecMul,
          Matrix.dotProduct, Fin.sum_univ_three, Matrix.vecHead, Matrix.vecTail]
    · fin_cases i <;>
        simp [upper3, g_ModelMatrixFaceC, quadVertex_values, Matrix.vecMul,
          Matrix.dotProduct, Fin.sum_univ_three, Matrix.vecHead, Matrix.vecTail]

theorem cubeFace_col_FaceD :
    IsCubeFace (Matrix.mulVec (upper3 (g_ModelMatrixFaceD : Mat4 ℝ))) ![1, 0, 0] := by
  refine ⟨?_, ?_, ?_⟩
  · funext k
    fin_cases k <;>
      simp [upper3, g_ModelMatrixFaceD, quadNormal, Matrix.mulVec, Matrix.dotProduct,
        Fin.sum_univ_three, Matrix.vecHead, Matrix.vecTail]
  · exact (mulVec_injective_of_transpose_mul _ pureRotation_FaceD.2.2.2.1).comp
      quadVertex_injective
  · intro i
    refine ⟨?_, ?_⟩
    · intro k
      fin_cases i <;> fin_cases k <;>
        simp [upper3, g_ModelMatrixFaceD, quadVertex_values, Matrix.mulVec,
          Matrix.dotProduct, Fin.sum_univ_three, Matrix.vecHead, Matrix.vecTail]
    · fin_cases i <;>
        simp [upper3, g_ModelMatrixFaceD, quadVertex_values, Matrix.mulVec,
          Matrix.dotProduct, Fin.sum_univ_three, Matrix.vecHead, Matrix.vecTail]

theorem cubeFace_row_FaceD :
    IsCubeFace (fun v => Matrix.vecMul v (upper3 (g_ModelMatrixFaceD : Mat4 ℝ)))
      ![-1, 0, 0] := by
  refine ⟨?_, ?_, ?_⟩
  · funext k
    fin_cases k <;>
      simp [upper3, g_ModelMatrixFaceD, quadNormal, Matrix.vecMul, Matrix.dotProduct,
        Fin.sum_univ_three, Matrix.vecHead, Matrix.vecTail]
  · exact (vecMul_injective_of_mul_transpose _ pureRotation_FaceD.2.2.1).comp
      quadVertex_injective
  · intro i
    refine ⟨?_, ?_⟩
    · intro k
      fin_cases i <;> fin_cases k <;>
        simp [upper3, g_ModelMatrixFaceD, quadVertex_values, Matrix.vecMul,
          Matrix.dotProduct, Fin.sum_univ_three, Matrix.vecHead, Matrix.vecTail]
    · fin_cases i <;>
        simp [upper3, g_ModelMatrixFaceD, quadVertex_values, Matrix.vecMul,
          Matrix.dotProduct, Fin.sum_univ_three, Matrix.vecHead, Matrix.vecTail]

theorem cubeFace_col_FaceE :
    IsCubeFace (Matrix.mulVec (upper3 (g_ModelMatrixFaceE : Mat4 ℝ))) ![0, 1, 0] := by
  refine ⟨?_, ?_, ?_⟩
  · funext k
    fin_cases k <;>
      simp [upper3, g_ModelMatrixFaceE, quadNormal, Matrix.mulVec, Matrix.dotProduct,
        Fin.sum_univ_three, Matrix.vecHead, Matrix.vecTail]
  · exact (mulVec_injective_of_transpose_mul _ pureRotation_FaceE.2.2.2.1).comp
      quadVertex_injective
  · intro i
    refine ⟨?_, ?_⟩
    · intro k
      fin_cases i <;> fin_cases k <;>
        simp [upper3, g_ModelMatrixFaceE, quadVertex_values, Matrix.mulVec,
          Matrix.dotProduct, Fin.sum_univ_three, Matrix.vecHead, Matrix.vecTail]
    · fin_cases i <;>
        simp [upper3, g_ModelMatrixFaceE, quadVertex_values, Matrix.mulVec,
          Matrix.dotProduct, Fin.sum_univ_three, Matrix.vecHead, Matrix.vecTail]

theorem cubeFace_row_FaceE :
    IsCubeFace (fun v => Matrix.vecMul v (upper3 (g_ModelMatrixFaceE : Mat4 ℝ)))
      ![0, -1, 0] := by
  refine ⟨?_, ?_, ?_⟩
  · funext k
    fin_cases k <;>
      simp [upper3, g_ModelMatrixFaceE, quadNormal, Matrix.vecMul, Matrix.dotProduct,
        Fin.sum_univ_three, Matrix.vecHead, Matrix.vecTail]
  · exact (vecMul_injective_of_mul_transpose _ pureRotation_FaceE.2.2.1).comp
      quadVertex_injective
  · intro i
    refine ⟨?_, ?_⟩
    · intro k
      fin_cases i <;> fin_cases k <;>
        simp [upper3, g_ModelMatrixFaceE, quadVertex_values, Matrix.vecMul,
          Matrix.dotProduct, Fin.sum_univ_three, Matrix.vecHead, Matrix.vecTail]
    · fin_cases i <;>
        simp [upper3, g_ModelMatrixFaceE, quadVertex_values, Matrix.vecMul,
          Matrix.dotProduct, Fin.sum_univ_three, Matrix.vecHead, Matrix.vecTail]

theorem cubeFace_col_FaceF :
    IsCubeFace (Matrix.mulVec (upper3 (g_ModelMatrixFaceF : Mat4 ℝ))) ![0, -1, 0] := by
  refine ⟨?_, ?_, ?_⟩
  · funext k
    fin_cases k <;>
      simp [upper3, g_ModelMatrixFaceF, quadNormal, Matrix.mulVec, Matrix.dotProduct,
        Fin.sum_univ_three, Matrix.vecHead, Matrix.vecTail]
  · exact (mulVec_injective_of_transpose_mul _ pureRotation_FaceF.2.2.2.1).comp
      quadVertex_injective
  · intro i
    refine ⟨?_, ?_⟩
    · intro k
      fin_cases i <;> fin_cases k <;>
        simp [upper3, g_ModelMatrixFaceF, quadVertex_values, Matrix.mulVec,
          Matrix.dotProduct, Fin.sum_univ_three, Matrix.vecHead, Matrix.vecTail]
    · fin_cases i <;>
        simp [upper3, g_ModelMatrixFaceF, quadVertex_values, Matrix.mulVec,
          Matrix.dotProduct, Fin.sum_univ_three, Matrix.vecHead, Matrix.vecTail]

theorem cubeFace_row_FaceF :
    IsCubeFace (fun v => Matrix.vecMul v (upper3 (g_ModelMatrixFaceF : Mat4 ℝ)))
      ![0, 1, 0] := by
  refine ⟨?_, ?_, ?_⟩
  · funext k
    fin_cases k <;>
      simp [upper3, g_ModelMatrixFaceF, quadNormal, Matrix.vecMul, Matrix.dotProduct,
        Fin.sum_univ_three, Matrix.vecHead, Matrix.vecTail]
  · exact (vecMul_injective_of_mul_transpose _ pureRotation_FaceF.2.2.1).comp
      quadVertex_injective
  · intro i
    refine ⟨?_, ?_⟩
    · intro k
      fin_cases i <;> fin_cases k <;>
        simp [upper3, g_ModelMatrixFaceF, quadVertex_values, Matrix.vecMul,
          Matrix.dotProduct, Fin.sum_univ_three, Matrix.vecHead, Matrix.vecTail]
    · fin_cases i <;>
        simp [upper3, g_ModelMatrixFaceF, quadVertex_values, Matrix.vecMul,
          Matrix.dotProduct, Fin.sum_univ_three, Matrix.vecHead, Matrix.vecTail]

end CubeLemmas

/-! ## The cube -/

/-- C15: the six face matrices assemble a closed cube. Under the
column-vector convention (`M·v`) and under the row-vector convention (`v·M`)
alike, the upper-left 3×3 block of each face matrix sends the four vertices
of the quad `g_vv` to four different corners of the cube `[-1, 1]³` lying in
one face plane and sends the quad normal `(0, 0, 1)` to the outward normal of
that face; the six normals are pairwise different and are exactly the normals
of the faces `x = ±1`, `y = ±1`, `z = ±1`. -/
theorem faces_assemble_cube :
    (IsCubeFace (Matrix.mulVec (upper3 (g_ModelMatrixFaceA : Mat4 ℝ))) ![0, 0, 1] ∧
     IsCubeFace (Matrix.mulVec (upper3 (g_ModelMatrixFaceB : Mat4 ℝ))) ![-1, 0, 0] ∧
     IsCubeFace (Matrix.mulVec (upper3 (g_ModelMatrixFaceC : Mat4 ℝ))) ![0, 0, -1] ∧
     IsCubeFace (Matrix.mulVec (upper3 (g_ModelMatrixFaceD : Mat4 ℝ))) ![1, 0, 0] ∧
     IsCubeFace (Matrix.mulVec (upper3 (g_ModelMatrixFaceE : Mat4 ℝ))) ![0, 1, 0] ∧
     IsCubeFace (Matrix.mulVec (upper3 (g_ModelMatrixFaceF : Mat4 ℝ))) ![0, -1, 0]) ∧
    (IsCubeFace (fun v => Matrix.vecMul v (upper3 (g_ModelMatrixFaceA : Mat4 ℝ))) ![0, 0, 1] ∧
     IsCubeFace (fun v => Matrix.vecMul v (upper3 (g_ModelMatrixFaceB : Mat4 ℝ))) ![1, 0, 0] ∧
     IsCubeFace (fun v => Matrix.vecMul v (upper3 (g_ModelMatrixFaceC : Mat4 ℝ))) ![0, 0, -1] ∧
     IsCubeFace (fun v => Matrix.vecMul v (upper3 (g_ModelMatrixFaceD : Mat4 ℝ))) ![-1, 0, 0] ∧
     IsCubeFace (fun v => Matrix.vecMul v (upper3 (g_ModelMatrixFaceE : Mat4 ℝ))) ![0, -1, 0] ∧
     IsCubeFace (fun v => Matrix.vecMul v (upper3 (g_ModelMatrixFaceF : Mat4 ℝ))) ![0, 1, 0]) ∧
    (faceNormalsCol : List (Vec3 ℝ)).Nodup ∧
    (∀ n ∈ (cubeNormals : List (Vec3 ℝ)), n ∈ (faceNormalsCol : List (Vec3 ℝ))) ∧
    (faceNormalsRow : List (Vec3 ℝ)).Nodup ∧
    (∀ n ∈ (cubeNormals : List (Vec3 ℝ)), n ∈ (faceNormalsRow : List (Vec3 ℝ))) := by
  have hc : (faceNormalsCol : List (Vec3 ℝ))
      = [![0, 0, 1], ![-1, 0, 0], ![0, 0, -1], ![1, 0, 0], ![0, 1, 0], ![0, -1, 0]] := by
    show [_, _, _, _, _, _] = _
    rw [← cubeFace_col_FaceA.1, ← cubeFace_col_FaceB.1, ← cubeFace_col_FaceC.1,
      ← cubeFace_col_FaceD.1, ← cubeFace_col_FaceE.1, ← cubeFace_col_FaceF.1]
    rfl
  have hr : (faceNormalsRow : List (Vec3 ℝ))
      = [![0, 0, 1], ![1, 0, 0], ![0, 0, -1], ![-1, 0, 0], ![0, -1, 0], ![0, 1, 0]] := by
    show [_, _, _, _, _, _] = _
    rw [← cubeFace_row_FaceA.1, ← cubeFace_row_FaceB.1, ← cubeFace_row_FaceC.1,
      ← cubeFace_row_FaceD.1, ← cubeFace_row_FaceE.1, ← cubeFace_row_FaceF.1]
    rfl
  refine ⟨⟨cubeFace_col_FaceA, cubeFace_col_FaceB, cubeFace_col_FaceC, cubeFace_col_FaceD,
    cubeFace_col_FaceE, cubeFace_col_FaceF⟩,
    ⟨cubeFace_row_FaceA, cubeFace_row_FaceB, cubeFace_row_FaceC, cubeFace_row_FaceD,
    cubeFace_row_FaceE, cubeFace_row_FaceF⟩, ?_, ?_, ?_, ?_⟩
  · rw [hc]
    simp [List.nodup_cons]
    norm_num [funext_iff, Fin.forall_fin_succ]
  · rw [hc]
    intro n hn
    simp only [cubeNormals, List.mem_cons, List.mem_singleton, List.not_mem_nil,
      or_false] at hn ⊢
    tauto
  · rw [hr]
    simp [List.nodup_cons]
    norm_num [funext_iff, Fin.forall_fin_succ]
  · rw [hr]
    intro n hn
    simp only [cubeNormals, List.mem_cons, List.mem_singleton, List.not_mem_nil,
      or_false] at hn ⊢
    tauto



/-! ## Rounding lemmas -/

section RoundingLemmas

theorem toDouble_rat (x : ℚ) : Rounding.toDouble x = roundBinary 53 x := rfl

theorem toFloat_rat (x : ℚ) : Rounding.toFloat x = roundBinary 24 x := rfl

/-- A rational within one half of an integer is rounded to that integer. -/
theorem roundHalfEven_eq (m : ℚ) (k : ℤ) (h1 : -(1 / 2) < m - k) (h2 : m - k < 1 / 2) :
    roundHalfEven m = k := by
  unfold roundHalfEven
  by_cases hk : (k : ℚ) ≤ m
  · have hf : ⌊m⌋ = k := by
      rw [Int.floor_eq_iff]
      constructor <;> linarith
    rw [hf, if_pos (by linarith)]
  · push_neg at hk
    have hf : ⌊m⌋ = k - 1 := by
      rw [Int.floor_eq_iff]
      push_cast
      constructor <;> linarith
    rw [hf]
    push_cast
    rw [if_neg (by linarith), if_pos (by linarith)]
    ring

theorem roundHalfEven_intCast (k : ℤ) : roundHalfEven (k : ℚ) = k :=
  roundHalfEven_eq _ k (by simp) (by simp)

theorem floor_le_roundHalfEven (m : ℚ) : ⌊m⌋ ≤ roundHalfEven m := by
  unfold roundHalfEven
  split_ifs <;> omega

theorem roundHalfEven_le_floor_add_one (m : ℚ) : roundHalfEven m ≤ ⌊m⌋ + 1 := by
  unfold roundHalfEven
  split_ifs <;> omega

/-- Rounding to the nearest integer is monotone. -/
theorem roundHalfEven_mono {m n : ℚ} (h : m ≤ n) : roundHalfEven m ≤ roundHalfEven n := by
  have hfl : ⌊m⌋ ≤ ⌊n⌋ := Int.floor_mono h
  rcases lt_or_eq_of_le hfl with hlt | heq
  · have h1 := roundHalfEven_le_floor_add_one m
    have h2 := floor_le_roundHalfEven n
    omega
  · unfold roundHalfEven
    rw [← heq]
    split_ifs <;> first | omega | (exfalso; linarith)

/-- An integer bound above a rational bounds its rounding. -/
theorem roundHalfEven_le_of_le (m : ℚ) (K : ℤ) (h : m ≤ K) : roundHalfEven m ≤ K := by
  have := roundHalfEven_mono h
  rwa [roundHalfEven_intCast] at this

/-- An integer bound below a rational bounds its rounding. -/
theorem le_roundHalfEven_of_le (m : ℚ) (K : ℤ) (h : (K : ℚ) ≤ m) : K ≤ roundHalfEven m := by
  have := roundHalfEven_mono h
  rwa [roundHalfEven_intCast] at this

/-- Rounding to the nearest integer, ties to even, commutes with negation. -/
theorem roundHalfEven_neg (m : ℚ) : roundHalfEven (-m) = -roundHalfEven m := by
  have h1 : (⌊m⌋ : ℚ) ≤ m := Int.floor_le m
  have h2 : m < ⌊m⌋ + 1 := Int.lt_floor_add_one m
  by_cases h0 : m = ⌊m⌋
  · have e1 : -m = ((-⌊m⌋ : ℤ) : ℚ) := by
      push_cast
      rw [← h0]
    rw [e1, roundHalfEven_intCast, h0, roundHalfEven_intCast, Int.floor_intCast]
  · have hlt : (⌊m⌋ : ℚ) < m := lt_of_le_of_ne h1 (Ne.symm h0)
    have hf : ⌊-m⌋ = -⌊m⌋ - 1 := by
      rw [Int.floor_eq_iff]
      push_cast
      constructor <;> linarith
    unfold roundHalfEven
    rw [hf]
    push_cast
    split_ifs <;> first | omega | (exfalso; linarith)

theorem roundBinary_zero (p : ℕ) : roundBinary p 0 = 0 := by
  simp [roundBinary]

/-- Rounding to a binary format commutes with negation. -/
theorem roundBinary_neg (p : ℕ) (x : ℚ) : roundBinary p (-x) = -roundBinary p x := by
  unfold roundBinary
  by_cases hx : x = 0
  · simp [hx]
  · rw [if_neg hx, if_neg (neg_ne_zero.mpr hx), abs_neg, neg_div, roundHalfEven_neg]
    push_cast
    ring

/-- The binary exponent of a positive rational between `2 ^ e` and `2 ^ (e + 1)`. -/
theorem log_two_eq (x : ℚ) (e : ℤ) (hpos : 0 < x) (he1 : (2 : ℚ) ^ e ≤ x)
    (he2 : x < (2 : ℚ) ^ (e + 1)) : Int.log 2 x = e := by
  apply le_antisymm
  · have h := (Int.lt_zpow_iff_log_lt (b := 2) (by norm_num) hpos (x := e + 1)).mp
      (by exact_mod_cast he2)
    omega
  · exact (Int.zpow_le_iff_le_log (b := 2) (by norm_num) hpos).mp (by exact_mod_cast he1)

/-- Evaluation of `roundBinary` at a positive rational `x`: with `e` the
binary exponent of `x` and `k` the integer nearest to `x / 2 ^ (e - (p - 1))`,
the result is `k * 2 ^ (e - (p - 1))`. -/
theorem roundBinary_eq (p : ℕ) (x y : ℚ) (e k : ℤ) (hpos : 0 < x)
    (he1 : (2 : ℚ) ^ e ≤ x) (he2 : x < (2 : ℚ) ^ (e + 1))
    (hk1 : -(1 / 2) < x / 2 ^ (e - ((p : ℤ) - 1)) - k)
    (hk2 : x / 2 ^ (e - ((p : ℤ) - 1)) - k < 1 / 2)
    (hy : y = k * 2 ^ (e - ((p : ℤ) - 1))) : roundBinary p x = y := by
  have hl : Int.log 2 |x| = e := by
    rw [abs_of_pos hpos]
    exact log_two_eq x e hpos he1 he2
  unfold roundBinary
  rw [if_neg (ne_of_gt hpos), hl, roundHalfEven_eq _ k hk1 hk2, hy]

/-- Evaluation of `roundBinary` at a negative rational `x`, from the binary
exponent `e` of `-x` and the integer `k` nearest to `-x / 2 ^ (e - (p - 1))`. -/
theorem roundBinary_eq_neg (p : ℕ) (x y : ℚ) (e k : ℤ) (hneg : x < 0)
    (he1 : (2 : ℚ) ^ e ≤ -x) (he2 : -x < (2 : ℚ) ^ (e + 1))
    (hk1 : -(1 / 2) < -x / 2 ^ (e - ((p : ℤ) - 1)) - k)
    (hk2 : -x / 2 ^ (e - ((p : ℤ) - 1)) - k < 1 / 2)
    (hy : y = -(k * 2 ^ (e - ((p : ℤ) - 1)))) : roundBinary p x = y := by
  have h := roundBinary_eq p (-x) (-y) e k (by linarith) he1 he2 hk1 hk2 (by rw [hy]; ring)
  rw [roundBinary_neg] at h
  linarith

/-- The rounding of a nonnegative rational is nonnegative. -/
theorem roundBinary_nonneg (p : ℕ) (x : ℚ) (h : 0 ≤ x) : 0 ≤ roundBinary p x := by
  unfold roundBinary
  split_ifs with hx
  · exact le_refl 0
  · have hq : (0 : ℚ) < 2 ^ (Int.log 2 |x| - ((p : ℤ) - 1)) := by positivity
    have hm : ((0 : ℤ) : ℚ) ≤ x / 2 ^ (Int.log 2 |x| - ((p : ℤ) - 1)) := by
      push_cast
      exact div_nonneg h (le_of_lt hq)
    have hr := le_roundHalfEven_of_le _ 0 hm
    have hr' : (0 : ℚ) ≤ (roundHalfEven (x / 2 ^ (Int.log 2 |x| - ((p : ℤ) - 1))) : ℚ) := by
      exact_mod_cast hr
    exact mul_nonneg hr' (le_of_lt hq)

/-- On positive rationals, rounding to a binary format with at least one
significand bit is monotone. -/
theorem roundBinary_mono_pos (p : ℕ) (hp : 1 ≤ p) (x y : ℚ) (hx : 0 < x) (hxy : x ≤ y) :
    roundBinary p x ≤ roundBinary p y := by
  have hy : 0 < y := lt_of_lt_of_le hx hxy
  have hlx : Int.log 2 |x| = Int.log 2 x := by rw [abs_of_pos hx]
  have hly : Int.log 2 |y| = Int.log 2 y := by rw [abs_of_pos hy]
  have hle : Int.log 2 x ≤ Int.log 2 y := Int.log_mono_right hx hxy
  have hx1 : (2 : ℚ) ^ Int.log 2 x ≤ x := by
    have := Int.zpow_log_le_self (b := 2) (by norm_num) hx
    exact_mod_cast this
  have hx2 : x < (2 : ℚ) ^ (Int.log 2 x + 1) := by
    have := Int.lt_zpow_succ_log_self (b := 2) (by norm_num) x
    exact_mod_cast this
  have hy1 : (2 : ℚ) ^ Int.log 2 y ≤ y := by
    have := Int.zpow_log_le_self (b := 2) (by norm_num) hy
    exact_mod_cast this
  unfold roundBinary
  rw [if_neg (ne_of_gt hx), if_neg (ne_of_gt hy), hlx, hly]
  have hqx : (0 : ℚ) < 2 ^ (Int.log 2 x - ((p : ℤ) - 1)) := by positivity
  have hqy : (0 : ℚ) < 2 ^ (Int.log 2 y - ((p : ℤ) - 1)) := by positivity
  rcases lt_or_eq_of_le hle with hlt | heq
  · -- different binades
    have hpz : (0 : ℤ) ≤ (p : ℤ) - 1 := by omega
    have hpn : (((p - 1 : ℕ) : ℤ)) = (p : ℤ) - 1 := by omega
    have hpn1 : (((p : ℕ) : ℤ)) = ((p : ℤ) - 1) + 1 := by omega
    -- upper bound for the rounding of x
    have hmx : x / 2 ^ (Int.log 2 x - ((p : ℤ) - 1)) ≤ (((2 : ℤ) ^ p : ℤ) : ℚ) := by
      rw [div_le_iff₀ hqx]
      push_cast
      have e : (2 : ℚ) ^ p * 2 ^ (Int.log 2 x - ((p : ℤ) - 1)) = 2 ^ (Int.log 2 x + 1) := by
        rw [← zpow_natCast, ← zpow_add₀ (by norm_num : (2 : ℚ) ≠ 0)]
        congr 1
        omega
      rw [e]
      exact le_of_lt hx2
    have hrx := roundHalfEven_le_of_le _ _ hmx
    have hrx' : (roundHalfEven (x / 2 ^ (Int.log 2 x - ((p : ℤ) - 1))) : ℚ) ≤ (2 : ℚ) ^ p := by
      exact_mod_cast hrx
    -- lower bound for the rounding of y
    have hmy : (((2 : ℤ) ^ (p - 1) : ℤ) : ℚ) ≤ y / 2 ^ (Int.log 2 y - ((p : ℤ) - 1)) := by
      rw [le_div_iff₀ hqy]
      push_cast
      have e : (2 : ℚ) ^ (p - 1) * 2 ^ (Int.log 2 y - ((p : ℤ) - 1)) = 2 ^ Int.log 2 y := by
        rw [← zpow_natCast, ← zpow_add₀ (by norm_num : (2 : ℚ) ≠ 0)]
        congr 1
        omega
      rw [e]
      exact hy1
    have hry := le_roundHalfEven_of_le _ _ hmy
    have hry' : (2 : ℚ) ^ (p - 1)
        ≤ (roundHalfEven (y / 2 ^ (Int.log 2 y - ((p : ℤ) - 1))) : ℚ) := by
      exact_mod_cast hry
    calc (roundHalfEven (x / 2 ^ (Int.log 2 x - ((p : ℤ) - 1))) : ℚ)
            * 2 ^ (Int.log 2 x - ((p : ℤ) - 1))
        ≤ (2 : ℚ) ^ p * 2 ^ (Int.log 2 x - ((p : ℤ) - 1)) :=
          mul_le_mul_of_nonneg_right hrx' (le_of_lt hqx)
      _ = 2 ^ (Int.log 2 x + 1) := by
          rw [← zpow_natCast, ← zpow_add₀ (by norm_num : (2 : ℚ) ≠ 0)]
          congr 1
          omega
      _ ≤ 2 ^ Int.log 2 y := zpow_le_zpow_right₀ (by norm_num) (by omega)
      _ = (2 : ℚ) ^ (p - 1) * 2 ^ (Int.log 2 y - ((p : ℤ) - 1)) := by
          rw [← zpow_natCast, ← zpow_add₀ (by norm_num : (2 : ℚ) ≠ 0)]
          congr 1
          omega
      _ ≤ (roundHalfEven (y / 2 ^ (Int.log 2 y - ((p : ℤ) - 1))) : ℚ)
            * 2 ^ (Int.log 2 y - ((p : ℤ) - 1)) :=
          mul_le_mul_of_nonneg_right hry' (le_of_lt hqy)
  · -- same binade
    rw [← heq]
    have hm : x / 2 ^ (Int.log 2 x - ((p : ℤ) - 1)) ≤ y / 2 ^ (Int.log 2 x - ((p : ℤ) - 1)) :=
      div_le_div_of_nonneg_right hxy (le_of_lt hqx)
    have hr := roundHalfEven_mono hm
    have hr' : (roundHalfEven (x / 2 ^ (Int.log 2 x - ((p : ℤ) - 1))) : ℚ)
        ≤ (roundHalfEven (y / 2 ^ (Int.log 2 x - ((p : ℤ) - 1))) : ℚ) := by
      exact_mod_cast hr
    exact mul_le_mul_of_nonneg_right hr' (le_of_lt hqx)

/-- Rounding to a binary format with at least one significand bit is monotone. -/
theorem roundBinary_mono (p : ℕ) (hp : 1 ≤ p) {x y : ℚ} (hxy : x ≤ y) :
    roundBinary p x ≤ roundBinary p y := by
  rcases lt_trichotomy x 0 with hx | hx | hx
  · rcases lt_trichotomy y 0 with hy | hy | hy
    · have h := roundBinary_mono_pos p hp (-y) (-x) (by linarith) (by linarith)
      rw [roundBinary_neg, roundBinary_neg] at h
      linarith
    · have h := roundBinary_nonneg p (-x) (by linarith)
      rw [roundBinary_neg] at h
      rw [hy, roundBinary_zero]
      linarith
    · have h := roundBinary_nonneg p (-x) (by linarith)
      rw [roundBinary_neg] at h
      have h' := roundBinary_nonneg p y (le_of_lt hy)
      linarith
  · rw [hx, roundBinary_zero]
    exact roundBinary_nonneg p y (by linarith)
  · exact roundBinary_mono_pos p hp x y hx hxy

end RoundingLemmas


section RoundingTieLemmas

/-- A rational within one half (inclusive) of an even integer is rounded to it. -/
theorem roundHalfEven_eq_even (m : ℚ) (k : ℤ) (h1 : -(1 / 2) ≤ m - k) (h2 : m - k ≤ 1 / 2)
    (hk : k % 2 = 0) : roundHalfEven m = k := by
  rcases lt_or_eq_of_le h1 with h1' | h1'
  · rcases lt_or_eq_of_le h2 with h2' | h2'
    · exact roundHalfEven_eq m k h1' h2'
    · have hf : ⌊m⌋ = k := by
        rw [Int.floor_eq_iff]
        constructor <;> linarith
      unfold roundHalfEven
      rw [hf, if_neg (by linarith), if_neg (by linarith), if_pos hk]
  · have hf : ⌊m⌋ = k - 1 := by
      rw [Int.floor_eq_iff]
      push_cast
      constructor <;> linarith
    unfold roundHalfEven
    rw [hf]
    push_cast
    rw [if_neg (by linarith), if_neg (by linarith), if_neg (by omega)]
    ring

/-- Evaluation of `roundBinary` at a positive rational that may lie halfway
between two neighbours: the even significand `k` is taken. -/
theorem roundBinary_eq_even (p : ℕ) (x y : ℚ) (e k : ℤ) (hpos : 0 < x)
    (he1 : (2 : ℚ) ^ e ≤ x) (he2 : x < (2 : ℚ) ^ (e + 1))
    (hk1 : -(1 / 2) ≤ x / 2 ^ (e - ((p : ℤ) - 1)) - k)
    (hk2 : x / 2 ^ (e - ((p : ℤ) - 1)) - k ≤ 1 / 2) (hk : k % 2 = 0)
    (hy : y = k * 2 ^ (e - ((p : ℤ) - 1))) : roundBinary p x = y := by
  have hl : Int.log 2 |x| = e := by
    rw [abs_of_pos hpos]
    exact log_two_eq x e hpos he1 he2
  unfold roundBinary
  rw [if_neg (ne_of_gt hpos), hl, roundHalfEven_eq_even _ k hk1 hk2 hk, hy]

/-- Evaluation of `roundBinary` at a negative rational that may lie halfway
between two neighbours. -/
theorem roundBinary_eq_even_neg (p : ℕ) (x y : ℚ) (e k : ℤ) (hneg : x < 0)
    (he1 : (2 : ℚ) ^ e ≤ -x) (he2 : -x < (2 : ℚ) ^ (e + 1))
    (hk1 : -(1 / 2) ≤ -x / 2 ^ (e - ((p : ℤ) - 1)) - k)
    (hk2 : -x / 2 ^ (e - ((p : ℤ) - 1)) - k ≤ 1 / 2) (hk : k % 2 = 0)
    (hy : y = -(k * 2 ^ (e - ((p : ℤ) - 1)))) : roundBinary p x = y := by
  have h := roundBinary_eq_even p (-x) (-y) e k (by linarith) he1 he2 hk1 hk2 hk
    (by rw [hy]; ring)
  rw [roundBinary_neg] at h
  linarith

end RoundingTieLemmas

/-! ## Concrete `double` and `float` values -/

section Evaluations

theorem M_PI_double_eq :
    M_PI_double = (884279719003555 / 281474976710656 : ℚ) := by
  apply roundBinary_eq 53 _ _ (1) 7074237752028440 <;> norm_num

theorem double_1_1 :
    (Rounding.toDouble 1.1 : ℚ) = (2476979795053773 / 2251799813685248 : ℚ) := by
  apply roundBinary_eq 53 _ _ (0) 4953959590107546 <;> norm_num

theorem double_0_9 :
    (Rounding.toDouble 0.9 : ℚ) = (8106479329266893 / 9007199254740992 : ℚ) := by
  apply roundBinary_eq 53 _ _ (-1) 8106479329266893 <;> norm_num

theorem dmul_two_M_PI :
    dmul (2 : ℚ) (884279719003555 / 281474976710656) = (884279719003555 / 140737488355328 : ℚ) := by
  apply roundBinary_eq 53 _ _ (2) 7074237752028440 <;> norm_num

theorem dmul_two_M_PI_2000 :
    dmul (884279719003555 / 140737488355328 : ℚ) ((2000 : ℤ) : ℚ)
      = (6908435304715273 / 549755813888 : ℚ) := by
  apply roundBinary_eq 53 _ _ (13) 6908435304715273 <;> norm_num

theorem ddiv_1000_2000 :
    ddiv (6908435304715273 / 549755813888 : ℚ) 1000.0 = (884279719003555 / 70368744177664 : ℚ) := by
  apply roundBinary_eq 53 _ _ (3) 7074237752028440 <;> norm_num

theorem phaseDeltaOf_M_PI_2000 :
    phaseDeltaOf M_PI_double (2000) = (884279719003555 / 70368744177664 : ℚ) := by
  unfold phaseDeltaOf
  rw [M_PI_double_eq, dmul_two_M_PI, dmul_two_M_PI_2000, ddiv_1000_2000]

theorem dmul_two_M_PI_neg_2000 :
    dmul (884279719003555 / 140737488355328 : ℚ) ((-2000 : ℤ) : ℚ)
      = (-(6908435304715273 / 549755813888) : ℚ) := by
  apply roundBinary_eq_neg 53 _ _ (13) 6908435304715273 <;> norm_num

theorem ddiv_1000_neg_2000 :
    ddiv (-(6908435304715273 / 549755813888) : ℚ) 1000.0
      = (-(884279719003555 / 70368744177664) : ℚ) := by
  apply roundBinary_eq_neg 53 _ _ (3) 7074237752028440 <;> norm_num

theorem phaseDeltaOf_M_PI_neg_2000 :
    phaseDeltaOf M_PI_double (-2000) = (-(884279719003555 / 70368744177664) : ℚ) := by
  unfold phaseDeltaOf
  rw [M_PI_double_eq, dmul_two_M_PI, dmul_two_M_PI_neg_2000, ddiv_1000_neg_2000]

theorem dmul_two_M_PI_neg_1 :
    dmul (884279719003555 / 140737488355328 : ℚ) ((-1 : ℤ) : ℚ)
      = (-(884279719003555 / 140737488355328) : ℚ) := by
  apply roundBinary_eq_neg 53 _ _ (2) 7074237752028440 <;> norm_num

theorem ddiv_1000_neg_1 :
    ddiv (-(884279719003555 / 140737488355328) : ℚ) 1000.0
      = (-(7244019458077123 / 1152921504606846976) : ℚ) := by
  apply roundBinary_eq_neg 53 _ _ (-8) 7244019458077123 <;> norm_num

theorem phaseDeltaOf_M_PI_neg_1 :
    phaseDeltaOf M_PI_double (-1) = (-(7244019458077123 / 1152921504606846976) : ℚ) := by
  unfold phaseDeltaOf
  rw [M_PI_double_eq, dmul_two_M_PI, dmul_two_M_PI_neg_1, ddiv_1000_neg_1]

theorem dmul_two_M_PI_neg_7 :
    dmul (884279719003555 / 140737488355328 : ℚ) ((-7 : ℤ) : ℚ)
      = (-(6189958033024885 / 140737488355328) : ℚ) := by
  apply roundBinary_eq_neg 53 _ _ (5) 6189958033024885 <;> norm_num

theorem ddiv_1000_neg_7 :
    ddiv (-(6189958033024885 / 140737488355328) : ℚ) 1000.0
      = (-(3169258512908741 / 72057594037927936) : ℚ) := by
  apply roundBinary_eq_neg 53 _ _ (-5) 6338517025817482 <;> norm_num

theorem phaseDeltaOf_M_PI_neg_7 :
    phaseDeltaOf M_PI_double (-7) = (-(3169258512908741 / 72057594037927936) : ℚ) := by
  unfold phaseDeltaOf
  rw [M_PI_double_eq, dmul_two_M_PI, dmul_two_M_PI_neg_7, ddiv_1000_neg_7]

theorem dmul_two_M_PI_neg_8 :
    dmul (884279719003555 / 140737488355328 : ℚ) ((-8 : ℤ) : ℚ)
      = (-(884279719003555 / 17592186044416) : ℚ) := by
  apply roundBinary_eq_neg 53 _ _ (5) 7074237752028440 <;> norm_num

theorem ddiv_1000_neg_8 :
    ddiv (-(884279719003555 / 17592186044416) : ℚ) 1000.0
      = (-(7244019458077123 / 144115188075855872) : ℚ) := by
  apply roundBinary_eq_neg 53 _ _ (-5) 7244019458077123 <;> norm_num

theorem phaseDeltaOf_M_PI_neg_8 :
    phaseDeltaOf M_PI_double (-8) = (-(7244019458077123 / 144115188075855872) : ℚ) := by
  unfold phaseDeltaOf
  rw [M_PI_double_eq, dmul_two_M_PI, dmul_two_M_PI_neg_8, ddiv_1000_neg_8]

theorem dmul_two_M_PI_334 :
    dmul (884279719003555 / 140737488355328 : ℚ) ((334 : ℤ) : ℚ)
      = (4614834783549803 / 2199023255552 : ℚ) := by
  apply roundBinary_eq 53 _ _ (11) 4614834783549803 <;> norm_num

theorem ddiv_1000_334 :
    ddiv (4614834783549803 / 2199023255552 : ℚ) 1000.0
      = (2362795409177499 / 1125899906842624 : ℚ) := by
  apply roundBinary_eq 53 _ _ (1) 4725590818354998 <;> norm_num

theorem phaseDeltaOf_M_PI_334 :
    phaseDeltaOf M_PI_double (334) = (2362795409177499 / 1125899906842624 : ℚ) := by
  unfold phaseDeltaOf
  rw [M_PI_double_eq, dmul_two_M_PI, dmul_two_M_PI_334, ddiv_1000_334]

theorem dmul_two_M_PI_333 :
    dmul (884279719003555 / 140737488355328 : ℚ) ((333 : ℤ) : ℚ)
      = (1150254478235093 / 549755813888 : ℚ) := by
  apply roundBinary_eq 53 _ _ (11) 4601017912940372 <;> norm_num

theorem ddiv_1000_333 :
    ddiv (1150254478235093 / 549755813888 : ℚ) 1000.0
      = (4711442342850941 / 2251799813685248 : ℚ) := by
  apply roundBinary_eq 53 _ _ (1) 4711442342850941 <;> norm_num

theorem phaseDeltaOf_M_PI_333 :
    phaseDeltaOf M_PI_double (333) = (4711442342850941 / 2251799813685248 : ℚ) := by
  unfold phaseDeltaOf
  rw [M_PI_double_eq, dmul_two_M_PI, dmul_two_M_PI_333, ddiv_1000_333]

theorem dmul_two_M_PI_neg_334 :
    dmul (884279719003555 / 140737488355328 : ℚ) ((-334 : ℤ) : ℚ)
      = (-(4614834783549803 / 2199023255552) : ℚ) := by
  apply roundBinary_eq_neg 53 _ _ (11) 4614834783549803 <;> norm_num

theorem ddiv_1000_neg_334 :
    ddiv (-(4614834783549803 / 2199023255552) : ℚ) 1000.0
      = (-(2362795409177499 / 1125899906842624) : ℚ) := by
  apply roundBinary_eq_neg 53 _ _ (1) 4725590818354998 <;> norm_num

theorem phaseDeltaOf_M_PI_neg_334 :
    phaseDeltaOf M_PI_double (-334) = (-(2362795409177499 / 1125899906842624) : ℚ) := by
  unfold phaseDeltaOf
  rw [M_PI_double_eq, dmul_two_M_PI, dmul_two_M_PI_neg_334, ddiv_1000_neg_334]

theorem dmul_two_M_PI_neg_333 :
    dmul (884279719003555 / 140737488355328 : ℚ) ((-333 : ℤ) : ℚ)
      = (-(1150254478235093 / 549755813888) : ℚ) := by
  apply roundBinary_eq_neg 53 _ _ (11) 4601017912940372 <;> norm_num

theorem ddiv_1000_neg_333 :
    ddiv (-(1150254478235093 / 549755813888) : ℚ) 1000.0
      = (-(4711442342850941 / 2251799813685248) : ℚ) := by
  apply roundBinary_eq_neg 53 _ _ (1) 4711442342850941 <;> norm_num

theorem phaseDeltaOf_M_PI_neg_333 :
    phaseDeltaOf M_PI_double (-333) = (-(4711442342850941 / 2251799813685248) : ℚ) := by
  unfold phaseDeltaOf
  rw [M_PI_double_eq, dmul_two_M_PI, dmul_two_M_PI_neg_333, ddiv_1000_neg_333]

theorem dmul_two_M_PI_neg_500 :
    dmul (884279719003555 / 140737488355328 : ℚ) ((-500 : ℤ) : ℚ)
      = (-(6908435304715273 / 2199023255552) : ℚ) := by
  apply roundBinary_eq_neg 53 _ _ (11) 6908435304715273 <;> norm_num

theorem ddiv_1000_neg_500 :
    ddiv (-(6908435304715273 / 2199023255552) : ℚ) 1000.0
      = (-(884279719003555 / 281474976710656) : ℚ) := by
  apply roundBinary_eq_neg 53 _ _ (1) 7074237752028440 <;> norm_num

theorem phaseDeltaOf_M_PI_neg_500 :
    phaseDeltaOf M_PI_double (-500) = (-(884279719003555 / 281474976710656) : ℚ) := by
  unfold phaseDeltaOf
  rw [M_PI_double_eq, dmul_two_M_PI, dmul_two_M_PI_neg_500, ddiv_1000_neg_500]

theorem dmul_two_M_PI_neg_200 :
    dmul (884279719003555 / 140737488355328 : ℚ) ((-200 : ℤ) : ℚ)
      = (-(5526748243772219 / 4398046511104) : ℚ) := by
  apply roundBinary_eq_neg 53 _ _ (10) 5526748243772219 <;> norm_num

theorem ddiv_1000_neg_200 :
    ddiv (-(5526748243772219 / 4398046511104) : ℚ) 1000.0
      = (-(176855943800711 / 140737488355328) : ℚ) := by
  apply roundBinary_eq_neg 53 _ _ (0) 5659390201622752 <;> norm_num

theorem phaseDeltaOf_M_PI_neg_200 :
    phaseDeltaOf M_PI_double (-200) = (-(176855943800711 / 140737488355328) : ℚ) := by
  unfold phaseDeltaOf
  rw [M_PI_double_eq, dmul_two_M_PI, dmul_two_M_PI_neg_200, ddiv_1000_neg_200]

theorem quarter_2000 :
    ddiv (884279719003555 / 70368744177664 : ℚ) 4 = (884279719003555 / 281474976710656 : ℚ) := by
  apply roundBinary_eq 53 _ _ (1) 7074237752028440 <;> norm_num

theorem quarter_neg_2000 :
    ddiv (-(884279719003555 / 70368744177664) : ℚ) 4
      = (-(884279719003555 / 281474976710656) : ℚ) := by
  apply roundBinary_eq_neg 53 _ _ (1) 7074237752028440 <;> norm_num

theorem quarter_neg_1 :
    ddiv (-(7244019458077123 / 1152921504606846976) : ℚ) 4
      = (-(7244019458077123 / 4611686018427387904) : ℚ) := by
  apply roundBinary_eq_neg 53 _ _ (-10) 7244019458077123 <;> norm_num

theorem quarter_neg_7 :
    ddiv (-(3169258512908741 / 72057594037927936) : ℚ) 4
      = (-(3169258512908741 / 288230376151711744) : ℚ) := by
  apply roundBinary_eq_neg 53 _ _ (-7) 6338517025817482 <;> norm_num

theorem quarter_neg_8 :
    ddiv (-(7244019458077123 / 144115188075855872) : ℚ) 4
      = (-(7244019458077123 / 576460752303423488) : ℚ) := by
  apply roundBinary_eq_neg 53 _ _ (-7) 7244019458077123 <;> norm_num

theorem quarter_neg_200 :
    ddiv (-(176855943800711 / 140737488355328) : ℚ) 4
      = (-(176855943800711 / 562949953421312) : ℚ) := by
  apply roundBinary_eq_neg 53 _ _ (-2) 5659390201622752 <;> norm_num

theorem phase_0_2000 :
    dadd (0 : ℚ) (884279719003555 / 281474976710656) = (884279719003555 / 281474976710656 : ℚ) := by
  apply roundBinary_eq 53 _ _ (1) 7074237752028440 <;> norm_num

theorem phase_0_neg_2000 :
    dadd (0 : ℚ) (-(884279719003555 / 281474976710656))
      = (-(884279719003555 / 281474976710656) : ℚ) := by
  apply roundBinary_eq_neg 53 _ _ (1) 7074237752028440 <;> norm_num

theorem phase_0_neg_1 :
    dadd (0 : ℚ) (-(7244019458077123 / 4611686018427387904))
      = (-(7244019458077123 / 4611686018427387904) : ℚ) := by
  apply roundBinary_eq_neg 53 _ _ (-10) 7244019458077123 <;> norm_num

theorem phase_neg_1_neg_7 :
    dadd (-(7244019458077123 / 4611686018427387904) : ℚ) (-(3169258512908741 / 288230376151711744))
      = (-(3622009729038561 / 288230376151711744) : ℚ) := by
  apply roundBinary_eq_neg 53 _ _ (-7) 7244019458077122 <;> norm_num

theorem phase_0_neg_8 :
    dadd (0 : ℚ) (-(7244019458077123 / 576460752303423488))
      = (-(7244019458077123 / 576460752303423488) : ℚ) := by
  apply roundBinary_eq_neg 53 _ _ (-7) 7244019458077123 <;> norm_num

theorem phase_0_neg_200 :
    dadd (0 : ℚ) (-(176855943800711 / 562949953421312))
      = (-(176855943800711 / 562949953421312) : ℚ) := by
  apply roundBinary_eq_neg 53 _ _ (-2) 5659390201622752 <;> norm_num

theorem zoom_phase_0_neg_7 :
    dadd (0 : ℚ) (-(3169258512908741 / 72057594037927936))
      = (-(3169258512908741 / 72057594037927936) : ℚ) := by
  apply roundBinary_eq_neg 53 _ _ (-5) 6338517025817482 <;> norm_num

theorem zoom_phase_0_neg_500 :
    dadd (0 : ℚ) (-(884279719003555 / 281474976710656))
      = (-(884279719003555 / 281474976710656) : ℚ) := by
  apply roundBinary_eq_neg 53 _ _ (1) 7074237752028440 <;> norm_num

theorem zoom_phase_334 :
    dadd (0 : ℚ) (2362795409177499 / 1125899906842624)
      = (2362795409177499 / 1125899906842624 : ℚ) := by
  apply roundBinary_eq 53 _ _ (1) 4725590818354998 <;> norm_num

theorem zoom_phase_334_333 :
    dadd (2362795409177499 / 1125899906842624 : ℚ) (4711442342850941 / 2251799813685248)
      = (2359258290301485 / 562949953421312 : ℚ) := by
  apply roundBinary_eq_even 53 _ _ (2) 4718516580602970 <;> norm_num

theorem zoom_phase_334_333_333 :
    dadd (2359258290301485 / 562949953421312 : ℚ) (4711442342850941 / 2251799813685248)
      = (884279719003555 / 140737488355328 : ℚ) := by
  apply roundBinary_eq_even 53 _ _ (2) 7074237752028440 <;> norm_num

theorem zoom_phase_neg_334 :
    dadd (0 : ℚ) (-(2362795409177499 / 1125899906842624))
      = (-(2362795409177499 / 1125899906842624) : ℚ) := by
  apply roundBinary_eq_neg 53 _ _ (1) 4725590818354998 <;> norm_num

theorem zoom_phase_neg_334_333 :
    dadd (-(2362795409177499 / 1125899906842624) : ℚ) (-(4711442342850941 / 2251799813685248))
      = (-(2359258290301485 / 562949953421312) : ℚ) := by
  apply roundBinary_eq_even_neg 53 _ _ (2) 4718516580602970 <;> norm_num

theorem zoom_phase_neg_334_333_333 :
    dadd (-(2359258290301485 / 562949953421312) : ℚ) (-(4711442342850941 / 2251799813685248))
      = (-(884279719003555 / 140737488355328) : ℚ) := by
  apply roundBinary_eq_even_neg 53 _ _ (2) 7074237752028440 <;> norm_num

theorem float_phase_2000 :
    (Rounding.toFloat (884279719003555 / 281474976710656) : ℚ) = (13176795 / 4194304 : ℚ) := by
  apply roundBinary_eq 24 _ _ (1) 13176795 <;> norm_num

theorem float_phase_neg_2000 :
    (Rounding.toFloat (-(884279719003555 / 281474976710656)) : ℚ)
      = (-(13176795 / 4194304) : ℚ) := by
  apply roundBinary_eq_neg 24 _ _ (1) 13176795 <;> norm_num

theorem float_phase_neg_200 :
    (Rounding.toFloat (-(176855943800711 / 562949953421312)) : ℚ) = (-(2635359 / 8388608) : ℚ) := by
  apply roundBinary_eq_neg 24 _ _ (-2) 10541436 <;> norm_num

theorem dmul_0_9_neg_one :
    dmul (8106479329266893 / 9007199254740992 : ℚ) (-1)
      = (-(8106479329266893 / 9007199254740992) : ℚ) := by
  apply roundBinary_eq_neg 53 _ _ (-1) 8106479329266893 <;> norm_num

theorem dmul_0_9_one :
    dmul (8106479329266893 / 9007199254740992 : ℚ) 1
      = (8106479329266893 / 9007199254740992 : ℚ) := by
  apply roundBinary_eq 53 _ _ (-1) 8106479329266893 <;> norm_num

theorem dadd_1_1_neg_0_9 :
    dadd (2476979795053773 / 2251799813685248 : ℚ) (-(8106479329266893 / 9007199254740992))
      = (1801439850948199 / 9007199254740992 : ℚ) := by
  apply roundBinary_eq 53 _ _ (-3) 7205759403792796 <;> norm_num

theorem dadd_1_1_0_9 :
    dadd (2476979795053773 / 2251799813685248 : ℚ) (8106479329266893 / 9007199254740992)
      = (2 : ℚ) := by
  apply roundBinary_eq 53 _ _ (1) 4503599627370496 <;> norm_num

theorem float_zoom_low :
    (Rounding.toFloat (1801439850948199 / 9007199254740992) : ℚ) = (13421773 / 67108864 : ℚ) := by
  apply roundBinary_eq 24 _ _ (-3) 13421773 <;> norm_num

theorem float_zoom_high :
    (Rounding.toFloat (2) : ℚ) = (2 : ℚ) := by
  apply roundBinary_eq 24 _ _ (1) 8388608 <;> norm_num

end Evaluations


/-! ## The zoom expression in machine arithmetic -/

section ZoomLemmas

/-- Where `cos` returns 1, the zoom expression is exactly 2. -/
theorem zoomOf_of_cos_eq_one (cos : ℚ → ℚ) (p : ℚ) (h : cos p = 1) : zoomOf cos p = 2 := by
  unfold zoomOf
  rw [h, double_1_1, double_0_9, dmul_0_9_one, dadd_1_1_0_9, float_zoom_high]

/-- Where `cos` returns -1, the zoom expression is the `float` next above 0.2. -/
theorem zoomOf_of_cos_eq_neg_one (cos : ℚ → ℚ) (p : ℚ) (h : cos p = -1) :
    zoomOf cos p = 13421773 / 67108864 := by
  unfold zoomOf
  rw [h, double_1_1, double_0_9, dmul_0_9_neg_one, dadd_1_1_neg_0_9, float_zoom_low]

/-- For a cosine between -1 and 1, the zoom expression lies between the
`float` next above 0.2 and 2. -/
theorem zoomOf_range (cos : ℚ → ℚ) (p : ℚ) (h1 : -1 ≤ cos p) (h2 : cos p ≤ 1) :
    13421773 / 67108864 ≤ zoomOf cos p ∧ zoomOf cos p ≤ 2 := by
  have a09 : (0 : ℚ) < 8106479329266893 / 9007199254740992 := by norm_num
  have lo1 : dmul (8106479329266893 / 9007199254740992 : ℚ) (-1)
      ≤ dmul (8106479329266893 / 9007199254740992 : ℚ) (cos p) :=
    roundBinary_mono 53 (by norm_num) (by nlinarith)
  have hi1 : dmul (8106479329266893 / 9007199254740992 : ℚ) (cos p)
      ≤ dmul (8106479329266893 / 9007199254740992 : ℚ) 1 :=
    roundBinary_mono 53 (by norm_num) (by nlinarith)
  have lo2 : dadd (2476979795053773 / 2251799813685248 : ℚ)
        (dmul (8106479329266893 / 9007199254740992 : ℚ) (-1))
      ≤ dadd (2476979795053773 / 2251799813685248 : ℚ)
        (dmul (8106479329266893 / 9007199254740992 : ℚ) (cos p)) :=
    roundBinary_mono 53 (by norm_num) (by linarith)
  have hi2 : dadd (2476979795053773 / 2251799813685248 : ℚ)
        (dmul (8106479329266893 / 9007199254740992 : ℚ) (cos p))
      ≤ dadd (2476979795053773 / 2251799813685248 : ℚ)
        (dmul (8106479329266893 / 9007199254740992 : ℚ) 1) :=
    roundBinary_mono 53 (by norm_num) (by linarith)
  have lo3 := roundBinary_mono 24 (by norm_num) lo2
  have hi3 := roundBinary_mono 24 (by norm_num) hi2
  rw [← toFloat_rat, ← toFloat_rat, dmul_0_9_neg_one, dadd_1_1_neg_0_9, float_zoom_low] at lo3
  rw [← toFloat_rat, ← toFloat_rat, dmul_0_9_one, dadd_1_1_0_9, float_zoom_high] at hi3
  unfold zoomOf
  rw [double_1_1, double_0_9]
  exact ⟨lo3, hi3⟩

end ZoomLemmas

/-! ## Rotation and zoom phases -/

/-- C1, as the claim has it: from the initial state with only X toggled on,
one `frame` with `deltaMillis = 2000` (`d = 4π`, clock reading -2000) gives
the `double` X phase `884279719003555 / 281474976710656` (3.14159265358979…)
and the `float` rotation-X angle `13176795 / 4194304` (3.14159274…): the
angle is not equal to the new phase. On a forward clock (reading 2000,
`deltaMillis = -2000`) both values are negated and differ likewise. -/
theorem frame_rotation_angle_narrowed :
    M_PI_double = 884279719003555 / 281474976710656 ∧
    ∀ cos : ℚ → ℚ,
      (frame M_PI_double cos (key initState 'i' 0 0) (-2000)).1.g_TimeDelta = 2000 ∧
      (frame M_PI_double cos (key initState 'i' 0 0) (-2000)).1.phaseX
        = 884279719003555 / 281474976710656 ∧
      (frame M_PI_double cos (key initState 'i' 0 0) (-2000)).1.g_vu.rotx
        = 13176795 / 4194304 ∧
      (frame M_PI_double cos (key initState 'i' 0 0) (-2000)).1.g_vu.rotx
        ≠ (frame M_PI_double cos (key initState 'i' 0 0) (-2000)).1.phaseX ∧
      (frame M_PI_double cos (key initState 'i' 0 0) 2000).1.g_TimeDelta = -2000 ∧
      (frame M_PI_double cos (key initState 'i' 0 0) 2000).1.phaseX
        = -(884279719003555 / 281474976710656) ∧
      (frame M_PI_double cos (key initState 'i' 0 0) 2000).1.g_vu.rotx
        = -(13176795 / 4194304) ∧
      (frame M_PI_double cos (key initState 'i' 0 0) 2000).1.g_vu.rotx
        ≠ (frame M_PI_double cos (key initState 'i' 0 0) 2000).1.phaseX := by
  refine ⟨M_PI_double_eq, ?_⟩
  intro cos
  have hx : (key (initState : State ℚ) 'i' 0 0).g_IsRotatingX = true := by
    simp [key, initState]
  have hp : (key (initState : State ℚ) 'i' 0 0).phaseX = 0 := by simp [key, initState]
  have hT : (key (initState : State ℚ) 'i' 0 0).g_Time = 0 := by simp [key, initState]
  have e : wrapInt (0 - -2000) = 2000 := by decide
  have e' : wrapInt (0 - 2000) = -2000 := by decide
  have hc := (frame_clock M_PI_double cos (key (initState : State ℚ) 'i' 0 0) (-2000)).1
  have h := frame_X M_PI_double cos (key (initState : State ℚ) 'i' 0 0) (-2000)
  have gc := (frame_clock M_PI_double cos (key (initState : State ℚ) 'i' 0 0) 2000).1
  have g := frame_X M_PI_double cos (key (initState : State ℚ) 'i' 0 0) 2000
  rw [hT, e] at hc
  rw [hT, e'] at gc
  rw [hx, if_pos rfl, if_pos rfl, hp, hT, e, phaseDeltaOf_M_PI_2000, quarter_2000,
    phase_0_2000, float_phase_2000] at h
  rw [hx, if_pos rfl, if_pos rfl, hp, hT, e', phaseDeltaOf_M_PI_neg_2000, quarter_neg_2000,
    phase_0_neg_2000, float_phase_neg_2000] at g
  refine ⟨hc, h.2.1, h.2.2, ?_, gc, g.2.1, g.2.2, ?_⟩
  · rw [h.2.1, h.2.2]
    norm_num
  · rw [g.2.1, g.2.2]
    norm_num

/-- C1, amended: one `frame` call with clock reading `t` stores
`deltaMillis = g_Time - t` and the phase delta `d = 2π·deltaMillis/1000`
computed in `double`; for every rotation axis whose toggle is true it adds
`d/4` to that axis's phase in `double` arithmetic and sets the axis's
rotation angle to the new phase narrowed to `float`; for every axis whose
toggle is false the phase and the rotation angle are unchanged. -/
theorem frame_rotation_step (M_PI : ℚ) (cos : ℚ → ℚ) (s : State ℚ) (t : Int) :
    (frame M_PI cos s t).1.g_TimeDelta = wrapInt (s.g_Time - t) ∧
    (frame M_PI cos s t).1.g_PhaseDelta
      = phaseDeltaOf M_PI (frame M_PI cos s t).1.g_TimeDelta ∧
    (s.g_IsRotatingX = true →
      (frame M_PI cos s t).1.phaseX
        = dadd s.phaseX (ddiv (frame M_PI cos s t).1.g_PhaseDelta 4) ∧
      (frame M_PI cos s t).1.g_vu.rotx = Rounding.toFloat (frame M_PI cos s t).1.phaseX) ∧
    (s.g_IsRotatingY = true →
      (frame M_PI cos s t).1.phaseY
        = dadd s.phaseY (ddiv (frame M_PI cos s t).1.g_PhaseDelta 4) ∧
      (frame M_PI cos s t).1.g_vu.roty = Rounding.toFloat (frame M_PI cos s t).1.phaseY) ∧
    (s.g_IsRotatingZ = true →
      (frame M_PI cos s t).1.phaseZ
        = dadd s.phaseZ (ddiv (frame M_PI cos s t).1.g_PhaseDelta 4) ∧
      (frame M_PI cos s t).1.g_vu.rotz = Rounding.toFloat (frame M_PI cos s t).1.phaseZ) ∧
    (s.g_IsRotatingX = false →
      (frame M_PI cos s t).1.phaseX = s.phaseX ∧
      (frame M_PI cos s t).1.g_vu.rotx = s.g_vu.rotx) ∧
    (s.g_IsRotatingY = false →
      (frame M_PI cos s t).1.phaseY = s.phaseY ∧
      (frame M_PI cos s t).1.g_vu.roty = s.g_vu.roty) ∧
    (s.g_IsRotatingZ = false →
      (frame M_PI cos s t).1.phaseZ = s.phaseZ ∧
      (frame M_PI cos s t).1.g_vu.rotz = s.g_vu.rotz) := by
  have hc := frame_clock M_PI cos s t
  have hx := frame_X M_PI cos s t
  have hy := frame_Y M_PI cos s t
  have hz := frame_Z M_PI cos s t
  have hd : (frame M_PI cos s t).1.g_PhaseDelta
      = phaseDeltaOf M_PI (frame M_PI cos s t).1.g_TimeDelta := by
    rw [hc.2.1, hc.1]
  refine ⟨hc.1, hd, ?_, ?_, ?_, ?_, ?_, ?_⟩
  · intro h
    rw [hx.2.1, hx.2.2, if_pos h, if_pos h, hc.2.1]
    exact ⟨rfl, rfl⟩
  · intro h
    rw [hy.2.1, hy.2.2, if_pos h, if_pos h, hc.2.1]
    exact ⟨rfl, rfl⟩
  · intro h
    rw [hz.2.1, hz.2.2, if_pos h, if_pos h, hc.2.1]
    exact ⟨rfl, rfl⟩
  · intro h
    rw [hx.2.1, hx.2.2, h]
    exact ⟨rfl, rfl⟩
  · intro h
    rw [hy.2.1, hy.2.2, h]
    exact ⟨rfl, rfl⟩
  · intro h
    rw [hz.2.1, hz.2.2, h]
    exact ⟨rfl, rfl⟩

/-- C1, amended, the scenario: from the initial state with only X toggled
on, one `frame` whose `deltaMillis` is 2000 (clock reading -2000) gives the X
phase `M_PI` and the rotation-X angle `13176795 / 4194304`, the `float`
nearest to it; one `frame` whose `deltaMillis` is -2000 (clock reading 2000)
gives the negatives of both; the Y and Z angles stay 0 either way. -/
theorem frame_rotation_step_witness :
    (key (initState : State ℚ) 'i' 0 0).g_IsRotatingX = true ∧
    (key (initState : State ℚ) 'i' 0 0).g_IsRotatingY = false ∧
    (key (initState : State ℚ) 'i' 0 0).g_IsRotatingZ = false ∧
    ∀ cos : ℚ → ℚ,
      (frame M_PI_double cos (key initState 'i' 0 0) (-2000)).1.phaseX = M_PI_double ∧
      (frame M_PI_double cos (key initState 'i' 0 0) (-2000)).1.g_vu.rotx
        = 13176795 / 4194304 ∧
      (frame M_PI_double cos (key initState 'i' 0 0) (-2000)).1.g_vu.roty = 0 ∧
      (frame M_PI_double cos (key initState 'i' 0 0) (-2000)).1.g_vu.rotz = 0 ∧
      (frame M_PI_double cos (key initState 'i' 0 0) 2000).1.phaseX = -M_PI_double ∧
      (frame M_PI_double cos (key initState 'i' 0 0) 2000).1.g_vu.rotx
        = -(13176795 / 4194304) ∧
      (frame M_PI_double cos (key initState 'i' 0 0) 2000).1.g_vu.roty = 0 ∧
      (frame M_PI_double cos (key initState 'i' 0 0) 2000).1.g_vu.rotz = 0 := by
  have hx : (key (initState : State ℚ) 'i' 0 0).g_IsRotatingX = true := by
    simp [key, initState]
  have hy : (key (initState : State ℚ) 'i' 0 0).g_IsRotatingY = false := by
    simp [key, initState]
  have hz : (key (initState : State ℚ) 'i' 0 0).g_IsRotatingZ = false := by
    simp [key, initState]
  have hp : (key (initState : State ℚ) 'i' 0 0).phaseX = 0 := by simp [key, initState]
  have hT : (key (initState : State ℚ) 'i' 0 0).g_Time = 0 := by simp [key, initState]
  have ry : (key (initState : State ℚ) 'i' 0 0).g_vu.roty = 0 := by
    simp [key, initState, g_vu_init]
  have rz : (key (initState : State ℚ) 'i' 0 0).g_vu.rotz = 0 := by
    simp [key, initState, g_vu_init]
  refine ⟨hx, hy, hz, ?_⟩
  intro cos
  have a := frame_rotation_step M_PI_double cos (key initState 'i' 0 0) (-2000)
  have b := frame_rotation_step M_PI_double cos (key initState 'i' 0 0) 2000
  obtain ⟨a1, a2, a3, -, -, -, a7, a8⟩ := a
  obtain ⟨b1, b2, b3, -, -, -, b7, b8⟩ := b
  have ea : wrapInt (0 - -2000) = 2000 := by decide
  have eb : wrapInt (0 - 2000) = -2000 := by decide
  rw [hT, ea] at a1
  rw [hT, eb] at b1
  rw [a1, phaseDeltaOf_M_PI_2000] at a2
  rw [b1, phaseDeltaOf_M_PI_neg_2000] at b2
  obtain ⟨a4, a5⟩ := a3 hx
  obtain ⟨b4, b5⟩ := b3 hx
  rw [a2, hp, quarter_2000, phase_0_2000] at a4
  rw [b2, hp, quarter_neg_2000, phase_0_neg_2000] at b4
  rw [a4, float_phase_2000] at a5
  rw [b4, float_phase_neg_2000] at b5
  refine ⟨?_, a5, (a7 hy).2.trans ry, (a8 hz).2.trans rz, ?_, b5, (b7 hy).2.trans ry,
    (b8 hz).2.trans rz⟩
  · rw [a4, M_PI_double_eq]
  · rw [b4, M_PI_double_eq]

/-- C2, as the claim has it: X is toggled on, a `frame` runs at clock
reading 1, zoom is toggled on, a `frame` runs at clock reading 8. In that
second frame the zoom phase changes by the full phase delta, but the X phase
changes by a rounded sum: the zoom increment is not four times the rotation
increment. -/
theorem zoom_increment_not_four_rotation_increments :
    M_PI_double = 884279719003555 / 281474976710656 ∧
    ∀ cos : ℚ → ℚ,
      (run M_PI_double cos initState
        [Input.keyboard 'i' 0 0, Input.idle 1, Input.keyboard 'z' 0 0]).g_IsRotatingX = true ∧
      (run M_PI_double cos initState
        [Input.keyboard 'i' 0 0, Input.idle 1, Input.keyboard 'z' 0 0]).g_IsZooming = true ∧
      (frame M_PI_double cos (run M_PI_double cos initState
        [Input.keyboard 'i' 0 0, Input.idle 1, Input.keyboard 'z' 0 0]) 8).1.phaseZoom
        - (run M_PI_double cos initState
            [Input.keyboard 'i' 0 0, Input.idle 1, Input.keyboard 'z' 0 0]).phaseZoom
        = -(3169258512908741 / 72057594037927936) ∧
      (frame M_PI_double cos (run M_PI_double cos initState
        [Input.keyboard 'i' 0 0, Input.idle 1, Input.keyboard 'z' 0 0]) 8).1.phaseX
        - (run M_PI_double cos initState
            [Input.keyboard 'i' 0 0, Input.idle 1, Input.keyboard 'z' 0 0]).phaseX
        = -(50708136206539853 / 4611686018427387904) ∧
      (frame M_PI_double cos (run M_PI_double cos initState
        [Input.keyboard 'i' 0 0, Input.idle 1, Input.keyboard 'z' 0 0]) 8).1.phaseZoom
        - (run M_PI_double cos initState
            [Input.keyboard 'i' 0 0, Input.idle 1, Input.keyboard 'z' 0 0]).phaseZoom
        ≠ 4 * ((frame M_PI_double cos (run M_PI_double cos initState
            [Input.keyboard 'i' 0 0, Input.idle 1, Input.keyboard 'z' 0 0]) 8).1.phaseX
          - (run M_PI_double cos initState
              [Input.keyboard 'i' 0 0, Input.idle 1, Input.keyboard 'z' 0 0]).phaseX) := by
  refine ⟨M_PI_double_eq, ?_⟩
  intro cos
  have hx0 : (key (initState : State ℚ) 'i' 0 0).g_IsRotatingX = true := by
    simp [key, initState]
  have hz0 : (key (initState : State ℚ) 'i' 0 0).g_IsZooming = false := by
    simp [key, initState]
  have hp0 : (key (initState : State ℚ) 'i' 0 0).phaseX = 0 := by simp [key, initState]
  have hq0 : (key (initState : State ℚ) 'i' 0 0).phaseZoom = 0 := by simp [key, initState]
  have hT0 : (key (initState : State ℚ) 'i' 0 0).g_Time = 0 := by simp [key, initState]
  have e1 : wrapInt (0 - 1) = -1 := by decide
  have e2 : wrapInt (1 - 8) = -7 := by decide
  -- after the first frame
  have fx := frame_X M_PI_double cos (key (initState : State ℚ) 'i' 0 0) 1
  have fz := frame_Zoom M_PI_double cos (key (initState : State ℚ) 'i' 0 0) 1
  have fc := frame_clock M_PI_double cos (key (initState : State ℚ) 'i' 0 0) 1
  rw [hx0, if_pos rfl, hp0, hT0, e1, phaseDeltaOf_M_PI_neg_1, quarter_neg_1,
    phase_0_neg_1] at fx
  rw [hz0] at fz
  simp only [Bool.false_eq_true, if_false, hq0] at fz
  -- after the key `z`
  have hs : run M_PI_double cos initState
      [Input.keyboard 'i' 0 0, Input.idle 1, Input.keyboard 'z' 0 0]
      = key (frame M_PI_double cos (key initState 'i' 0 0) 1).1 'z' 0 0 := rfl
  have k := key_frame (frame M_PI_double cos (key (initState : State ℚ) 'i' 0 0) 1).1 'z' 0 0
  have kz := (key_toggles (frame M_PI_double cos (key (initState : State ℚ) 'i' 0 0) 1).1
    0 0).2.2.2
  have kx : (key (frame M_PI_double cos (key (initState : State ℚ) 'i' 0 0) 1).1
      'z' 0 0).g_IsRotatingX = true := by
    have : (key (frame M_PI_double cos (key (initState : State ℚ) 'i' 0 0) 1).1
        'z' 0 0).g_IsRotatingX
        = (frame M_PI_double cos (key (initState : State ℚ) 'i' 0 0) 1).1.g_IsRotatingX := by
      simp [key]
    rw [this, fx.1]
  rw [fz.1] at kz
  have kzt : (key (frame M_PI_double cos (key (initState : State ℚ) 'i' 0 0) 1).1
      'z' 0 0).g_IsZooming = true := kz
  have kpx := k.2.2.1.trans fx.2.1
  have kpz := k.2.2.2.2.2.1.trans fz.2.1
  have kT := k.2.2.2.2.2.2.2.2.1.trans fc.2.2
  -- the second frame
  have gx := frame_X M_PI_double cos
    (key (frame M_PI_double cos (key (initState : State ℚ) 'i' 0 0) 1).1 'z' 0 0) 8
  have gz := frame_Zoom M_PI_double cos
    (key (frame M_PI_double cos (key (initState : State ℚ) 'i' 0 0) 1).1 'z' 0 0) 8
  rw [kx, if_pos rfl, kpx, kT, e2, phaseDeltaOf_M_PI_neg_7, quarter_neg_7,
    phase_neg_1_neg_7] at gx
  rw [kzt, if_pos rfl, kpz, kT, e2, phaseDeltaOf_M_PI_neg_7, zoom_phase_0_neg_7] at gz
  rw [hs, gx.2.1, gz.2.1, kpx, kpz]
  refine ⟨kx, kzt, ?_, ?_, ?_⟩ <;> norm_num

/-- C2, amended: with the zoom toggle true, one `frame` adds, in `double`
arithmetic, the full phase delta `d = 2π·deltaMillis/1000` (the stored
`g_PhaseDelta`, of which each active rotation axis adds the quarter, likewise
in `double` arithmetic) to the zoom phase, and sets `Zoom` to
`1.1 + 0.9·cos(new zoom phase)` evaluated in `double` arithmetic and narrowed
to `float`. -/
theorem frame_zoom_step (M_PI : ℚ) (cos : ℚ → ℚ) (s : State ℚ) (t : Int)
    (hz : s.g_IsZooming = true) :
    (frame M_PI cos s t).1.g_TimeDelta = wrapInt (s.g_Time - t) ∧
    (frame M_PI cos s t).1.g_PhaseDelta
      = phaseDeltaOf M_PI (frame M_PI cos s t).1.g_TimeDelta ∧
    (frame M_PI cos s t).1.phaseZoom
      = dadd s.phaseZoom (frame M_PI cos s t).1.g_PhaseDelta ∧
    (frame M_PI cos s t).1.g_fu.Zoom = zoomOf cos (frame M_PI cos s t).1.phaseZoom ∧
    (s.g_IsRotatingX = true → (frame M_PI cos s t).1.phaseX
      = dadd s.phaseX (ddiv (frame M_PI cos s t).1.g_PhaseDelta 4)) ∧
    (s.g_IsRotatingY = true → (frame M_PI cos s t).1.phaseY
      = dadd s.phaseY (ddiv (frame M_PI cos s t).1.g_PhaseDelta 4)) ∧
    (s.g_IsRotatingZ = true → (frame M_PI cos s t).1.phaseZ
      = dadd s.phaseZ (ddiv (frame M_PI cos s t).1.g_PhaseDelta 4)) := by
  have hc := frame_clock M_PI cos s t
  have hzm := frame_Zoom M_PI cos s t
  have hd : (frame M_PI cos s t).1.g_PhaseDelta
      = phaseDeltaOf M_PI (frame M_PI cos s t).1.g_TimeDelta := by
    rw [hc.2.1, hc.1]
  refine ⟨hc.1, hd, ?_, ?_, ?_, ?_, ?_⟩
  · rw [hzm.2.1, if_pos hz, hc.2.1]
  · rw [hzm.2.2, hzm.2.1, if_pos hz, if_pos hz]
  · intro h
    rw [(frame_X M_PI cos s t).2.1, if_pos h, hc.2.1]
  · intro h
    rw [(frame_Y M_PI cos s t).2.1, if_pos h, hc.2.1]
  · intro h
    rw [(frame_Z M_PI cos s t).2.1, if_pos h, hc.2.1]

/-- C2, amended, the scenario: from the initial state with zoom toggled on,
three `frame` calls whose `deltaMillis` are 334, 333, 333 (clock readings
-334, -667, -1000) give the zoom phase `2·M_PI`, three `frame` calls whose
`deltaMillis` are -334, -333, -333 (clock readings 334, 667, 1000) give the
zoom phase `-2·M_PI`, and either way `Zoom` ends as 2 for a `cos` that
returns 1 there. -/
theorem frame_zoom_step_witness :
    (key (initState : State ℚ) 'z' 0 0).g_IsZooming = true ∧
    ∀ cos : ℚ → ℚ, cos (2 * M_PI_double) = 1 → cos (-(2 * M_PI_double)) = 1 →
      (frames M_PI_double cos (key initState 'z' 0 0) [-334, -667, -1000]).phaseZoom
        = 2 * M_PI_double ∧
      (frames M_PI_double cos (key initState 'z' 0 0) [-334, -667, -1000]).g_fu.Zoom = 2 ∧
      (frames M_PI_double cos (key initState 'z' 0 0) [334, 667, 1000]).phaseZoom
        = -(2 * M_PI_double) ∧
      (frames M_PI_double cos (key initState 'z' 0 0) [334, 667, 1000]).g_fu.Zoom = 2 := by
  have h0 : (key (initState : State ℚ) 'z' 0 0).g_IsZooming = true := by
    simp [key, initState]
  have p0 : (key (initState : State ℚ) 'z' 0 0).phaseZoom = 0 := by simp [key, initState]
  have t0 : (key (initState : State ℚ) 'z' 0 0).g_Time = 0 := by simp [key, initState]
  refine ⟨h0, ?_⟩
  intro cos hc1 hc2
  have hM2 : 2 * M_PI_double = 884279719003555 / 140737488355328 := by
    rw [M_PI_double_eq]; norm_num
  -- backward readings: positive deltas
  have a1 := frame_zoom_step M_PI_double cos (key initState 'z' 0 0) (-334) h0
  have ha1 : (frame M_PI_double cos (key initState 'z' 0 0) (-334)).1.g_IsZooming = true :=
    (frame_Zoom M_PI_double cos _ _).1.trans h0
  have ta1 := (frame_clock M_PI_double cos (key (initState : State ℚ) 'z' 0 0) (-334)).2.2
  have a2 := frame_zoom_step M_PI_double cos
    (frame M_PI_double cos (key initState 'z' 0 0) (-334)).1 (-667) ha1
  have ha2 : (frame M_PI_double cos (frame M_PI_double cos (key initState 'z' 0 0)
      (-334)).1 (-667)).1.g_IsZooming = true := (frame_Zoom M_PI_double cos _ _).1.trans ha1
  have ta2 := (frame_clock M_PI_double cos
    (frame M_PI_double cos (key (initState : State ℚ) 'z' 0 0) (-334)).1 (-667)).2.2
  have a3 := frame_zoom_step M_PI_double cos (frame M_PI_double cos
    (frame M_PI_double cos (key initState 'z' 0 0) (-334)).1 (-667)).1 (-1000) ha2
  obtain ⟨d1, g1, q1, -⟩ := a1
  obtain ⟨d2, g2, q2, -⟩ := a2
  obtain ⟨d3, g3, q3, z3, -⟩ := a3
  have e1 : wrapInt (0 - -334) = 334 := by decide
  have e2 : wrapInt (-334 - -667) = 333 := by decide
  have e3 : wrapInt (-667 - -1000) = 333 := by decide
  rw [t0, e1] at d1
  rw [ta1, e2] at d2
  rw [ta2, e3] at d3
  rw [d1, phaseDeltaOf_M_PI_334] at g1
  rw [d2, phaseDeltaOf_M_PI_333] at g2
  rw [d3, phaseDeltaOf_M_PI_333] at g3
  rw [g1, p0, zoom_phase_334] at q1
  rw [g2, q1, zoom_phase_334_333] at q2
  rw [g3, q2, zoom_phase_334_333_333] at q3
  -- forward readings: negative deltas
  have b1 := frame_zoom_step M_PI_double cos (key initState 'z' 0 0) 334 h0
  have hb1 : (frame M_PI_double cos (key initState 'z' 0 0) 334).1.g_IsZooming = true :=
    (frame_Zoom M_PI_double cos _ _).1.trans h0
  have tb1 := (frame_clock M_PI_double cos (key (initState : State ℚ) 'z' 0 0) 334).2.2
  have b2 := frame_zoom_step M_PI_double cos
    (frame M_PI_double cos (key initState 'z' 0 0) 334).1 667 hb1
  have hb2 : (frame M_PI_double cos (frame M_PI_double cos (key initState 'z' 0 0)
      334).1 667).1.g_IsZooming = true := (frame_Zoom M_PI_double cos _ _).1.trans hb1
  have tb2 := (frame_clock M_PI_double cos
    (frame M_PI_double cos (key (initState : State ℚ) 'z' 0 0) 334).1 667).2.2
  have b3 := frame_zoom_step M_PI_double cos (frame M_PI_double cos
    (frame M_PI_double cos (key initState 'z' 0 0) 334).1 667).1 1000 hb2
  obtain ⟨c1, k1, r1, -⟩ := b1
  obtain ⟨c2, k2, r2, -⟩ := b2
  obtain ⟨c3, k3, r3, w3, -⟩ := b3
  have f1 : wrapInt (0 - 334) = -334 := by decide
  have f2 : wrapInt (334 - 667) = -333 := by decide
  have f3 : wrapInt (667 - 1000) = -333 := by decide
  rw [t0, f1] at c1
  rw [tb1, f2] at c2
  rw [tb2, f3] at c3
  rw [c1, phaseDeltaOf_M_PI_neg_334] at k1
  rw [c2, phaseDeltaOf_M_PI_neg_333] at k2
  rw [c3, phaseDeltaOf_M_PI_neg_333] at k3
  rw [k1, p0, zoom_phase_neg_334] at r1
  rw [k2, r1, zoom_phase_neg_334_333] at r2
  rw [k3, r2, zoom_phase_neg_334_333_333] at r3
  have pa : (frames M_PI_double cos (key initState 'z' 0 0) [-334, -667, -1000]).phaseZoom
      = 2 * M_PI_double := by
    rw [hM2]; exact q3
  have pb : (frames M_PI_double cos (key initState 'z' 0 0) [334, 667, 1000]).phaseZoom
      = -(2 * M_PI_double) := by
    rw [hM2]; exact r3
  refine ⟨pa, ?_, pb, ?_⟩
  · refine z3.trans ?_
    apply zoomOf_of_cos_eq_one
    have : (frame M_PI_double cos (frame M_PI_double cos (frame M_PI_double cos
        (key initState 'z' 0 0) (-334)).1 (-667)).1 (-1000)).1.phaseZoom
        = 2 * M_PI_double := pa
    rw [this]; exact hc1
  · refine w3.trans ?_
    apply zoomOf_of_cos_eq_one
    have : (frame M_PI_double cos (frame M_PI_double cos (frame M_PI_double cos
        (key initState 'z' 0 0) 334).1 667).1 1000).1.phaseZoom
        = -(2 * M_PI_double) := pb
    rw [this]; exact hc2

/-! ## The zoom uniform -/

/-- C3, as the claim has it: after the key `z` and one `frame` at clock
reading 500 the zoom phase is `-M_PI`; for every `cos` that returns -1 there
(as the library cosine does), `Zoom` is the `float` `13421773 / 67108864`
(0.20000000298…), which is not `1.1 + 0.9·cos(zoom phase) = 0.2`. -/
theorem zoom_not_exact :
    M_PI_double = 884279719003555 / 281474976710656 ∧
    ∀ cos : ℚ → ℚ, cos (-(884279719003555 / 281474976710656)) = -1 →
      (run M_PI_double cos (startState 1) [Input.keyboard 'z' 0 0, Input.idle 500]).phaseZoom
        = -(884279719003555 / 281474976710656) ∧
      (run M_PI_double cos (startState 1) [Input.keyboard 'z' 0 0, Input.idle 500]).g_fu.Zoom
        = 13421773 / 67108864 ∧
      (run M_PI_double cos (startState 1) [Input.keyboard 'z' 0 0, Input.idle 500]).g_fu.Zoom
        ≠ 1.1 + 0.9 * cos (run M_PI_double cos (startState 1)
            [Input.keyboard 'z' 0 0, Input.idle 500]).phaseZoom := by
  refine ⟨M_PI_double_eq, ?_⟩
  intro cos hcos
  have hz : (key (startState (1 : Mat4 ℚ)) 'z' 0 0).g_IsZooming = true := by
    simp [key, startState, initState]
  have hp : (key (startState (1 : Mat4 ℚ)) 'z' 0 0).phaseZoom = 0 := by
    simp [key, startState, initState]
  have hT : (key (startState (1 : Mat4 ℚ)) 'z' 0 0).g_Time = 0 := by
    simp [key, startState, initState]
  have e : wrapInt (0 - 500) = -500 := by decide
  have h := frame_Zoom M_PI_double cos (key (startState (1 : Mat4 ℚ)) 'z' 0 0) 500
  rw [hz, if_pos rfl, if_pos rfl, hp, hT, e, phaseDeltaOf_M_PI_neg_500,
    zoom_phase_0_neg_500] at h
  have hph : (run M_PI_double cos (startState 1)
      [Input.keyboard 'z' 0 0, Input.idle 500]).phaseZoom
      = -(884279719003555 / 281474976710656) := h.2.1
  have hzm : (run M_PI_double cos (startState 1)
      [Input.keyboard 'z' 0 0, Input.idle 500]).g_fu.Zoom = 13421773 / 67108864 := by
    refine h.2.2.trans ?_
    exact zoomOf_of_cos_eq_neg_one cos _ hcos
  refine ⟨hph, hzm, ?_⟩
  rw [hzm, hph, hcos]
  norm_num

/-- C3, amended: for a library cosine with `cos 0 = 1` and values in
`[-1, 1]`, in every state reached from the start state (static initialisers,
any projection matrix) by any sequence of `key`, `frame` and `render`
callbacks with arbitrary clock readings, `Zoom` is the expression
`1.1 + 0.9·cos(zoom phase)` evaluated in `double` arithmetic and narrowed to
`float`, and it lies in `[0.2, 2.0]`. -/
theorem reachable_zoom_range (M_PI : ℚ) (cos : ℚ → ℚ) (P : Mat4 ℚ) (is : List Input)
    (h0 : cos 0 = 1) (hc : ∀ x : ℚ, -1 ≤ cos x ∧ cos x ≤ 1) :
    (run M_PI cos (startState P) is).g_fu.Zoom
      = zoomOf cos (run M_PI cos (startState P) is).phaseZoom ∧
    0.2 ≤ (run M_PI cos (startState P) is).g_fu.Zoom ∧
    (run M_PI cos (startState P) is).g_fu.Zoom ≤ 2.0 := by
  have hs : (startState P).g_fu.Zoom = zoomOf cos (startState P).phaseZoom := by
    have e1 : (startState P).g_fu.Zoom = 2 := rfl
    have e2 : (startState P).phaseZoom = 0 := rfl
    rw [e1, e2, zoomOf_of_cos_eq_one cos 0 h0]
  have h := run_zoom_inv M_PI cos is (startState P) hs
  have hr := zoomOf_range cos (run M_PI cos (startState P) is).phaseZoom
    (hc _).1 (hc _).2
  rw [← h] at hr
  refine ⟨h, ?_, ?_⟩
  · have : (0.2 : ℚ) ≤ 13421773 / 67108864 := by norm_num
    exact le_trans this hr.1
  · have : (2 : ℚ) ≤ 2.0 := by norm_num
    exact le_trans hr.2 this

/-- C3, amended, at a concrete input: with a cosine that is 1 at 0 and -1
elsewhere, after the key `z` and one `frame` at clock reading 500 `Zoom` is
the `float` `13421773 / 67108864`, inside `[0.2, 2.0]`. -/
theorem reachable_zoom_range_witness :
    (run M_PI_double (fun x => if x = 0 then 1 else -1) (startState 1)
        [Input.keyboard 'z' 0 0, Input.idle 500]).g_fu.Zoom = 13421773 / 67108864 ∧
    0.2 ≤ (run M_PI_double (fun x => if x = 0 then 1 else -1) (startState 1)
        [Input.keyboard 'z' 0 0, Input.idle 500]).g_fu.Zoom ∧
    (run M_PI_double (fun x => if x = 0 then 1 else -1) (startState 1)
        [Input.keyboard 'z' 0 0, Input.idle 500]).g_fu.Zoom ≤ 2.0 := by
  have h := reachable_zoom_range M_PI_double (fun x => if x = 0 then 1 else -1) 1
    [Input.keyboard 'z' 0 0, Input.idle 500] (by simp)
    (by intro x; dsimp only; split_ifs <;> norm_num)
  refine ⟨?_, h.2.1, h.2.2⟩
  have hz : (key (startState (1 : Mat4 ℚ)) 'z' 0 0).g_IsZooming = true := by
    simp [key, startState, initState]
  have hp : (key (startState (1 : Mat4 ℚ)) 'z' 0 0).phaseZoom = 0 := by
    simp [key, startState, initState]
  have hT : (key (startState (1 : Mat4 ℚ)) 'z' 0 0).g_Time = 0 := by
    simp [key, startState, initState]
  have e : wrapInt (0 - 500) = -500 := by decide
  have hf := frame_Zoom M_PI_double (fun x : ℚ => if x = 0 then (1 : ℚ) else -1)
    (key (startState (1 : Mat4 ℚ)) 'z' 0 0) 500
  rw [hz, if_pos rfl, if_pos rfl, hp, hT, e, phaseDeltaOf_M_PI_neg_500,
    zoom_phase_0_neg_500] at hf
  refine hf.2.2.trans ?_
  apply zoomOf_of_cos_eq_neg_one
  norm_num

/-! ## Frozen phases -/

/-- C4, as the claim has it: X is toggled on, a `frame` runs at clock
reading 1, X is toggled off, a `frame` runs at clock reading 4 (the X phase
stays frozen), X is toggled on again and a `frame` runs at clock reading 11.
The resumed X phase is a rounded sum: it is not the frozen phase plus `d/4`
for the phase delta `d` of that frame. -/
theorem resumed_phase_rounded :
    M_PI_double = 884279719003555 / 281474976710656 ∧
    ∀ cos : ℚ → ℚ,
      (run M_PI_double cos initState [Input.keyboard 'i' 0 0, Input.idle 1,
        Input.keyboard 'i' 0 0, Input.idle 4]).g_IsRotatingX = false ∧
      (run M_PI_double cos initState [Input.keyboard 'i' 0 0, Input.idle 1,
        Input.keyboard 'i' 0 0, Input.idle 4]).phaseX
        = -(7244019458077123 / 4611686018427387904) ∧
      (frame M_PI_double cos (key (run M_PI_double cos initState [Input.keyboard 'i' 0 0,
        Input.idle 1, Input.keyboard 'i' 0 0, Input.idle 4]) 'i' 0 0) 11).1.g_PhaseDelta
        = -(3169258512908741 / 72057594037927936) ∧
      (frame M_PI_double cos (key (run M_PI_double cos initState [Input.keyboard 'i' 0 0,
        Input.idle 1, Input.keyboard 'i' 0 0, Input.idle 4]) 'i' 0 0) 11).1.phaseX
        = -(3622009729038561 / 288230376151711744) ∧
      (frame M_PI_double cos (key (run M_PI_double cos initState [Input.keyboard 'i' 0 0,
        Input.idle 1, Input.keyboard 'i' 0 0, Input.idle 4]) 'i' 0 0) 11).1.phaseX
        ≠ (run M_PI_double cos initState [Input.keyboard 'i' 0 0, Input.idle 1,
            Input.keyboard 'i' 0 0, Input.idle 4]).phaseX
          + (frame M_PI_double cos (key (run M_PI_double cos initState
              [Input.keyboard 'i' 0 0, Input.idle 1, Input.keyboard 'i' 0 0,
               Input.idle 4]) 'i' 0 0) 11).1.g_PhaseDelta / 4 := by
  refine ⟨M_PI_double_eq, ?_⟩
  intro cos
  have hx0 : (key (initState : State ℚ) 'i' 0 0).g_IsRotatingX = true := by
    simp [key, initState]
  have hp0 : (key (initState : State ℚ) 'i' 0 0).phaseX = 0 := by simp [key, initState]
  have hT0 : (key (initState : State ℚ) 'i' 0 0).g_Time = 0 := by simp [key, initState]
  have e1 : wrapInt (0 - 1) = -1 := by decide
  have e3 : wrapInt (4 - 11) = -7 := by decide
  -- first frame, X on
  have fx := frame_X M_PI_double cos (key (initState : State ℚ) 'i' 0 0) 1
  have fc := frame_clock M_PI_double cos (key (initState : State ℚ) 'i' 0 0) 1
  rw [hx0, if_pos rfl, hp0, hT0, e1, phaseDeltaOf_M_PI_neg_1, quarter_neg_1,
    phase_0_neg_1] at fx
  -- key `i`: X off
  have k1 := key_frame (frame M_PI_double cos (key (initState : State ℚ) 'i' 0 0) 1).1 'i' 0 0
  have k1x := (key_toggles (frame M_PI_double cos (key (initState : State ℚ) 'i' 0 0) 1).1
    0 0).1
  rw [fx.1] at k1x
  have k1f : (key (frame M_PI_double cos (key (initState : State ℚ) 'i' 0 0) 1).1
      'i' 0 0).g_IsRotatingX = false := k1x
  have k1p := k1.2.2.1.trans fx.2.1
  -- second frame, X frozen
  have gx := frame_X M_PI_double cos
    (key (frame M_PI_double cos (key (initState : State ℚ) 'i' 0 0) 1).1 'i' 0 0) 4
  have gc := frame_clock M_PI_double cos
    (key (frame M_PI_double cos (key (initState : State ℚ) 'i' 0 0) 1).1 'i' 0 0) 4
  rw [k1f] at gx
  simp only [Bool.false_eq_true, if_false, k1p] at gx
  have hs : run M_PI_double cos initState [Input.keyboard 'i' 0 0, Input.idle 1,
      Input.keyboard 'i' 0 0, Input.idle 4]
      = (frame M_PI_double cos
          (key (frame M_PI_double cos (key initState 'i' 0 0) 1).1 'i' 0 0) 4).1 := rfl
  rw [hs]
  -- key `i`: X on again
  have k2 := key_frame (frame M_PI_double cos
    (key (frame M_PI_double cos (key (initState : State ℚ) 'i' 0 0) 1).1 'i' 0 0) 4).1 'i' 0 0
  have k2x := (key_toggles (frame M_PI_double cos
    (key (frame M_PI_double cos (key (initState : State ℚ) 'i' 0 0) 1).1 'i' 0 0) 4).1 0 0).1
  rw [gx.1] at k2x
  have k2t : (key (frame M_PI_double cos
      (key (frame M_PI_double cos (key (initState : State ℚ) 'i' 0 0) 1).1 'i' 0 0) 4).1
      'i' 0 0).g_IsRotatingX = true := k2x
  have k2p := k2.2.2.1.trans gx.2.1
  have k2T := k2.2.2.2.2.2.2.2.2.1.trans gc.2.2
  -- third frame, X resumed
  have rx := frame_X M_PI_double cos (key (frame M_PI_double cos
    (key (frame M_PI_double cos (key (initState : State ℚ) 'i' 0 0) 1).1 'i' 0 0) 4).1
    'i' 0 0) 11
  have rc := frame_clock M_PI_double cos (key (frame M_PI_double cos
    (key (frame M_PI_double cos (key (initState : State ℚ) 'i' 0 0) 1).1 'i' 0 0) 4).1
    'i' 0 0) 11
  rw [k2t, if_pos rfl, k2p, k2T, e3, phaseDeltaOf_M_PI_neg_7, quarter_neg_7,
    phase_neg_1_neg_7] at rx
  rw [k2T, e3, phaseDeltaOf_M_PI_neg_7] at rc
  refine ⟨gx.1, gx.2.1, rc.2.1, rx.2.1, ?_⟩
  rw [rx.2.1, gx.2.1, rc.2.1]
  norm_num

/-- C4, amended: over any sequence of `frame` calls with arbitrary clock
readings, a rotation axis (or the zoom) whose toggle is false keeps its phase
and its rotation angle (or `Zoom`) exactly unchanged; the phase is not reset:
when the toggle is then switched back on by its key, the next `frame`, with
phase delta `d = 2π·deltaMillis/1000` computed in `double`, continues from the
frozen phase in `double` arithmetic (`frozen + d/4` for a rotation,
`frozen + d` for the zoom, each rounded to `double`), the rotation angle being
the new phase narrowed to `float` and `Zoom` being `1.1 + 0.9·cos(new phase)`
in `double` arithmetic narrowed to `float`. -/
theorem frozen_phase_resumes (M_PI : ℚ) (cos : ℚ → ℚ) (s : State ℚ) (ts : List Int)
    (t x y : Int) :
    (s.g_IsRotatingX = false →
      (frames M_PI cos s ts).g_IsRotatingX = false ∧
      (frames M_PI cos s ts).phaseX = s.phaseX ∧
      (frames M_PI cos s ts).g_vu.rotx = s.g_vu.rotx ∧
      (frame M_PI cos (key (frames M_PI cos s ts) 'i' x y) t).1.phaseX
        = dadd s.phaseX
            (ddiv (phaseDeltaOf M_PI (wrapInt ((frames M_PI cos s ts).g_Time - t))) 4) ∧
      (frame M_PI cos (key (frames M_PI cos s ts) 'i' x y) t).1.g_vu.rotx
        = Rounding.toFloat
            (frame M_PI cos (key (frames M_PI cos s ts) 'i' x y) t).1.phaseX) ∧
    (s.g_IsRotatingY = false →
      (frames M_PI cos s ts).g_IsRotatingY = false ∧
      (frames M_PI cos s ts).phaseY = s.phaseY ∧
      (frames M_PI cos s ts).g_vu.roty = s.g_vu.roty ∧
      (frame M_PI cos (key (frames M_PI cos s ts) 'j' x y) t).1.phaseY
        = dadd s.phaseY
            (ddiv (phaseDeltaOf M_PI (wrapInt ((frames M_PI cos s ts).g_Time - t))) 4) ∧
      (frame M_PI cos (key (frames M_PI cos s ts) 'j' x y) t).1.g_vu.roty
        = Rounding.toFloat
            (frame M_PI cos (key (frames M_PI cos s ts) 'j' x y) t).1.phaseY) ∧
    (s.g_IsRotatingZ = false →
      (frames M_PI cos s ts).g_IsRotatingZ = false ∧
      (frames M_PI cos s ts).phaseZ = s.phaseZ ∧
      (frames M_PI cos s ts).g_vu.rotz = s.g_vu.rotz ∧
      (frame M_PI cos (key (frames M_PI cos s ts) 'k' x y) t).1.phaseZ
        = dadd s.phaseZ
            (ddiv (phaseDeltaOf M_PI (wrapInt ((frames M_PI cos s ts).g_Time - t))) 4) ∧
      (frame M_PI cos (key (frames M_PI cos s ts) 'k' x y) t).1.g_vu.rotz
        = Rounding.toFloat
            (frame M_PI cos (key (frames M_PI cos s ts) 'k' x y) t).1.phaseZ) ∧
    (s.g_IsZooming = false →
      (frames M_PI cos s ts).g_IsZooming = false ∧
      (frames M_PI cos s ts).phaseZoom = s.phaseZoom ∧
      (frames M_PI cos s ts).g_fu.Zoom = s.g_fu.Zoom ∧
      (frame M_PI cos (key (frames M_PI cos s ts) 'z' x y) t).1.phaseZoom
        = dadd s.phaseZoom
            (phaseDeltaOf M_PI (wrapInt ((frames M_PI cos s ts).g_Time - t))) ∧
      (frame M_PI cos (key (frames M_PI cos s ts) 'z' x y) t).1.g_fu.Zoom
        = zoomOf cos (frame M_PI cos (key (frames M_PI cos s ts) 'z' x y) t).1.phaseZoom) := by
  refine ⟨?_, ?_, ?_, ?_⟩
  · intro h
    obtain ⟨f1, f2, f3⟩ := frames_frozen_X M_PI cos ts s h
    have k := key_frame (frames M_PI cos s ts) 'i' x y
    have kt : (key (frames M_PI cos s ts) 'i' x y).g_IsRotatingX = true := by
      rw [(key_toggles (frames M_PI cos s ts) x y).1, f1]; rfl
    have a := frame_X M_PI cos (key (frames M_PI cos s ts) 'i' x y) t
    rw [kt, if_pos rfl, if_pos rfl, k.2.2.1, k.2.2.2.2.2.2.2.2.1, f2] at a
    exact ⟨f1, f2, f3, a.2.1, by rw [a.2.2, a.2.1]⟩
  · intro h
    obtain ⟨f1, f2, f3⟩ := frames_frozen_Y M_PI cos ts s h
    have k := key_frame (frames M_PI cos s ts) 'j' x y
    have kt : (key (frames M_PI cos s ts) 'j' x y).g_IsRotatingY = true := by
      rw [(key_toggles (frames M_PI cos s ts) x y).2.1, f1]; rfl
    have a := frame_Y M_PI cos (key (frames M_PI cos s ts) 'j' x y) t
    rw [kt, if_pos rfl, if_pos rfl, k.2.2.2.1, k.2.2.2.2.2.2.2.2.1, f2] at a
    exact ⟨f1, f2, f3, a.2.1, by rw [a.2.2, a.2.1]⟩
  · intro h
    obtain ⟨f1, f2, f3⟩ := frames_frozen_Z M_PI cos ts s h
    have k := key_frame (frames M_PI cos s ts) 'k' x y
    have kt : (key (frames M_PI cos s ts) 'k' x y).g_IsRotatingZ = true := by
      rw [(key_toggles (frames M_PI cos s ts) x y).2.2.1, f1]; rfl
    have a := frame_Z M_PI cos (key (frames M_PI cos s ts) 'k' x y) t
    rw [kt, if_pos rfl, if_pos rfl, k.2.2.2.2.1, k.2.2.2.2.2.2.2.2.1, f2] at a
    exact ⟨f1, f2, f3, a.2.1, by rw [a.2.2, a.2.1]⟩
  · intro h
    obtain ⟨f1, f2, f3⟩ := frames_frozen_Zoom M_PI cos ts s h
    have k := key_frame (frames M_PI cos s ts) 'z' x y
    have kt : (key (frames M_PI cos s ts) 'z' x y).g_IsZooming = true := by
      rw [(key_toggles (frames M_PI cos s ts) x y).2.2.2, f1]; rfl
    have a := frame_Zoom M_PI cos (key (frames M_PI cos s ts) 'z' x y) t
    rw [kt, if_pos rfl, if_pos rfl, k.2.2.2.2.2.1, k.2.2.2.2.2.2.2.2.1, f2] at a
    exact ⟨f1, f2, f3, a.2.1, by rw [a.2.2, a.2.1]⟩

/-- C4, amended, the scenario: from the initial state (all toggles false),
one `frame` with `deltaMillis = 0` leaves the three rotation angles at 0 and
`Zoom` at 2. -/
theorem frozen_phase_resumes_witness :
    (initState : State ℚ).g_IsRotatingX = false ∧
    (initState : State ℚ).g_IsRotatingY = false ∧
    (initState : State ℚ).g_IsRotatingZ = false ∧
    (initState : State ℚ).g_IsZooming = false ∧
    ∀ cos : ℚ → ℚ,
      (frames M_PI_double cos initState [0]).g_TimeDelta = 0 ∧
      (frames M_PI_double cos initState [0]).g_vu.rotx = 0 ∧
      (frames M_PI_double cos initState [0]).g_vu.roty = 0 ∧
      (frames M_PI_double cos initState [0]).g_vu.rotz = 0 ∧
      (frames M_PI_double cos initState [0]).g_fu.Zoom = 2 := by
  refine ⟨rfl, rfl, rfl, rfl, ?_⟩
  intro cos
  have h := frozen_phase_resumes M_PI_double cos initState [0] 0 0 0
  obtain ⟨hx, hy, hz, hzm⟩ := h
  have td : (frames M_PI_double cos (initState : State ℚ) [0]).g_TimeDelta = 0 :=
    (frame_clock M_PI_double cos (initState : State ℚ) 0).1.trans (by decide)
  exact ⟨td, (hx rfl).2.2.1, (hy rfl).2.2.1, (hz rfl).2.2.1, (hzm rfl).2.2.1⟩

/-! ## Telescoping of the clock deltas -/

section TelescopeLemmas
variable {α : Type} [Field α] [Rounding α]

/-- The toggles and the stored reading after a run of frames. -/
theorem frames_toggles (M_PI : α) (cos : α → α) (ts : List Int) (s : State α) :
    (frames M_PI cos s ts).g_IsRotatingX = s.g_IsRotatingX ∧
    (frames M_PI cos s ts).g_IsRotatingY = s.g_IsRotatingY ∧
    (frames M_PI cos s ts).g_IsRotatingZ = s.g_IsRotatingZ ∧
    (frames M_PI cos s ts).g_IsZooming = s.g_IsZooming ∧
    (frames M_PI cos s ts).g_Time = ts.getLastD s.g_Time := by
  induction ts generalizing s with
  | nil => exact ⟨rfl, rfl, rfl, rfl, rfl⟩
  | cons t ts ih =>
    have h := ih (frame M_PI cos s t).1
    rw [(frame_X M_PI cos s t).1, (frame_Y M_PI cos s t).1, (frame_Z M_PI cos s t).1,
      (frame_Zoom M_PI cos s t).1, (frame_clock M_PI cos s t).2.2] at h
    refine ⟨h.1, h.2.1, h.2.2.1, h.2.2.2.1, ?_⟩
    show (frames M_PI cos (frame M_PI cos s t).1 ts).g_Time = _
    rw [h.2.2.2.2]
    cases ts <;> rfl

/-- Without `int` overflow the stored deltas of a run of frames add up to the
first stored reading minus the last reading. -/
theorem frameDeltas_sum (M_PI : α) (cos : α → α) (ts : List Int) (s : State α)
    (hr : List.Chain (fun a b : Int => -2147483648 ≤ a - b ∧ a - b ≤ 2147483647)
      s.g_Time ts) :
    (frameDeltas M_PI cos s ts).sum = s.g_Time - ts.getLastD s.g_Time := by
  induction ts generalizing s with
  | nil => simp [frameDeltas]
  | cons t ts ih =>
    rw [List.chain_cons] at hr
    obtain ⟨h0, hr'⟩ := hr
    have hw : wrapInt (s.g_Time - t) = s.g_Time - t := by
      unfold wrapInt
      omega
    have hT := (frame_clock M_PI cos s t).2.2
    rw [← hT] at hr'
    have h := ih (frame M_PI cos s t).1 hr'
    rw [hT] at h
    have hl : (t :: ts).getLastD s.g_Time = ts.getLastD t := by cases ts <;> rfl
    show (frame M_PI cos s t).1.g_TimeDelta
      + (frameDeltas M_PI cos (frame M_PI cos s t).1 ts).sum = _
    rw [h, (frame_clock M_PI cos s t).1, hw, hl]
    ring

/-- The phases after a run of frames are the running `double` sums of the
per-frame increments, which are computed from the stored deltas. -/
theorem frames_phase_foldl (M_PI : α) (cos : α → α) (ts : List Int) (s : State α) :
    (s.g_IsRotatingX = true → (frames M_PI cos s ts).phaseX
      = (frameDeltas M_PI cos s ts).foldl
          (fun p d => dadd p (ddiv (phaseDeltaOf M_PI d) 4)) s.phaseX) ∧
    (s.g_IsRotatingY = true → (frames M_PI cos s ts).phaseY
      = (frameDeltas M_PI cos s ts).foldl
          (fun p d => dadd p (ddiv (phaseDeltaOf M_PI d) 4)) s.phaseY) ∧
    (s.g_IsRotatingZ = true → (frames M_PI cos s ts).phaseZ
      = (frameDeltas M_PI cos s ts).foldl
          (fun p d => dadd p (ddiv (phaseDeltaOf M_PI d) 4)) s.phaseZ) ∧
    (s.g_IsZooming = true → (frames M_PI cos s ts).phaseZoom
      = (frameDeltas M_PI cos s ts).foldl
          (fun p d => dadd p (phaseDeltaOf M_PI d)) s.phaseZoom) := by
  induction ts generalizing s with
  | nil => exact ⟨fun _ => rfl, fun _ => rfl, fun _ => rfl, fun _ => rfl⟩
  | cons t ts ih =>
    have h := ih (frame M_PI cos s t).1
    have hd := (frame_clock M_PI cos s t).1
    refine ⟨?_, ?_, ?_, ?_⟩
    · intro hx
      have h1 := h.1 ((frame_X M_PI cos s t).1.trans hx)
      have h2 := (frame_X M_PI cos s t).2.1
      rw [if_pos hx, ← hd] at h2
      show (frames M_PI cos (frame M_PI cos s t).1 ts).phaseX
        = (frameDeltas M_PI cos (frame M_PI cos s t).1 ts).foldl _
            (dadd s.phaseX (ddiv (phaseDeltaOf M_PI (frame M_PI cos s t).1.g_TimeDelta) 4))
      rw [h1, h2]
    · intro hx
      have h1 := h.2.1 ((frame_Y M_PI cos s t).1.trans hx)
      have h2 := (frame_Y M_PI cos s t).2.1
      rw [if_pos hx, ← hd] at h2
      show (frames M_PI cos (frame M_PI cos s t).1 ts).phaseY
        = (frameDeltas M_PI cos (frame M_PI cos s t).1 ts).foldl _
            (dadd s.phaseY (ddiv (phaseDeltaOf M_PI (frame M_PI cos s t).1.g_TimeDelta) 4))
      rw [h1, h2]
    · intro hx
      have h1 := h.2.2.1 ((frame_Z M_PI cos s t).1.trans hx)
      have h2 := (frame_Z M_PI cos s t).2.1
      rw [if_pos hx, ← hd] at h2
      show (frames M_PI cos (frame M_PI cos s t).1 ts).phaseZ
        = (frameDeltas M_PI cos (frame M_PI cos s t).1 ts).foldl _
            (dadd s.phaseZ (ddiv (phaseDeltaOf M_PI (frame M_PI cos s t).1.g_TimeDelta) 4))
      rw [h1, h2]
    · intro hx
      have h1 := h.2.2.2 ((frame_Zoom M_PI cos s t).1.trans hx)
      have h2 := (frame_Zoom M_PI cos s t).2.1
      rw [if_pos hx, ← hd] at h2
      show (frames M_PI cos (frame M_PI cos s t).1 ts).phaseZoom
        = (frameDeltas M_PI cos (frame M_PI cos s t).1 ts).foldl _
            (dadd s.phaseZoom (phaseDeltaOf M_PI (frame M_PI cos s t).1.g_TimeDelta))
      rw [h1, h2]

end TelescopeLemmas

/-- C16, as the claim has it: from the initial state with X toggled on
(stored reading 0), the two frames at clock readings 1 and 8 and the single
frame at clock reading 8 end with the same stored reading 8 but with
different X phases: the accumulated phase depends on the intermediate
reading. -/
theorem phase_depends_on_intermediate_readings :
    M_PI_double = 884279719003555 / 281474976710656 ∧
    (key (initState : State ℚ) 'i' 0 0).g_IsRotatingX = true ∧
    (key (initState : State ℚ) 'i' 0 0).g_Time = 0 ∧
    ∀ cos : ℚ → ℚ,
      (frames M_PI_double cos (key initState 'i' 0 0) [1, 8]).g_Time = 8 ∧
      (frames M_PI_double cos (key initState 'i' 0 0) [8]).g_Time = 8 ∧
      (frames M_PI_double cos (key initState 'i' 0 0) [1, 8]).phaseX
        = -(3622009729038561 / 288230376151711744) ∧
      (frames M_PI_double cos (key initState 'i' 0 0) [8]).phaseX
        = -(7244019458077123 / 576460752303423488) ∧
      (frames M_PI_double cos (key initState 'i' 0 0) [1, 8]).phaseX
        ≠ (frames M_PI_double cos (key initState 'i' 0 0) [8]).phaseX := by
  have hx0 : (key (initState : State ℚ) 'i' 0 0).g_IsRotatingX = true := by
    simp [key, initState]
  have hp0 : (key (initState : State ℚ) 'i' 0 0).phaseX = 0 := by simp [key, initState]
  have hT0 : (key (initState : State ℚ) 'i' 0 0).g_Time = 0 := by simp [key, initState]
  refine ⟨M_PI_double_eq, hx0, hT0, ?_⟩
  intro cos
  have e1 : wrapInt (0 - 1) = -1 := by decide
  have e2 : wrapInt (1 - 8) = -7 := by decide
  have e3 : wrapInt (0 - 8) = -8 := by decide
  have fx := frame_X M_PI_double cos (key (initState : State ℚ) 'i' 0 0) 1
  have fc := frame_clock M_PI_double cos (key (initState : State ℚ) 'i' 0 0) 1
  rw [hx0, if_pos rfl, hp0, hT0, e1, phaseDeltaOf_M_PI_neg_1, quarter_neg_1,
    phase_0_neg_1] at fx
  have gx := frame_X M_PI_double cos
    (frame M_PI_double cos (key (initState : State ℚ) 'i' 0 0) 1).1 8
  have gc := frame_clock M_PI_double cos
    (frame M_PI_double cos (key (initState : State ℚ) 'i' 0 0) 1).1 8
  rw [fx.1, if_pos rfl, fx.2.1, fc.2.2, e2, phaseDeltaOf_M_PI_neg_7, quarter_neg_7,
    phase_neg_1_neg_7] at gx
  have hx := frame_X M_PI_double cos (key (initState : State ℚ) 'i' 0 0) 8
  have hc := frame_clock M_PI_double cos (key (initState : State ℚ) 'i' 0 0) 8
  rw [hx0, if_pos rfl, hp0, hT0, e3, phaseDeltaOf_M_PI_neg_8, quarter_neg_8,
    phase_0_neg_8] at hx
  have a : (frames M_PI_double cos (key initState 'i' 0 0) [1, 8]).phaseX
      = -(3622009729038561 / 288230376151711744) := gx.2.1
  have b : (frames M_PI_double cos (key initState 'i' 0 0) [8]).phaseX
      = -(7244019458077123 / 576460752303423488) := hx.2.1
  refine ⟨gc.2.2, hc.2.2, a, b, ?_⟩
  rw [a, b]
  norm_num

/-- C16, amended: each `frame` stores its clock reading as the last sample
and sets `deltaPhase = 2π·deltaMillis/1000` in `double` arithmetic. Over a
sequence of frames with clock readings `t1..tn`, starting from stored reading
`t0`, in which every difference of consecutive readings (previous minus
current) is representable as `int`, the stored reading ends as `tn` and the
stored `deltaMillis` add up to `t0 − tn`, whatever the intermediate readings;
the toggles stay as they are, and each rotation phase whose toggle is true is
the running `double` sum of the increments `deltaPhase/4` of the frames (the
zoom phase, if its toggle is true, of the increments `deltaPhase`), each sum
being rounded to `double`. -/
theorem frames_telescope (M_PI : ℚ) (cos : ℚ → ℚ) (s : State ℚ) (ts : List Int)
    (hr : List.Chain (fun a b : Int => -2147483648 ≤ a - b ∧ a - b ≤ 2147483647)
      s.g_Time ts) :
    (∀ t : Int, (frame M_PI cos s t).1.g_Time = t ∧
      (frame M_PI cos s t).1.g_PhaseDelta
        = phaseDeltaOf M_PI (frame M_PI cos s t).1.g_TimeDelta) ∧
    (frames M_PI cos s ts).g_Time = ts.getLastD s.g_Time ∧
    (frameDeltas M_PI cos s ts).sum = s.g_Time - ts.getLastD s.g_Time ∧
    (s.g_IsRotatingX = true → (frames M_PI cos s ts).g_IsRotatingX = true ∧
      (frames M_PI cos s ts).phaseX
        = (frameDeltas M_PI cos s ts).foldl
            (fun p d => dadd p (ddiv (phaseDeltaOf M_PI d) 4)) s.phaseX) ∧
    (s.g_IsRotatingY = true → (frames M_PI cos s ts).g_IsRotatingY = true ∧
      (frames M_PI cos s ts).phaseY
        = (frameDeltas M_PI cos s ts).foldl
            (fun p d => dadd p (ddiv (phaseDeltaOf M_PI d) 4)) s.phaseY) ∧
    (s.g_IsRotatingZ = true → (frames M_PI cos s ts).g_IsRotatingZ = true ∧
      (frames M_PI cos s ts).phaseZ
        = (frameDeltas M_PI cos s ts).foldl
            (fun p d => dadd p (ddiv (phaseDeltaOf M_PI d) 4)) s.phaseZ) ∧
    (s.g_IsZooming = true → (frames M_PI cos s ts).g_IsZooming = true ∧
      (frames M_PI cos s ts).phaseZoom
        = (frameDeltas M_PI cos s ts).foldl
            (fun p d => dadd p (phaseDeltaOf M_PI d)) s.phaseZoom) := by
  have hs := frames_phase_foldl M_PI cos ts s
  have hg := frames_toggles M_PI cos ts s
  refine ⟨?_, hg.2.2.2.2, frameDeltas_sum M_PI cos ts s hr, ?_, ?_, ?_, ?_⟩
  · intro t
    have hc := frame_clock M_PI cos s t
    refine ⟨hc.2.2, ?_⟩
    rw [hc.2.1, hc.1]
  · intro h
    exact ⟨hg.1.trans h, hs.1 h⟩
  · intro h
    exact ⟨hg.2.1.trans h, hs.2.1 h⟩
  · intro h
    exact ⟨hg.2.2.1.trans h, hs.2.2.1 h⟩
  · intro h
    exact ⟨hg.2.2.2.1.trans h, hs.2.2.2 h⟩

/-- C16, amended, at concrete inputs: from the initial state with X toggled
on (stored reading 0), the frames at clock readings 1 and 8 store the deltas
-1 and -7, which add up to `0 − 8`, the stored reading ends as 8, and the X
phase is the `double` sum of the two increments. -/
theorem frames_telescope_witness :
    (key (initState : State ℚ) 'i' 0 0).g_IsRotatingX = true ∧
    ∀ cos : ℚ → ℚ,
      frameDeltas M_PI_double cos (key initState 'i' 0 0) [1, 8] = [-1, -7] ∧
      (frameDeltas M_PI_double cos (key initState 'i' 0 0) [1, 8]).sum = 0 - 8 ∧
      (frames M_PI_double cos (key initState 'i' 0 0) [1, 8]).g_Time = 8 ∧
      (frames M_PI_double cos (key initState 'i' 0 0) [1, 8]).phaseX
        = dadd (dadd 0 (ddiv (phaseDeltaOf M_PI_double (-1)) 4))
            (ddiv (phaseDeltaOf M_PI_double (-7)) 4) := by
  have hx0 : (key (initState : State ℚ) 'i' 0 0).g_IsRotatingX = true := by
    simp [key, initState]
  have hp0 : (key (initState : State ℚ) 'i' 0 0).phaseX = 0 := by simp [key, initState]
  have hT0 : (key (initState : State ℚ) 'i' 0 0).g_Time = 0 := by simp [key, initState]
  refine ⟨hx0, ?_⟩
  intro cos
  have h := frames_telescope M_PI_double cos (key initState 'i' 0 0) [1, 8]
    (by rw [hT0]; simp)
  have e1 : wrapInt (0 - 1) = -1 := by decide
  have e2 : wrapInt (1 - 8) = -7 := by decide
  have d1 := (frame_clock M_PI_double cos (key (initState : State ℚ) 'i' 0 0) 1).1
  have t1 := (frame_clock M_PI_double cos (key (initState : State ℚ) 'i' 0 0) 1).2.2
  have d2 := (frame_clock M_PI_double cos
    (frame M_PI_double cos (key (initState : State ℚ) 'i' 0 0) 1).1 8).1
  rw [hT0, e1] at d1
  rw [t1, e2] at d2
  have hd : frameDeltas M_PI_double cos (key initState 'i' 0 0) [1, 8] = [-1, -7] := by
    simp only [frameDeltas]
    rw [d1, d2]
  have h3 := h.2.2.1
  have h4 := (h.2.2.2.1 hx0).2
  have h5 := h.2.1
  rw [hT0] at h3 h5
  rw [hd, hp0] at h4
  rw [List.foldl_cons, List.foldl_cons, List.foldl_nil] at h4
  simp only [List.getLastD_cons, List.getLast?_cons_cons, List.getLast?_singleton,
    Option.getD_some] at h3 h5
  exact ⟨hd, h3, h5, h4⟩

end Mandelbrot
